import Mathlib

/-!
# reuseconn: a verification development

A shallow embedding of the `reuseconn` analyzer (`reuseconn/collector.go`,
`reuseconn/reuseconn.go`) and theorems about it.

The analyzer walks the SSA value graph outward from a value: to its referrers,
to their referrers, into the body of a closure or of a callee.  The embedding
represents the graph by its unfolding along those walks: an instruction carries
the data the analyzer reads from it, its referrers as a list of instructions,
and so on.  A runtime failure of the Go code (a nil dereference) is the result
`none`.
-/

set_option autoImplicit false

namespace Reuseconn

/-! ## Constants (reuseconn.go, lines 25-32) -/

def nethttpPath : String := "net/http"
def closeMethod : String := "Close"
def readMethod : String := "Read"
def responseType : String := "*net/http.Response"
def readCloserType : String := "io.ReadCloser"

/-- The message of the one diagnostic the checker emits (reuseconn.go, line 69). -/
def diagnosticMessage : String :=
  "response body must be disposed properly in a single function read to completion and closed"

/-! ## Go library functions used by the source -/

/-- Go `strings.Join`: the elements, with `sep` between consecutive ones. -/
def stringsJoin : List String → String → String
  | [], _ => ""
  | [a], _ => a
  | a :: b :: rest, sep => a ++ sep ++ stringsJoin (b :: rest) sep

/-- Whether the character list `p` starts the character list `s`. -/
def startsWith : List Char → List Char → Bool
  | _, [] => true
  | [], _ :: _ => false
  | c :: cs, d :: ds => c == d && startsWith cs ds

/-- Whether `sub` occurs in `s` as a contiguous run of characters. -/
def containsChars : List Char → List Char → Bool
  | [], sub => startsWith [] sub
  | c :: cs, sub => startsWith (c :: cs) sub || containsChars cs sub

/-- Go `strings.Contains`. -/
def stringsContains (s sub : String) : Bool := containsChars s.data sub.data

/-- A Go map as an association list; the first entry for a key is its value. -/
def mapGet {κ ν : Type} [DecidableEq κ] (m : List (κ × ν)) (k : κ) : Option ν :=
  match m with
  | [] => none
  | (k', v) :: rest => if k' = k then some v else mapGet rest k

/-- Go map assignment `m[k] = v`. -/
def mapSet {κ ν : Type} [DecidableEq κ] (m : List (κ × ν)) (k : κ) (v : ν) : List (κ × ν) :=
  (k, v) :: m.filter (fun e => !decide (e.1 = k))

/-! ## Data model -/

/-- A function identity inside a fact: `Fn` of collector.go. -/
structure Fn where
  Pkg : String
  Name : String
deriving DecidableEq, Repr

/-- The package fact `ResponseDisposers` of collector.go. -/
structure ResponseDisposers where
  Fns : List Fn
deriving DecidableEq, Repr

/-- The part of a `types.Type` the analyzer looks at. -/
inductive GoType
  /-- A `*types.Named`: the package path of its object (`none` for a universe
  type such as `error`) and its name. -/
  | named (pkg : Option String) (name : String)
  /-- A `*types.Pointer` and its element type. -/
  | pointer (elem : GoType)
  /-- Any other type (basic, tuple, signature, ...), given by its `String()`. -/
  | other (str : String)
deriving DecidableEq, Repr

/-- The result of `Type().String()` (go/types writes a named type with its full package path). -/
def typeString : GoType → String
  | .named (some pkg) name => pkg ++ "." ++ name
  | .named none name => name
  | .pointer elem => "*" ++ typeString elem
  | .other str => str

/-- A `*types.Func` of an interface method; `id` stands for the identity of the object. -/
structure Method where
  id : Nat
  name : String
deriving DecidableEq, Repr

/-- The operator of an `ssa.UnOp`. -/
inductive Token
  | MUL
  | ARROW
  | NOT
  | SUB
  | XOR
deriving DecidableEq, Repr

/-- One `*ast.ImportSpec`: the result of `strconv.Unquote(impt.Path.Value)`,
`none` when unquoting fails. -/
structure ImportSpec where
  unquoted : Option String
deriving DecidableEq, Repr

/-- An `*ast.File`: `id` stands for the identity of the file. -/
structure AstFile where
  id : Nat
  Imports : List ImportSpec
deriving DecidableEq, Repr

/-- The `types.Object` of a function: the file `analysisutil.File(pass, obj.Pos())`
finds for it, `none` when it finds no file. -/
structure Object where
  file : Option AstFile
deriving DecidableEq, Repr

mutual
/-- An `ssa.Instruction`, with the fields the analyzer reads.  `referrers` is
`*v.Referrers()` of a value-defining instruction. -/
inductive Instruction
  | call (c : Call)
  /-- A `*ssa.Defer`. -/
  | defer (pos : Nat) (common : CallCommon)
  /-- A `*ssa.Store`: `addrReferrers` is `Addr.Referrers()`, `none` when that is
  nil (the address is a global). -/
  | store (pos : Nat) (addrReferrers : Option (List Instruction))
  /-- A `*ssa.FieldAddr`; its operand `X` is the value it is a referrer of. -/
  | fieldAddr (pos : Nat) (type : GoType) (referrers : List Instruction)
  /-- A `*ssa.UnOp`. -/
  | unOp (pos : Nat) (op : Token) (type : GoType) (referrers : List Instruction)
  /-- A `*ssa.MakeClosure`; `fn` is `Fn.(*ssa.Function)`. -/
  | makeClosure (pos : Nat) (fn : Function) (referrers : List Instruction)
  /-- A `*ssa.ChangeInterface`; `method0` is
  `Type().Underlying().(*types.Interface).Method(0)`. -/
  | changeInterface (pos : Nat) (type : GoType) (method0 : Method)
      (referrers : List Instruction)
  /-- A `*ssa.Return` and the types of its results. -/
  | ret (pos : Nat) (results : List GoType)
  /-- Any other value-defining instruction (Extract, Phi, Alloc, BinOp, ...). -/
  | value (pos : Nat) (type : GoType) (referrers : List Instruction)
  /-- Any other instruction (If, Jump, Send, ...). -/
  | effect (pos : Nat)
/-- A `*ssa.Call`. -/
inductive Call
  | mk (pos : Nat) (common : CallCommon) (type : GoType) (referrers : List Instruction)
/-- An `ssa.CallCommon`: `value` is `Value.(*ssa.Function)` when the callee is
statically known, `method` is `Method` (nil in call mode), `args` the types of
`Args`, `valueType` is `Value.Type()`: in invoke mode the static type of the
receiver whose method is called, in call mode the type of the function called.
`valuePackage` is whether `Value.(*ssa.Function).Package()` is not nil: go/ssa
gives no package to some callees (an instantiated generic function, a function
of a unit for which no ssa package was built), while every function of
`SrcFuncs` has its package; it is read only for a statically known callee. -/
inductive CallCommon
  | mk (value : Option Function) (method : Option Method) (args : List GoType)
      (valueType : GoType) (valuePackage : Bool)
/-- An `*ssa.Parameter`. -/
inductive Parameter
  | mk (type : GoType) (referrers : List Instruction)
/-- An `*ssa.Function`: `name` is `Name()`, `pkg` is `Package().Pkg.Path()`,
`object` is `Object()`, `recv` the receiver parameter of a method, `params` the
parameters of the signature, `results` the result types of the signature. -/
inductive Function
  | mk (name : String) (pkg : String) (object : Option Object) (recv : Option Parameter)
      (params : List Parameter) (results : List GoType) (blocks : List (List Instruction))
end

namespace Call
def pos : Call → Nat
  | .mk p _ _ _ => p
def common : Call → CallCommon
  | .mk _ c _ _ => c
def type : Call → GoType
  | .mk _ _ t _ => t
def referrers : Call → List Instruction
  | .mk _ _ _ r => r
end Call

namespace CallCommon
def value : CallCommon → Option Function
  | .mk v _ _ _ _ => v
def method : CallCommon → Option Method
  | .mk _ m _ _ _ => m
def args : CallCommon → List GoType
  | .mk _ _ a _ _ => a
def valueType : CallCommon → GoType
  | .mk _ _ _ t _ => t
def valuePackage : CallCommon → Bool
  | .mk _ _ _ _ b => b
end CallCommon

namespace Parameter
def type : Parameter → GoType
  | .mk t _ => t
def referrers : Parameter → List Instruction
  | .mk _ r => r
end Parameter

namespace Function
def name : Function → String
  | .mk n _ _ _ _ _ _ => n
def pkg : Function → String
  | .mk _ p _ _ _ _ _ => p
def object : Function → Option Object
  | .mk _ _ o _ _ _ _ => o
def recv : Function → Option Parameter
  | .mk _ _ _ r _ _ _ => r
def params : Function → List Parameter
  | .mk _ _ _ _ ps _ _ => ps
def results : Function → List GoType
  | .mk _ _ _ _ _ rs _ => rs
def blocks : Function → List (List Instruction)
  | .mk _ _ _ _ _ _ bs => bs
/-- The field `Params` of an `ssa.Function`: the function parameters; for a
method, the receiver comes first. -/
def Params (f : Function) : List Parameter :=
  match f.recv with
  | some r => r :: f.params
  | none => f.params
end Function

namespace Instruction
/-- The position `Pos()` of an instruction. -/
def pos : Instruction → Nat
  | .call c => c.pos
  | .defer p _ => p
  | .store p _ => p
  | .fieldAddr p _ _ => p
  | .unOp p _ _ _ => p
  | .makeClosure p _ _ => p
  | .changeInterface p _ _ _ => p
  | .ret p _ => p
  | .value p _ _ => p
  | .effect p => p
end Instruction

/-- An `ssa.Value`: its static type and its referrers. -/
structure Value where
  type : GoType
  referrers : List Instruction

/-- The view of a call as the value it defines. -/
def Call.toValue (c : Call) : Value := ⟨c.type, c.referrers⟩

/-- The type assertion `instr.(ssa.Value)`: the value an instruction defines, if
it defines one.  The type of a closure is a signature, whose string is never
compared with a success here; it is given as `other`. -/
def Instruction.asValue : Instruction → Option Value
  | .call c => some c.toValue
  | .fieldAddr _ t r => some ⟨t, r⟩
  | .unOp _ _ t r => some ⟨t, r⟩
  | .makeClosure _ _ r => some ⟨.other "func", r⟩
  | .changeInterface _ t _ r => some ⟨t, r⟩
  | .value _ t r => some ⟨t, r⟩
  | .defer _ _ => none
  | .store _ _ => none
  | .ret _ _ => none
  | .effect _ => none

/-- What the analyzer reads of an `*analysis.Pass`.  `srcFuncs` is the
`SrcFuncs` of the buildssa result, `responseObj` whether
`analysisutil.LookupFromImports(pass.Pkg.Imports(), nethttpPath, "Response")`
is non-nil, `packageFacts` the fact `ImportPackageFact` finds for a package
path, `removeVendor` is `analysisutil.RemoveVendor`. -/
structure Pass where
  pkgPath : String
  srcFuncs : List Function
  responseObj : Bool
  packageFacts : String → Option ResponseDisposers
  removeVendor : String → String

/-- The effect of `pass.ExportPackageFact` on later `ImportPackageFact` calls of the same pass. -/
def Pass.ExportPackageFact (pass : Pass) (fact : ResponseDisposers) : Pass :=
  { pass with packageFacts := fun p => if p = pass.pkgPath then some fact else pass.packageFacts p }

/-- The collector of collector.go: `facts` is its map, `none` while the map is nil. -/
structure readCloserFuncCollector where
  facts : Option (List (String × ResponseDisposers))
deriving DecidableEq, Repr

/-- The mutable state one check works on: the `skipFile` map of `run` and the
collector of the runner. -/
structure State where
  skipFile : List (AstFile × Bool)
  funcCollector : readCloserFuncCollector
deriving DecidableEq, Repr

/-! ## collector.go -/

/-- The method `String` of `ResponseDisposers` (collector.go, lines 24-30):
the loop appends each `f.Name` to `fns`, then the names are joined. -/
def ResponseDisposers.String (r : ResponseDisposers) : String :=
  let fns := r.Fns.foldl (fun fns f => fns ++ [f.Name]) []
  "responseDisposers:" ++ stringsJoin fns ","

/-- The method `getDisposers` (collector.go, lines 125-137): the list returned
and the collector afterwards. -/
def getDisposers (c : readCloserFuncCollector) (pass : Pass) (pkg : String) :
    List Fn × readCloserFuncCollector :=
  let facts := match c.facts with
    | none => []
    | some m => m
  match mapGet facts pkg with
  | some f => (f.Fns, ⟨some facts⟩)
  | none =>
    match pass.packageFacts pkg with
    | some disposerFns => (disposerFns.Fns, ⟨some (mapSet facts pkg disposerFns)⟩)
    | none => ([], ⟨some facts⟩)

/-- The loop of `isDisposeCall` over the disposer list (collector.go, lines 103-108). -/
def matchesDisposer (f : Function) (disposerFns : List Fn) : Bool :=
  disposerFns.any (fun disposer => f.name == disposer.Name && f.pkg == disposer.Pkg)

/-- The method `isDisposeCall` (collector.go, lines 99-123): the answer and the
collector afterwards; `none` when the Go code panics, which it does at
`f.Package().Pkg` (lines 102 and 113) for a callee whose `Package()` is nil. -/
def isDisposeCall (c : readCloserFuncCollector) (pass : Pass) (call : Instruction) :
    Option (Bool × readCloserFuncCollector) :=
  match call with
  | .call cl =>
    match cl.common.value with
    | some f =>
      if cl.common.valuePackage then
        let r := getDisposers c pass f.pkg
        some (matchesDisposer f r.1, r.2)
      else none
    | none => some (false, c)
  | .defer _ common =>
    match common.value with
    | some f =>
      if common.valuePackage then
        let r := getDisposers c pass f.pkg
        some (matchesDisposer f r.1, r.2)
      else none
    | none => some (false, c)
  | _ => some (false, c)

/-- The test `Call.Method != nil && Call.Method.Name() == methodName`. -/
def invokes (common : CallCommon) (methodName : String) : Bool :=
  match common.method with
  | some m => m.name == methodName
  | none => false

/-- Whether a block list holds a call whose `Call.Method` is `mtd`
(collector.go, lines 174-182). -/
def callsMethod (blocks : List (List Instruction)) (mtd : Method) : Bool :=
  blocks.any (fun b => b.any (fun instr =>
    match instr with
    | .call c => c.common.method == some mtd
    | _ => false))

/-- The body of the loop over the referrers of a `ChangeInterface`
(collector.go, lines 171-204). -/
def changeInterfaceReferrer (cs : Instruction) (mtd : Method) (interfaceName : String) : Bool :=
  match cs with
  | .defer _ common =>
    match common.value with
    | some val => callsMethod val.blocks mtd
    | none => false
  | .ret _ results => results.any (fun t => typeString t == interfaceName)
  | .call c =>
    c.common.method == some mtd || c.common.args.any (fun t => typeString t == interfaceName)
  | _ => false

mutual
/-- The function `isMethodCall` (collector.go, lines 149-214). -/
def isMethodCall (ccall : Instruction) (methodName interfaceName : String) : Bool :=
  match ccall with
  | .unOp _ op _ refs =>
    if op = Token.MUL then isMethodCallAny refs methodName interfaceName else false
  | .defer _ common => invokes common methodName
  | .call c => invokes c.common methodName
  | .changeInterface _ type mtd crs =>
    if typeString type == interfaceName then
      crs.any (fun cs => changeInterfaceReferrer cs mtd interfaceName)
    else false
  | .ret _ results =>
    results.any (fun t => typeString t == "io.ReadCloser" || typeString t == interfaceName)
  | _ => false
/-- The loop of the pointer-indirection case of `isMethodCall` (lines 153-157). -/
def isMethodCallAny (refs : List Instruction) (methodName interfaceName : String) : Bool :=
  match refs with
  | [] => false
  | ref :: rest =>
    if isMethodCall ref methodName interfaceName then true
    else isMethodCallAny rest methodName interfaceName
end

/-- The function `isCloseCall` (collector.go, lines 140-142). -/
def isCloseCall (ccall : Instruction) : Bool := isMethodCall ccall closeMethod "io.Closer"

/-- The function `isReadCall` (collector.go, lines 145-147). -/
def isReadCall (ccall : Instruction) : Bool := isMethodCall ccall readMethod "io.Reader"

/-- The function `isNamedType` (reuseconn.go, lines 272-279). -/
def isNamedType (t : GoType) (path name : String) : Bool :=
  match t with
  | .named (some p) n => n == name && p == path
  | _ => false

/-- The closure `respOrRespBodyParam` of `analyze` (collector.go, lines 41-49). -/
def respOrRespBodyParam (f : Function) : Option Parameter :=
  match f.params with
  | [p] =>
    let paramTypeString := typeString p.type
    if paramTypeString == readCloserType || paramTypeString == responseType then
      f.Params.head?
    else none
  | _ => none

/-- The loop of the `readCloserType` case of `analyze` (lines 61-68) on the
flags `(read, closed)`. -/
def scanBody (refs : List Instruction) (flags : Bool × Bool) : Bool × Bool :=
  refs.foldl (fun fl ref =>
    let read := if !fl.1 && isReadCall ref then true else fl.1
    let closed := if !fl.2 && isCloseCall ref then true else fl.2
    (read, closed)) flags

/-- The inner loop of the `responseType` case of `analyze` (lines 73-80). -/
def scanField (refs : List Instruction) (flags : Bool × Bool) : Bool × Bool :=
  refs.foldl (fun fl ref =>
    let closed := if isCloseCall ref then true else fl.2
    let read := if isReadCall ref then true else fl.1
    (read, closed)) flags

/-- The loop of the `responseType` case of `analyze` (lines 70-83). -/
def scanResponse (refs : List Instruction) (flags : Bool × Bool) : Bool × Bool :=
  refs.foldl (fun fl ref =>
    match ref with
    | .fieldAddr _ (.pointer elem) fieldRefs =>
      if isNamedType elem "io" "ReadCloser" then scanField fieldRefs fl else fl
    | _ => fl) flags

/-- One iteration of the loop of `analyze` over the functions (lines 40-88):
whether `f` is appended to `disposerFns`. -/
def isDisposerFunc (f : Function) : Bool :=
  match respOrRespBodyParam f with
  | none => false
  | some param =>
    if param.referrers.length == 0 then false
    else
      let s := typeString param.type
      let flags :=
        if s == readCloserType then scanBody param.referrers (false, false)
        else if s == responseType then scanResponse param.referrers (false, false)
        else (false, false)
      flags.1 && flags.2

/-- The list `disposerFns` at the end of the loop of `analyze` (lines 38-88). -/
def collectDisposerFns (funcs : List Function) : List Function :=
  funcs.foldl (fun disposerFns f => if isDisposerFunc f then disposerFns ++ [f] else disposerFns) []

/-- The method `analyze` (collector.go, lines 37-96): the fact it exports, `none`
when it exports nothing. -/
def analyze (pass : Pass) : Option ResponseDisposers :=
  let disposerFns := collectDisposerFns pass.srcFuncs
  if disposerFns.length > 0 then
    let disposerFnsNames :=
      disposerFns.foldl (fun names f => names ++ [Fn.mk f.pkg f.name]) []
    some ⟨disposerFnsNames⟩
  else none

/-! ## reuseconn.go -/

/-- The function `getReqCall` (reuseconn.go, lines 147-154). -/
def getReqCall (instr : Instruction) : Option Call :=
  match instr with
  | .call call => if stringsContains (typeString call.type) responseType then some call else none
  | _ => none

/-- The function `getResponseVal` (reuseconn.go, lines 157-169).  `x` is the
value `instr` is a referrer of: the operand `X` of a `FieldAddr`. -/
def getResponseVal (x : Value) (instr : Instruction) : Option Value :=
  match instr with
  | .fieldAddr _ _ _ => if typeString x.type == responseType then some x else none
  | _ =>
    match instr.asValue with
    | some v => if typeString v.type == responseType then some v else none
    | none => none

/-- The function `getBodyOp` (reuseconn.go, lines 171-180). -/
def getBodyOp (instr : Instruction) : Option Value :=
  match instr with
  | .unOp _ _ type referrers =>
    if typeString type != readCloserType then none else some ⟨type, referrers⟩
  | _ => none

/-- The function `isClosureCalled` (reuseconn.go, lines 182-194); `refs` is
`*c.Referrers()`. -/
def isClosureCalled (refs : List Instruction) : Bool :=
  if refs.length == 0 then false
  else refs.any (fun ref =>
    match ref with
    | .call _ => true
    | .defer _ _ => true
    | _ => false)

/-- The loop of `noImportedNetHTTP` over the file's imports (lines 214-225). -/
def noNetHTTPAmong (pass : Pass) : List ImportSpec → Bool
  | [] => true
  | impt :: rest =>
    match impt.unquoted with
    | none => noNetHTTPAmong pass rest
    | some path => if pass.removeVendor path == nethttpPath then false else noNetHTTPAmong pass rest

/-- The function `noImportedNetHTTP` (reuseconn.go, lines 196-226): the answer
and the `skipFile` map afterwards. -/
def noImportedNetHTTP (pass : Pass) (skipFile : List (AstFile × Bool)) (f : Function) :
    Bool × List (AstFile × Bool) :=
  match f.object with
  | none => (false, skipFile)
  | some obj =>
    match obj.file with
    | none => (false, skipFile)
    | some file =>
      match mapGet skipFile file with
      | some skip => (skip, skipFile)
      | none =>
        let ret := noNetHTTPAmong pass file.Imports
        (ret, mapSet skipFile file ret)

/-- The innermost loop of the `UnOp` case of `calledInFunc` (lines 249-255);
`none` when the loop ends without a return. -/
def closeCallLoop (called : Bool) : List Instruction → Option Bool
  | [] => none
  | vref :: rest =>
    match vref with
    | .call c => if invokes c.common closeMethod then some (!called) else closeCallLoop called rest
    | _ => closeCallLoop called rest

/-- The loop over `vrefs` in the `UnOp` case of `calledInFunc` (lines 243-257). -/
def vrefsLoop (called : Bool) : List Instruction → Option Bool
  | [] => none
  | vref :: rest =>
    match vref with
    | .unOp _ _ _ vrefs =>
      if vrefs.length == 0 then some true
      else
        match closeCallLoop called vrefs with
        | some b => some b
        | none => vrefsLoop called rest
    | _ => vrefsLoop called rest

/-- The loop over `refs` in the `UnOp` case of `calledInFunc` (lines 237-260). -/
def refsLoop (called : Bool) : List Instruction → Option Bool
  | [] => none
  | r :: rest =>
    match r.asValue with
    | some v =>
      match v.type with
      | .pointer elem =>
        if isNamedType elem "io" "ReadCloser" then
          match vrefsLoop called v.referrers with
          | some b => some b
          | none => refsLoop called rest
        else refsLoop called rest
      | _ => refsLoop called rest
    | none => refsLoop called rest

/-- The `UnOp` case of `calledInFunc` (lines 232-260) on the referrers of the
instruction; `none` when the case ends without a return. -/
def calledInFuncUnOp (refs : List Instruction) (called : Bool) : Option Bool :=
  if refs.length == 0 then some true else refsLoop called refs

/-- The loop over `ccalls` in the `FieldAddr` case of `isNotDisposed`
(lines 132-136): whether some call is a dispose call, and the collector
afterwards; `none` when `isDisposeCall` panics. -/
def ccallsLoop (pass : Pass) : List Instruction → readCloserFuncCollector →
    Option (Bool × readCloserFuncCollector)
  | [], c => some (false, c)
  | ccall :: rest, c =>
    match isDisposeCall c pass ccall with
    | none => none
    | some r => if r.1 then some (true, r.2) else ccallsLoop pass rest r.2

/-- The `FieldAddr` case of `isNotDisposed` (lines 118-138) on the referrers
`bRefs` of the field address: the value returned and the collector afterwards,
`none` when `isDisposeCall` panics.  The referrers of a `FieldAddr` are never nil. -/
def fieldAddrCase (pass : Pass) : List Instruction → readCloserFuncCollector →
    Option (Bool × readCloserFuncCollector)
  | [], c => some (true, c)
  | bRef :: rest, c =>
    match getBodyOp bRef with
    | none => fieldAddrCase pass rest c
    | some bOp =>
      if bOp.referrers.length == 0 then some (true, c)
      else
        match ccallsLoop pass bOp.referrers c with
        | none => none
        | some r => if r.1 then some (false, r.2) else fieldAddrCase pass rest r.2

/-- The state with another collector. -/
def State.withCollector (st : State) (c : readCloserFuncCollector) : State :=
  { st with funcCollector := c }

/-- The outcome of a loop that may return from its function: `none` when the Go
code panics, otherwise the value returned (`none` when the loop ran to its end)
and the state afterwards. -/
abbrev LoopResult := Option (Option Bool × State)

/-- The end of a function after its loop: the value the loop returned, or the
value `dflt` of the final `return`. -/
def finish (dflt : Bool) : LoopResult → Option (Bool × State)
  | none => none
  | some (some b, st) => some (b, st)
  | some (none, st) => some (dflt, st)

/-- The rest of a loop after one iteration: a panic and a return end the loop,
otherwise `next` runs in the state the iteration leaves. -/
def orContinue (r : LoopResult) (next : State → LoopResult) : LoopResult :=
  match r with
  | none => none
  | some (some b, st) => some (some b, st)
  | some (none, st) => next st

/-- The statement `return f(...)`, with `b` computed from the result of the call, inside a loop. -/
def returned (r : Option (Bool × State)) (b : Bool → Bool) : LoopResult :=
  match r with
  | none => none
  | some (x, st) => some (some (b x), st)

/-- The statement `return b(x)` inside a loop, for the answer `x` of a lookup
that leaves the collector `c`; a panic of the lookup ends the loop. -/
def decided (r : Option (Bool × readCloserFuncCollector)) (b : Bool → Bool) (st : State) :
    LoopResult :=
  match r with
  | none => none
  | some (x, c) => some (some (b x), st.withCollector c)

/-- The start of an iteration over `callReferrers` once `responseVal` is found
(lines 92-96): `true` is returned when `*responseVal.Referrers()`, here `refs`,
is empty; otherwise the loop over them runs, with the outcome `loop`. -/
def responseValCase (refs : List Instruction) (st : State) (loop : LoopResult) : LoopResult :=
  if refs.length == 0 then some (some true, st) else loop

mutual
/-- The function `isNotDisposed` (reuseconn.go, lines 81-144): the answer and
the state afterwards, `none` when the Go code panics. -/
def isNotDisposed (pass : Pass) (call : Call) (st : State) : Option (Bool × State) :=
  match call with
  | .mk _ _ type callReferrers =>
    if callReferrers.length == 0 then some (true, st)
    else
      finish true
        (callReferrersLoop pass type
          (fun st1 => responseValCase callReferrers st1 (responseReferrersLoop pass callReferrers st1))
          callReferrers st)
termination_by structural call
/-- The loop of `isNotDisposed` over `callReferrers` (lines 86-141).  `callType`
is the type of the call and `onCall` the rest of an iteration whose
`responseVal` is the call itself (the operand `X` of a `FieldAddr`). -/
def callReferrersLoop (pass : Pass) (callType : GoType) (onCall : State → LoopResult)
    (callReferrers : List Instruction) (st : State) : LoopResult :=
  match callReferrers with
  | [] => some (none, st)
  | callReferrer :: rest =>
    orContinue
      (match callReferrer with
      | .fieldAddr _ _ _ =>
        if typeString callType == responseType then onCall st else some (none, st)
      | .call (.mk _ _ t refs) =>
        if typeString t == responseType then
          responseValCase refs st (responseReferrersLoop pass refs st)
        else some (none, st)
      | .unOp _ _ t refs =>
        if typeString t == responseType then
          responseValCase refs st (responseReferrersLoop pass refs st)
        else some (none, st)
      | .changeInterface _ t _ refs =>
        if typeString t == responseType then
          responseValCase refs st (responseReferrersLoop pass refs st)
        else some (none, st)
      | .value _ t refs =>
        if typeString t == responseType then
          responseValCase refs st (responseReferrersLoop pass refs st)
        else some (none, st)
      | _ => some (none, st))
      (callReferrersLoop pass callType onCall rest)
termination_by structural callReferrers
/-- The loop of `isNotDisposed` over `responseReferrers` (lines 97-140). -/
def responseReferrersLoop (pass : Pass) (responseReferrers : List Instruction) (st : State) :
    LoopResult :=
  match responseReferrers with
  | [] => some (none, st)
  | responseReferrer :: rest =>
    match responseReferrer with
    | .store _ none => none
    | .store _ (some addrReferrers) =>
      if addrReferrers.length == 0 then some (some true, st)
      else
        orContinue (addrReferrersLoop pass addrReferrers st) (responseReferrersLoop pass rest)
    | .call c => decided (isDisposeCall st.funcCollector pass (.call c)) (fun x => !x) st
    | .defer pos common =>
      decided (isDisposeCall st.funcCollector pass (.defer pos common)) (fun x => !x) st
    | .fieldAddr _ _ bRefs => decided (fieldAddrCase pass bRefs st.funcCollector) (fun x => x) st
    | _ => responseReferrersLoop pass rest st
termination_by structural responseReferrers
/-- The loop of the `Store` case over the referrers of the address (lines 104-115). -/
def addrReferrersLoop (pass : Pass) (addrReferrers : List Instruction) (st : State) :
    LoopResult :=
  match addrReferrers with
  | [] => some (none, st)
  | addrReferrer :: rest =>
    match addrReferrer with
    | .makeClosure _ f mcReferrers =>
      let r := noImportedNetHTTP pass st.skipFile f
      let st1 : State := { st with skipFile := r.2 }
      if r.1 then some (some false, st1)
      else returned (calledInFunc pass f (isClosureCalled mcReferrers) st1) (fun b => b)
    | _ => addrReferrersLoop pass rest st
termination_by structural addrReferrers
/-- The function `calledInFunc` (reuseconn.go, lines 228-269). -/
def calledInFunc (pass : Pass) (f : Function) (called : Bool) (st : State) :
    Option (Bool × State) :=
  match f with
  | .mk _ _ _ _ _ _ blocks => finish false (blocksLoop pass called blocks st)
termination_by structural f
/-- The loop of `calledInFunc` over the blocks (line 229). -/
def blocksLoop (pass : Pass) (called : Bool) (blocks : List (List Instruction)) (st : State) :
    LoopResult :=
  match blocks with
  | [] => some (none, st)
  | b :: rest => orContinue (instrsLoop pass called b st) (blocksLoop pass called rest)
termination_by structural blocks
/-- The loop of `calledInFunc` over the instructions of a block (lines 230-266). -/
def instrsLoop (pass : Pass) (called : Bool) (instrs : List Instruction) (st : State) :
    LoopResult :=
  match instrs with
  | [] => some (none, st)
  | instr :: rest =>
    match instr with
    | .unOp _ _ _ refs =>
      match calledInFuncUnOp refs called with
      | some b => some (some b, st)
      | none => instrsLoop pass called rest st
    | .call c =>
      match getReqCall (.call c) with
      | some _ => returned (isNotDisposed pass c st) (fun b => b || !called)
      | none => instrsLoop pass called rest st
    | _ => instrsLoop pass called rest st
termination_by structural instrs
end

/-- A diagnostic reported with `pass.Reportf`. -/
structure Diagnostic where
  pos : Nat
  message : String
deriving DecidableEq, Repr

/-- The flag `skip` of `run` (reuseconn.go, lines 53-59): whether a result of
the signature has the response type. -/
def returnsResponse (fu : Function) : Bool :=
  fu.results.any (fun t => typeString t == responseType)

/-- The body of the loop of `run` over the instructions of a block
(lines 66-72): the diagnostics reported at `instr` and the state afterwards. -/
def checkInstr (pass : Pass) (instr : Instruction) (st : State) :
    Option (List Diagnostic × State) :=
  match getReqCall instr with
  | some call =>
    match isNotDisposed pass call st with
    | none => none
    | some (notDisposed, st1) =>
      if notDisposed then some ([⟨instr.pos, diagnosticMessage⟩], st1) else some ([], st1)
  | none => some ([], st)

/-- Two consecutive parts of a run: the diagnostics of the first, then those of
the second, which starts in the state the first leaves; `none` when either panics. -/
def andThen (first : Option (List Diagnostic × State))
    (second : State → Option (List Diagnostic × State)) : Option (List Diagnostic × State) :=
  match first with
  | none => none
  | some (ds1, st1) =>
    match second st1 with
    | none => none
    | some (ds2, st2) => some (ds1 ++ ds2, st2)

/-- The loop of `run` over the instructions of a block (line 65): the
diagnostics reported, in order, and the state afterwards. -/
def checkInstrs (pass : Pass) : List Instruction → State → Option (List Diagnostic × State)
  | [], st => some ([], st)
  | instr :: rest, st => andThen (checkInstr pass instr st) (checkInstrs pass rest)

/-- The loop of `run` over the blocks of a function (line 64). -/
def checkBlocks (pass : Pass) : List (List Instruction) → State →
    Option (List Diagnostic × State)
  | [], st => some ([], st)
  | block :: rest, st => andThen (checkInstrs pass block st) (checkBlocks pass rest)

/-- One iteration of the loop of `run` over the functions (lines 52-75). -/
def checkFunc (pass : Pass) (fu : Function) (st : State) : Option (List Diagnostic × State) :=
  if returnsResponse fu then some ([], st) else checkBlocks pass fu.blocks st

/-- The loop of `run` over the functions (lines 52-75). -/
def checkFuncs (pass : Pass) : List Function → State → Option (List Diagnostic × State)
  | [], st => some ([], st)
  | fu :: rest, st => andThen (checkFunc pass fu st) (checkFuncs pass rest)

/-- What one `run` leaves behind: the fact exported, the diagnostics reported
and the collector of the runner. -/
structure RunResult where
  exported : Option ResponseDisposers
  diagnostics : List Diagnostic
  funcCollector : readCloserFuncCollector
deriving DecidableEq, Repr

/-- The method `run` (reuseconn.go, lines 40-78) on the collector `c` of the
runner; `none` when the Go code panics. -/
def run (pass : Pass) (c : readCloserFuncCollector) : Option RunResult :=
  let fact := analyze pass
  let pass1 :=
    match fact with
    | some f => pass.ExportPackageFact f
    | none => pass
  if !pass.responseObj then some ⟨fact, [], c⟩
  else
    match checkFuncs pass1 pass.srcFuncs ⟨[], c⟩ with
    | none => none
    | some (ds, st) => some ⟨fact, ds, st.funcCollector⟩

/-! ## Notions used to state the properties -/

/-- The fact the collector holds for a package path, if any. -/
def cachedFact (c : readCloserFuncCollector) (pkg : String) : Option ResponseDisposers :=
  match c.facts with
  | none => none
  | some m => mapGet m pkg

/-- The referrers of `ref` when `ref` is a projection of the body field: a field
address of type pointer to `io.ReadCloser`; no instruction otherwise. -/
def bodyProjection (ref : Instruction) : List Instruction :=
  match ref with
  | .fieldAddr _ (.pointer elem) refs => if elem = .named (some "io") "ReadCloser" then refs else []
  | _ => []

/-- Whether a match of `m` is found for the parameter `q`: among the referrers
of a handle, among the referrers of the body projections of a container. -/
def matchFound (m : Instruction → Bool) (q : Parameter) : Bool :=
  if typeString q.type = readCloserType then q.referrers.any m
  else if typeString q.type = responseType then
    q.referrers.any (fun ref => (bodyProjection ref).any m)
  else false

/-- The classification of a function as a disposer, in the words of the
specification: the signature has exactly one parameter, of the handle or the
container type; that parameter has at least one referrer, and a read match and
a close match are found for it. -/
def specDisposer (f : Function) : Bool :=
  match f.params with
  | [p] =>
    (decide (typeString p.type = readCloserType) || decide (typeString p.type = responseType))
      && !p.referrers.isEmpty && matchFound isReadCall p && matchFound isCloseCall p
  | _ => false

/-- The classification `analyze` computes, in closed form: the signature has
exactly one parameter, of the handle or the container type, and the entry the
collector inspects, the first of `Params` (for a method the receiver, not the
parameter of the signature), has at least one referrer, a read match and a
close match. -/
def classifiedByCollector (f : Function) : Bool :=
  match f.params, f.Params.head? with
  | [p], some q =>
    (decide (typeString p.type = readCloserType) || decide (typeString p.type = responseType))
      && !q.referrers.isEmpty && matchFound isReadCall q && matchFound isCloseCall q
  | _, _ => false

/-- The fact a lookup for the package path `pkg` finds: the one in the map of
the collector, otherwise the one the pass can import. -/
def knownFact (pass : Pass) (c : readCloserFuncCollector) (pkg : String) :
    Option ResponseDisposers :=
  match cachedFact c pkg with
  | some f => some f
  | none => pass.packageFacts pkg

/-- The disposer list of the unit `pkg`, as a lookup finds it. -/
def disposersOf (pass : Pass) (c : readCloserFuncCollector) (pkg : String) : List Fn :=
  match knownFact pass c pkg with
  | some f => f.Fns
  | none => []

/-- A call or deferred call of a function that has its package and is a recorded
disposer of its defining unit. -/
def callsRecordedDisposer (pass : Pass) (c : readCloserFuncCollector) (i : Instruction) : Prop :=
  ∃ f : Function,
    ((∃ cl : Call, i = .call cl ∧ cl.common.value = some f ∧ cl.common.valuePackage = true)
      ∨ (∃ (p : Nat) (cc : CallCommon),
          i = .defer p cc ∧ cc.value = some f ∧ cc.valuePackage = true))
    ∧ Fn.mk f.pkg f.name ∈ disposersOf pass c f.pkg

/-- A call or deferred call of a statically known function without package:
the instructions at which `isDisposeCall` panics. -/
def calleeWithoutPackage (i : Instruction) : Bool :=
  match i with
  | .call cl => cl.common.value.isSome && !cl.common.valuePackage
  | .defer _ cc => cc.value.isSome && !cc.valuePackage
  | _ => false

/-- No instruction of `l` is a call of a recorded disposer, and none is a call
of a function without package. -/
def passedOver (pass : Pass) (c : readCloserFuncCollector) (l : List Instruction) : Prop :=
  ∀ i ∈ l, calleeWithoutPackage i = false ∧ ¬ callsRecordedDisposer pass c i

/-- The first instruction of `l` that is a call of a recorded disposer or a call
of a function without package is a call of a recorded disposer. -/
def reachesDisposer (pass : Pass) (c : readCloserFuncCollector) (l : List Instruction) : Prop :=
  ∃ (pre post : List Instruction) (k : Instruction),
    l = pre ++ k :: post ∧ passedOver pass c pre ∧ callsRecordedDisposer pass c k

/-- The first instruction of `l` that is a call of a recorded disposer or a call
of a function without package is a call of a function without package. -/
def reachesBareCallee (pass : Pass) (c : readCloserFuncCollector) (l : List Instruction) :
    Prop :=
  ∃ (pre post : List Instruction) (k : Instruction),
    l = pre ++ k :: post ∧ passedOver pass c pre ∧ calleeWithoutPackage k = true

/-- Every load of a body handle among `l` has referrers, none of which is a
call of a recorded disposer or of a function without package. -/
def loadsPassedOver (pass : Pass) (c : readCloserFuncCollector) (l : List Instruction) : Prop :=
  ∀ i ∈ l, ∀ v, getBodyOp i = some v → v.referrers ≠ [] ∧ passedOver pass c v.referrers

/-- The instructions the loop over the referrers of the response passes over:
all but a store, a call, a deferred call and a field address. -/
def ignored (i : Instruction) : Bool :=
  match i with
  | .store _ _ => false
  | .call _ => false
  | .defer _ _ => false
  | .fieldAddr _ _ _ => false
  | _ => true

/-- The iteration of the loop over `callReferrers` for the outcome of
`getResponseVal`: no value, or the response value `val`. -/
def responseValStep (pass : Pass) (st : State) : Option Value → LoopResult
  | none => some (none, st)
  | some val => responseValCase val.referrers st (responseReferrersLoop pass val.referrers st)

/-- The collector `c2` answers every lookup of the pass as `c1` does. -/
def Agrees (pass : Pass) (c1 c2 : readCloserFuncCollector) : Prop :=
  ∀ p, disposersOf pass c2 p = disposersOf pass c1 p


/-- The use `d` of the response disposes it: `d` is a call or deferred call of
a recorded disposer, or `d` is a field address one load of which is a body
handle that reaches a call of a recorded disposer, the earlier loads of a body
handle from `d` having referrers that are all passed over. -/
def disposingUse (pass : Pass) (c : readCloserFuncCollector) (d : Instruction) : Prop :=
  callsRecordedDisposer pass c d
  ∨ ∃ (p : Nat) (t : GoType) (bpre bpost : List Instruction) (bop : Instruction) (b : Value),
      d = .fieldAddr p t (bpre ++ bop :: bpost)
      ∧ loadsPassedOver pass c bpre
      ∧ getBodyOp bop = some b
      ∧ reachesDisposer pass c b.referrers

/-- Whether an instruction is a `MakeClosure`. -/
def isMakeClosure (i : Instruction) : Bool :=
  match i with
  | .makeClosure _ _ _ => true
  | _ => false

/-- The instructions of a closure body on which the scan of `calledInFunc` goes
on to the next instruction: an instruction other than a load and an
acquisition call, and a load on which the `UnOp` case does not return. -/
def undecided (called : Bool) (i : Instruction) : Bool :=
  match i with
  | .unOp _ _ _ refs => (calledInFuncUnOp refs called).isNone
  | other => (getReqCall other).isNone

/-- A call of the method `Close`: `body.Close()`. -/
def isCloseInvoke (i : Instruction) : Bool :=
  match i with
  | .call c => invokes c.common closeMethod
  | _ => false

/-- The matcher on calls in the words of the specification: the method named
`methodName` is invoked, on a receiver of the type of the handle. -/
def invokesOnHandle (common : CallCommon) (methodName : String) : Prop :=
  (∃ m, common.method = some m ∧ m.name = methodName)
    ∧ typeString common.valueType = readCloserType

/-- A load of a body handle from a field address with the referrers `bRefs`
reaches a call or deferred call of a recorded disposer, the earlier loads of a
body handle having referrers that are all passed over. -/
def loadReachesDisposer (pass : Pass) (c : readCloserFuncCollector)
    (bRefs : List Instruction) : Prop :=
  ∃ (bpre bpost : List Instruction) (bop : Instruction) (b : Value),
    bRefs = bpre ++ bop :: bpost
    ∧ loadsPassedOver pass c bpre
    ∧ getBodyOp bop = some b
    ∧ reachesDisposer pass c b.referrers

/-- A load of a body handle from a field address with the referrers `bRefs`
reaches a call or deferred call of a function without package, the earlier
loads of a body handle having referrers that are all passed over. -/
def loadReachesBareCallee (pass : Pass) (c : readCloserFuncCollector)
    (bRefs : List Instruction) : Prop :=
  ∃ (bpre bpost : List Instruction) (bop : Instruction) (b : Value),
    bRefs = bpre ++ bop :: bpost
    ∧ loadsPassedOver pass c bpre
    ∧ getBodyOp bop = some b
    ∧ reachesBareCallee pass c b.referrers

/-- The loads of a body handle from a field address with the referrers `bRefs`
decide nothing, or the first that decides is without referrers. -/
def loadsLeaveUndisposed (pass : Pass) (c : readCloserFuncCollector)
    (bRefs : List Instruction) : Prop :=
  loadsPassedOver pass c bRefs
  ∨ ∃ (bpre bpost : List Instruction) (bop : Instruction) (b : Value),
      bRefs = bpre ++ bop :: bpost
      ∧ loadsPassedOver pass c bpre
      ∧ getBodyOp bop = some b
      ∧ b.referrers = []

/-- The store `d` of the response settles the answer false: the first closure
made over the address stored into is in a file for which `noImportedNetHTTP`
answers true, or `calledInFunc` returns false for it. -/
def closureSettles (pass : Pass) (st : State) (d : Instruction) : Prop :=
  ∃ (p q : Nat) (apre apost : List Instruction) (f : Function) (mcRefs : List Instruction),
    d = .store p (some (apre ++ .makeClosure q f mcRefs :: apost))
    ∧ (∀ i ∈ apre, isMakeClosure i = false)
    ∧ ((noImportedNetHTTP pass st.skipFile f).1 = true
        ∨ ∃ st2, calledInFunc pass f (isClosureCalled mcRefs)
            { st with skipFile := (noImportedNetHTTP pass st.skipFile f).2 } = some (false, st2))

/-- A positive match at the use `d` of the response: a disposing use, or a
store that a closure settles. -/
def positiveMatch (pass : Pass) (st : State) (d : Instruction) : Prop :=
  disposingUse pass st.funcCollector d ∨ closureSettles pass st d

/-- Among the referrers `refs` of a load, a value of the type of a pointer to
`io.ReadCloser` has a load among its referrers on which `Close` is called. -/
def closeReached (refs : List Instruction) : Prop :=
  ∃ r ∈ refs, ∃ v, r.asValue = some v
    ∧ (∃ elem, v.type = .pointer elem ∧ isNamedType elem "io" "ReadCloser" = true)
    ∧ ∃ u ∈ v.referrers, ∃ (p : Nat) (op : Token) (t : GoType) (vrefs : List Instruction),
        u = .unOp p op t vrefs ∧ ∃ c ∈ vrefs, isCloseInvoke c = true

/-- The instruction `i` of a closure body on which the scan of `calledInFunc`
in the state `st` answers false for a closure that is called or deferred: a
load that reaches a call of `Close`, or an acquisition call for which
`isNotDisposed` returns false, leaving the state `st1`. -/
def closureBodyClears (pass : Pass) (st st1 : State) (i : Instruction) : Prop :=
  (∃ (p : Nat) (op : Token) (t : GoType) (refs : List Instruction),
      i = .unOp p op t refs ∧ closeReached refs)
  ∨ (∃ c : Call, i = .call c ∧ getReqCall (.call c) = some c
      ∧ isNotDisposed pass c st = some (false, st1))

/-- The scan of the loads of one block, without any descent: the first answer
the `UnOp` case of `calledInFunc` gives on a load of the block. -/
def loadScan (called : Bool) : List Instruction → Option Bool
  | [] => none
  | .unOp _ _ _ refs :: rest =>
    match calledInFuncUnOp refs called with
    | some b => some b
    | none => loadScan called rest
  | _ :: rest => loadScan called rest

/-- The scan of the loads of the blocks of a closure body, without any descent. -/
def loadScanBlocks (called : Bool) : List (List Instruction) → Option Bool
  | [] => none
  | b :: rest =>
    match loadScan called b with
    | some x => some x
    | none => loadScanBlocks called rest

/-- The map `skipFile` holds for a file nothing but the answer the loop over
the imports of the file gives. -/
def coherent (pass : Pass) (skipFile : List (AstFile × Bool)) : Prop :=
  ∀ (file : AstFile) (b : Bool), mapGet skipFile file = some b →
    b = noNetHTTPAmong pass file.Imports

/-- The file has no import whose unquoted path is net/http once the vendor
prefix is removed. -/
def lacksNetHTTP (pass : Pass) (file : AstFile) : Prop :=
  ∀ impt ∈ file.Imports, ∀ path, impt.unquoted = some path →
    pass.removeVendor path ≠ nethttpPath

/-- Whenever `calledInFunc` returns for `f` from a state with a coherent map, the
map of the state it leaves is coherent. -/
def calledInFuncKeeps (pass : Pass) (f : Function) : Prop :=
  ∀ (called : Bool) (st : State) (b : Bool) (s : State), coherent pass st.skipFile →
    calledInFunc pass f called st = some (b, s) → coherent pass s.skipFile

/-- Whenever `isNotDisposed` returns for `call` from a state with a coherent map,
the map of the state it leaves is coherent. -/
def isNotDisposedKeeps (pass : Pass) (call : Call) : Prop :=
  ∀ (st : State) (b : Bool) (s : State), coherent pass st.skipFile →
    isNotDisposed pass call st = some (b, s) → coherent pass s.skipFile

/-! ### The evaluation with a bound on the descent into closure bodies

The functions below are `isNotDisposed` and `calledInFunc` and their loops with
one more argument, `depth`: the number of closure bodies that may still be
entered along a chain `isNotDisposed -> calledInFunc -> isNotDisposed -> ...`.
Entering a closure body with `depth = 0` ends the evaluation with `none`.
They serve to state how deep the evaluation of one acquisition descends. -/

mutual
/-- The function `isNotDisposed` with at most `depth` closure bodies entered along a chain. -/
def isNotDisposedWithin (depth : Nat) (pass : Pass) (call : Call) (st : State) :
    Option (Bool × State) :=
  match call with
  | .mk _ _ type callReferrers =>
    if callReferrers.length == 0 then some (true, st)
    else
      finish true
        (callReferrersLoopWithin depth pass type
          (fun st1 => responseValCase callReferrers st1
            (responseReferrersLoopWithin depth pass callReferrers st1))
          callReferrers st)
termination_by structural call
/-- The loop `callReferrersLoop` with the bound `depth`. -/
def callReferrersLoopWithin (depth : Nat) (pass : Pass) (callType : GoType)
    (onCall : State → LoopResult) (callReferrers : List Instruction) (st : State) : LoopResult :=
  match callReferrers with
  | [] => some (none, st)
  | callReferrer :: rest =>
    orContinue
      (match callReferrer with
      | .fieldAddr _ _ _ =>
        if typeString callType == responseType then onCall st else some (none, st)
      | .call (.mk _ _ t refs) =>
        if typeString t == responseType then
          responseValCase refs st (responseReferrersLoopWithin depth pass refs st)
        else some (none, st)
      | .unOp _ _ t refs =>
        if typeString t == responseType then
          responseValCase refs st (responseReferrersLoopWithin depth pass refs st)
        else some (none, st)
      | .changeInterface _ t _ refs =>
        if typeString t == responseType then
          responseValCase refs st (responseReferrersLoopWithin depth pass refs st)
        else some (none, st)
      | .value _ t refs =>
        if typeString t == responseType then
          responseValCase refs st (responseReferrersLoopWithin depth pass refs st)
        else some (none, st)
      | _ => some (none, st))
      (callReferrersLoopWithin depth pass callType onCall rest)
termination_by structural callReferrers
/-- The loop `responseReferrersLoop` with the bound `depth`. -/
def responseReferrersLoopWithin (depth : Nat) (pass : Pass)
    (responseReferrers : List Instruction) (st : State) : LoopResult :=
  match responseReferrers with
  | [] => some (none, st)
  | responseReferrer :: rest =>
    match responseReferrer with
    | .store _ none => none
    | .store _ (some addrReferrers) =>
      if addrReferrers.length == 0 then some (some true, st)
      else
        orContinue (addrReferrersLoopWithin depth pass addrReferrers st)
          (responseReferrersLoopWithin depth pass rest)
    | .call c => decided (isDisposeCall st.funcCollector pass (.call c)) (fun x => !x) st
    | .defer pos common =>
      decided (isDisposeCall st.funcCollector pass (.defer pos common)) (fun x => !x) st
    | .fieldAddr _ _ bRefs => decided (fieldAddrCase pass bRefs st.funcCollector) (fun x => x) st
    | _ => responseReferrersLoopWithin depth pass rest st
termination_by structural responseReferrers
/-- The loop `addrReferrersLoop` with the bound `depth`: the body of the closure
is entered only when `depth` is not zero, with one less for what it calls. -/
def addrReferrersLoopWithin (depth : Nat) (pass : Pass) (addrReferrers : List Instruction)
    (st : State) : LoopResult :=
  match addrReferrers with
  | [] => some (none, st)
  | addrReferrer :: rest =>
    match addrReferrer with
    | .makeClosure _ f mcReferrers =>
      let r := noImportedNetHTTP pass st.skipFile f
      let st1 : State := { st with skipFile := r.2 }
      if r.1 then some (some false, st1)
      else
        match depth with
        | 0 => none
        | d + 1 =>
          returned (calledInFuncWithin d pass f (isClosureCalled mcReferrers) st1) (fun b => b)
    | _ => addrReferrersLoopWithin depth pass rest st
termination_by structural addrReferrers
/-- The function `calledInFunc` with the bound `depth`. -/
def calledInFuncWithin (depth : Nat) (pass : Pass) (f : Function) (called : Bool) (st : State) :
    Option (Bool × State) :=
  match f with
  | .mk _ _ _ _ _ _ blocks => finish false (blocksLoopWithin depth pass called blocks st)
termination_by structural f
/-- The loop `blocksLoop` with the bound `depth`. -/
def blocksLoopWithin (depth : Nat) (pass : Pass) (called : Bool)
    (blocks : List (List Instruction)) (st : State) : LoopResult :=
  match blocks with
  | [] => some (none, st)
  | b :: rest =>
    orContinue (instrsLoopWithin depth pass called b st) (blocksLoopWithin depth pass called rest)
termination_by structural blocks
/-- The loop `instrsLoop` with the bound `depth`. -/
def instrsLoopWithin (depth : Nat) (pass : Pass) (called : Bool) (instrs : List Instruction)
    (st : State) : LoopResult :=
  match instrs with
  | [] => some (none, st)
  | instr :: rest =>
    match instr with
    | .unOp _ _ _ refs =>
      match calledInFuncUnOp refs called with
      | some b => some (some b, st)
      | none => instrsLoopWithin depth pass called rest st
    | .call c =>
      match getReqCall (.call c) with
      | some _ => returned (isNotDisposedWithin depth pass c st) (fun b => b || !called)
      | none => instrsLoopWithin depth pass called rest st
    | _ => instrsLoopWithin depth pass called rest st
termination_by structural instrs
end

mutual
/-- How deep closures are nested in the part of the graph the evaluation can
reach from an instruction: through referrers, through the referrers of the
address of a store, and through the body of the function of a closure. -/
def Instruction.nesting : Instruction → Nat
  | .call c => c.nesting
  | .store _ (some addrReferrers) => nestingOfList addrReferrers
  | .fieldAddr _ _ refs => nestingOfList refs
  | .unOp _ _ _ refs => nestingOfList refs
  | .makeClosure _ f refs => max (f.nesting + 1) (nestingOfList refs)
  | .changeInterface _ _ _ refs => nestingOfList refs
  | .value _ _ refs => nestingOfList refs
  | _ => 0
termination_by structural i => i
/-- The nesting below a call: that of its referrers. -/
def Call.nesting : Call → Nat
  | .mk _ _ _ refs => nestingOfList refs
termination_by structural c => c
/-- The nesting in a function: that of its blocks. -/
def Function.nesting : Function → Nat
  | .mk _ _ _ _ _ _ blocks => nestingOfBlocks blocks
termination_by structural f => f
/-- The greatest nesting in a list of instructions. -/
def nestingOfList : List Instruction → Nat
  | [] => 0
  | i :: rest => max i.nesting (nestingOfList rest)
termination_by structural l => l
/-- The greatest nesting in a list of blocks. -/
def nestingOfBlocks : List (List Instruction) → Nat
  | [] => 0
  | b :: rest => max (nestingOfList b) (nestingOfBlocks rest)
termination_by structural bs => bs
end

/-- For the function `f`, a bound of at least its nesting is never reached:
`calledInFuncWithin` is `calledInFunc`. -/
def calledInFuncBounded (pass : Pass) (f : Function) : Prop :=
  ∀ (d : Nat) (called : Bool) (st : State), f.nesting ≤ d →
    calledInFuncWithin d pass f called st = calledInFunc pass f called st

/-- For the call `c`, a bound of at least its nesting is never reached:
`isNotDisposedWithin` is `isNotDisposed`. -/
def isNotDisposedBounded (pass : Pass) (c : Call) : Prop :=
  ∀ (d : Nat) (st : State), c.nesting ≤ d →
    isNotDisposedWithin d pass c st = isNotDisposed pass c st

namespace Fixture

def tResponse : GoType := .pointer (.named (some "net/http") "Response")
def tReadCloser : GoType := .named (some "io") "ReadCloser"
def tReader : GoType := .named (some "io") "Reader"
def tWriter : GoType := .named (some "io") "Writer"
def tError : GoType := .named none "error"
def tBool : GoType := .other "bool"
def tUnit : GoType := .other "()"
/-- The type of a function value, whatever its signature. -/
def tFunc : GoType := .other "func"
def tGetResult : GoType := .other "(resp *net/http.Response, err error)"
def tCopyResult : GoType := .other "(written int64, err error)"

def mRead : Method := ⟨1, "Read"⟩
def mClose : Method := ⟨2, "Close"⟩

/-- The function `io.Copy`: outside the units analysed, without blocks. -/
def ioCopy : Function := .mk "Copy" "io" none none [] [] []
/-- The call `io.Copy(io.Discard, body)`, its results dropped. -/
def copyCall (pos : Nat) : Instruction :=
  .call (.mk pos (.mk (some ioCopy) none [tWriter, tReader] tFunc true) tCopyResult [])
/-- The load of the variable `io.Discard`, passed to `io.Copy`. -/
def discardLoad (pos : Nat) : Instruction := .unOp pos .MUL tWriter [copyCall pos]
/-- The value `body` converted to `io.Reader` and passed to `io.Copy`. -/
def readOf (pos : Nat) : Instruction :=
  .changeInterface pos tReader mRead [copyCall pos]
/-- The call `body.Close()`, its result dropped. -/
def closeOf (pos : Nat) : Instruction :=
  .call (.mk pos (.mk none (some mClose) [] tReadCloser true) tError [])
/-- The comparison of a value with nil, used by an `If`. -/
def nilTest (pos : Nat) : Instruction := .value pos tBool [.effect pos]

/-- The field address `&resp.Body`, loaded once, the loaded value having the referrers `uses`. -/
def bodyField (pos : Nat) (uses : List Instruction) : Instruction :=
  .fieldAddr pos (.pointer tReadCloser) [.unOp pos .MUL tReadCloser uses]

/-! ### Package util -/

/-- The function `util.DisposeBody`. -/
def DisposeBody : Function :=
  .mk "DisposeBody" "util" none none [.mk tReadCloser [readOf 10, closeOf 11]] []
    [[discardLoad 10, readOf 10, copyCall 10, closeOf 11, .ret 12 []]]
/-- The function `util.CloseBody`. -/
def CloseBody : Function :=
  .mk "CloseBody" "util" none none [.mk tReadCloser [closeOf 16]] [] [[closeOf 16, .ret 17 []]]
/-- The function `util.ReadBody`. -/
def ReadBody : Function :=
  .mk "ReadBody" "util" none none [.mk tReadCloser [readOf 21]] []
    [[discardLoad 21, readOf 21, copyCall 21, .ret 22 []]]
/-- The function `util.DisposeResponse`: the parameter is compared with nil, its
body is compared with nil, read, and closed. -/
def DisposeResponse : Function :=
  .mk "DisposeResponse" "util" none none
    [.mk tResponse [nilTest 26, bodyField 26 [nilTest 26], bodyField 27 [readOf 27],
      bodyField 28 [closeOf 28]]] []
    [[nilTest 26, .effect 26], [bodyField 26 [nilTest 26], .effect 26],
     [discardLoad 27, bodyField 27 [readOf 27], copyCall 27, bodyField 28 [closeOf 28],
      closeOf 28],
     [.ret 30 []]]
/-- The function `util.CloseResponse`. -/
def CloseResponse : Function :=
  .mk "CloseResponse" "util" none none
    [.mk tResponse [nilTest 34, bodyField 34 [nilTest 34], bodyField 35 [closeOf 35]]] []
    [[nilTest 34, .effect 34], [bodyField 34 [nilTest 34], .effect 34],
     [bodyField 35 [closeOf 35], closeOf 35], [.ret 37 []]]
/-- The function `util.ReadResponse`. -/
def ReadResponse : Function :=
  .mk "ReadResponse" "util" none none
    [.mk tResponse [nilTest 41, bodyField 41 [nilTest 41], bodyField 42 [readOf 42]]] []
    [[nilTest 41, .effect 41], [bodyField 41 [nilTest 41], .effect 41],
     [discardLoad 42, bodyField 42 [readOf 42], copyCall 42], [.ret 44 []]]

/-- A pass over `funcs` as the unit `pkgPath`, importing net/http, with the
facts `facts` of its dependencies. -/
def passOf (pkgPath : String) (funcs : List Function)
    (facts : String → Option ResponseDisposers) : Pass :=
  { pkgPath := pkgPath
    srcFuncs := funcs
    responseObj := true
    packageFacts := facts
    removeVendor := fun p => p }

/-- The unit `util` of the test data. -/
def utilPass : Pass :=
  passOf "util" [DisposeBody, CloseBody, ReadBody, DisposeResponse, CloseResponse, ReadResponse]
    (fun _ => none)

/-- The fact of the unit `util`. -/
def utilFact : ResponseDisposers := ⟨[⟨"util", "DisposeBody"⟩, ⟨"util", "DisposeResponse"⟩]⟩

/-- The facts a unit that depends on `util` alone can import. -/
def utilFacts : String → Option ResponseDisposers :=
  fun p => if p = "util" then some utilFact else none

/-! ### Acquisitions -/

/-- The method `(*net/http.Client).Get`. -/
def clientGet : Function := .mk "Get" "net/http" none none [] [tResponse, tError] []
/-- The call `http.DefaultClient.Get(url)` whose first result, the response, has
the referrers `uses`; the error result is compared with nil.  (The load of
`http.DefaultClient` before the call is left out of the blocks.) -/
def acquire (pos : Nat) (uses : List Instruction) : Call :=
  .mk pos (.mk (some clientGet) none [] tFunc true) tGetResult
    [.value pos tResponse uses, .value pos tError [nilTest pos]]
/-- The same call with only its first result extracted (`r, _ := ...`). -/
def acquireOnly (pos : Nat) (uses : List Instruction) : Call :=
  .mk pos (.mk (some clientGet) none [] tFunc true) tGetResult [.value pos tResponse uses]
/-- The call `f(r)` of a function of one parameter, the response. -/
def callTo (pos : Nat) (f : Function) : Instruction :=
  .call (.mk pos (.mk (some f) none [tResponse] tFunc true) tUnit [])
/-- The statement `defer f(r)`. -/
def deferTo (pos : Nat) (f : Function) : Instruction :=
  .defer pos (.mk (some f) none [tResponse] tFunc true)

/-- A function of the parameter `url string` with the blocks `blocks`. -/
def funcOf (pkg name : String) (blocks : List (List Instruction)) : Function :=
  .mk name pkg none none [.mk (.other "string") []] [] blocks

/-! ### Package a -/

/-- The function `a.disposeFunctionCall` (as `a.disposeAfterIf`). -/
def disposeFunctionCall : Function :=
  funcOf "a" "disposeFunctionCall"
    [[.call (acquire 19 [callTo 23 DisposeResponse]), .effect 20], [.ret 21 []],
     [callTo 23 DisposeResponse, .ret 24 []]]
/-- The function `a.closeFunctionCall`. -/
def closeFunctionCall : Function :=
  funcOf "a" "closeFunctionCall"
    [[.call (acquire 27 [callTo 31 CloseResponse]), .effect 28], [.ret 29 []],
     [callTo 31 CloseResponse, .ret 32 []]]
/-- The function `a.readFunctionCall`. -/
def readFunctionCall : Function :=
  funcOf "a" "readFunctionCall"
    [[.call (acquire 35 [callTo 39 ReadResponse]), .effect 36], [.ret 37 []],
     [callTo 39 ReadResponse, .ret 41 []]]
/-- The function `a.disposeBody`. -/
def disposeBody : Function :=
  .mk "disposeBody" "a" none none [.mk tReadCloser [readOf 55, closeOf 56]] []
    [[discardLoad 55, readOf 55, copyCall 55, closeOf 56, .ret 57 []]]
/-- The call `http.Get("https://example.com")` of `a.doRequestWithoutClose`, both
results returned. -/
def httpGet : Function := .mk "Get" "net/http" none none [] [tResponse, tError] []
/-- The function `a.doRequestWithoutClose`, which returns the response. -/
def doRequestWithoutClose : Function :=
  .mk "doRequestWithoutClose" "a" none none [] [tResponse, tError]
    [[.call (.mk 60 (.mk (some httpGet) none [] tFunc true) tGetResult
        [.value 60 tResponse [.ret 60 [tResponse, tError]],
         .value 60 tError [.ret 60 [tResponse, tError]]]),
      .ret 60 [tResponse, tError]]]
/-- The function `a.doRequestWithoutDispose`: both results of the call are dropped. -/
def doRequestWithoutDispose : Function :=
  .mk "doRequestWithoutDispose" "a" none none [] []
    [[.call (.mk 44 (.mk (some doRequestWithoutClose) none [] tFunc true)
        (.other "(*net/http.Response, error)") [.value 44 tResponse [], .value 44 tError []]),
      .value 44 tResponse [], .value 44 tError [], .ret 45 []]]
/-- The function `a.doRequestWithLocalDispose`. -/
def doRequestWithLocalDispose : Function :=
  .mk "doRequestWithLocalDispose" "a" none none [] []
    [[.call (.mk 48 (.mk (some doRequestWithoutClose) none [] tFunc true) (.other "(*net/http.Response, error)")
        [.value 48 tResponse
           [.fieldAddr 50 (.pointer tReadCloser)
              [.unOp 50 .MUL tReadCloser
                 [.call (.mk 50 (.mk (some disposeBody) none [tReadCloser] tFunc true) tUnit [])]]],
         .value 48 tError [nilTest 49]]), .effect 49],
     [.ret 52 []]]

/-- The unit `a` of the test data. -/
def aPass : Pass :=
  passOf "a" [disposeFunctionCall, closeFunctionCall, readFunctionCall, doRequestWithoutDispose,
    doRequestWithLocalDispose, disposeBody, doRequestWithoutClose] utilFacts

/-! ### Package b -/

/-- The function `b.deferredDispose`. -/
def deferredDispose : Function :=
  funcOf "b" "deferredDispose"
    [[.call (acquireOnly 9 [deferTo 10 DisposeResponse]), deferTo 10 DisposeResponse, .ret 11 []]]
/-- The function `b.deferredClose`. -/
def deferredClose : Function :=
  funcOf "b" "deferredClose"
    [[.call (acquireOnly 14 [deferTo 15 CloseResponse]), deferTo 15 CloseResponse, .ret 16 []]]
/-- The closure `func() { util.DisposeResponse(r) }` of `b.deferredAnonDispose`:
the captured variable is loaded and passed to the call. -/
def anonDispose : Function :=
  .mk "deferredAnonDispose$1" "b" none none [] []
    [[.unOp 20 .MUL tResponse [callTo 20 DisposeResponse], callTo 20 DisposeResponse, .ret 20 []]]
/-- The store of the response into the captured variable `r`, whose address is
used by the store and by the closure made of `fn`, the closure having the
referrers `closureUses`.  The entry for the store itself among the referrers
of the address is not unfolded further. -/
def storeCaptured (pos : Nat) (fn : Function) (closureUses : List Instruction) : Instruction :=
  .store pos (some [.store pos none, .makeClosure (pos + 1) fn closureUses])
/-- The function `b.deferredAnonDispose`. -/
def deferredAnonDispose : Function :=
  funcOf "b" "deferredAnonDispose"
    [[.value 19 (.pointer tResponse) [],
      .call (acquireOnly 19 [storeCaptured 19 anonDispose [.defer 20 (.mk none none [] tFunc true)]]),
      storeCaptured 19 anonDispose [.defer 20 (.mk none none [] tFunc true)],
      .makeClosure 20 anonDispose [.defer 20 (.mk none none [] tFunc true)],
      .defer 20 (.mk none none [] tFunc true), .ret 21 []]]

/-- The unit `b` of the test data (the closure is a source function too). -/
def bPass : Pass :=
  passOf "b" [deferredDispose, deferredClose, deferredAnonDispose, anonDispose] utilFacts

end Fixture

namespace Fixture

/-- A pass of some unit that can import no fact. -/
def noFactsPass : Pass := passOf "c" [] (fun _ => none)

/-- A method with one parameter, the response, that reads and closes the body;
the receiver is not used:
`func (c *client) dispose(resp *http.Response)`. -/
def disposeMethod : Function :=
  .mk "dispose" "c" none (some (.mk (.pointer (.named (some "c") "client")) []))
    [.mk tResponse [bodyField 5 [readOf 5], bodyField 6 [closeOf 6]]] []
    [[discardLoad 5, bodyField 5 [readOf 5], copyCall 5, bodyField 6 [closeOf 6], closeOf 6,
      .ret 7 []]]
/-- The same body as a plain function `func dispose(resp *http.Response)`. -/
def disposePlain : Function :=
  .mk "dispose" "c" none none
    [.mk tResponse [bodyField 5 [readOf 5], bodyField 6 [closeOf 6]]] []
    [[discardLoad 5, bodyField 5 [readOf 5], copyCall 5, bodyField 6 [closeOf 6], closeOf 6,
      .ret 7 []]]

/-- The request `http.Get(url + "/warmup")` as a statement: its results are dropped. -/
def warmupCall : Call := .mk 3 (.mk (some httpGet) none [] tFunc true) tGetResult []

/-- A function that returns the response and drops the result of an earlier request:
`func fetch(url string) (*http.Response, error)` with the body
`http.Get(url + "/warmup"); return http.Get(url)`. -/
def fetchWithWarmup : Function :=
  .mk "fetch" "c" none none [.mk (.other "string") []] [tResponse, tError]
    [[.call warmupCall,
      .call (.mk 4 (.mk (some httpGet) none [] tFunc true) tGetResult
        [.value 4 tResponse [.ret 4 [tResponse, tError]],
         .value 4 tError [.ret 4 [tResponse, tError]]]),
      .ret 4 [tResponse, tError]]]

/-- A state with an empty `skipFile` map and a collector that has looked up nothing. -/
def st0 : State := ⟨[], ⟨none⟩⟩

end Fixture

namespace Fixture

/-- The outcome of the run over the unit `a` of the test data, from an empty collector. -/
def aRunResult : RunResult :=
  { exported := some ⟨[⟨"a", "disposeBody"⟩]⟩
    diagnostics := [⟨27, diagnosticMessage⟩, ⟨35, diagnosticMessage⟩, ⟨44, diagnosticMessage⟩]
    funcCollector := ⟨some [("a", ⟨[⟨"a", "disposeBody"⟩]⟩), ("util", utilFact)]⟩ }

/-- The call `_, _ = doRequestWithoutClose()` of `a.doRequestWithoutDispose`: both
results are extracted and neither is used. -/
def droppedCall : Call :=
  .mk 44 (.mk (some doRequestWithoutClose) none [] tFunc true)
    (.other "(*net/http.Response, error)") [.value 44 tResponse [], .value 44 tError []]

/-- The function `func warmup(url string)` of a unit `c`, whose body is the
statement `http.Get(url)`: the call has no referrers. -/
def warmupOnly : Function := funcOf "c" "warmup" [[.call warmupCall, .ret 4 []]]

end Fixture

namespace Fixture

/-- The closure `func() { _, _ = io.Copy(io.Discard, r.Body); _ = r.Body.Close() }`
over the captured response `r`: each use of `r` loads it, takes the address of
the body field and loads the body. -/
def anonReadClose : Function :=
  .mk "f$1" "c" none none [] []
    [[discardLoad 20, .unOp 20 .MUL tResponse [bodyField 20 [readOf 20]],
      bodyField 20 [readOf 20], .unOp 20 .MUL tReadCloser [readOf 20], readOf 20, copyCall 20,
      .unOp 21 .MUL tResponse [bodyField 21 [closeOf 21]], bodyField 21 [closeOf 21],
      .unOp 21 .MUL tReadCloser [closeOf 21], closeOf 21, .ret 22 []]]

/-- The deferred call `defer body.Close()`. -/
def deferClose (pos : Nat) : Instruction := .defer pos (.mk none (some mClose) [] tReadCloser true)
/-- The closure `func() { defer r.Body.Close(); _, _ = io.Copy(io.Discard, r.Body) }`. -/
def anonDeferClose : Function :=
  .mk "f$1" "c" none none [] []
    [[.unOp 20 .MUL tResponse [bodyField 20 [deferClose 20]], bodyField 20 [deferClose 20],
      .unOp 20 .MUL tReadCloser [deferClose 20], deferClose 20, discardLoad 21,
      .unOp 21 .MUL tResponse [bodyField 21 [readOf 21]], bodyField 21 [readOf 21],
      .unOp 21 .MUL tReadCloser [readOf 21], readOf 21, copyCall 21, .ret 22 []]]

/-- The request of `r, _ := http.DefaultClient.Get(url)` where `r` is captured by
the closure `fn`, the closure having the referrers `closureUses`. -/
def acquireCaptured (fn : Function) (closureUses : List Instruction) : Call :=
  acquireOnly 19 [storeCaptured 19 fn closureUses]
/-- The function around `acquireCaptured`: the closure is made and, for
`closureUses = []`, neither called nor deferred. -/
def capturingFunc (fn : Function) (closureUses : List Instruction) : Function :=
  funcOf "c" "capturing"
    ([[.value 19 (.pointer tResponse) [], .call (acquireCaptured fn closureUses),
      storeCaptured 19 fn closureUses, .makeClosure 20 fn closureUses] ++ closureUses
      ++ [.ret 23 []]])

end Fixture

namespace Fixture

end Fixture

namespace Fixture

/-- The unit `a` of the test data as a unit in which net/http.Response does not resolve. -/
def aPassUnresolved : Pass := { aPass with responseObj := false }

end Fixture

namespace Fixture

/-- The type `*net/http.ResponseController`. -/
def tResponseController : GoType := .pointer (.named (some "net/http") "ResponseController")

/-- The call `http.NewResponseController(req)`, whose result is used. -/
def newControllerCall : Call :=
  .mk 7 (.mk (some (funcOf "net/http" "NewResponseController" [[]])) none [] tFunc true)
    tResponseController [.effect 8]

/-- The request of `closeFunctionCall`, as a deferred call. -/
def deferredGet : Instruction := .defer 27 (.mk (some clientGet) none [] tFunc true)

end Fixture

namespace Fixture

/-- The interface `Store` of a unit `c`, with the methods `Read(key string) error`
and `Close(key string) error`. -/
def tStore : GoType := .named (some "c") "Store"
/-- The call `store.Read(key)` on a receiver of the type `c.Store`. -/
def storeRead : Instruction :=
  .call (.mk 9 (.mk none (some ⟨7, "Read"⟩) [.other "string"] tStore true) tError [])
/-- The deferred call `defer store.Close(key)` on a receiver of the type `c.Store`. -/
def storeClose : Instruction :=
  .defer 10 (.mk none (some ⟨8, "Close"⟩) [.other "string"] tStore true)

/-- The function `func passThrough(body io.ReadCloser) io.ReadCloser` of a unit
`c`, whose body is `return body`. -/
def passThrough : Function :=
  .mk "passThrough" "c" none none [.mk tReadCloser [.ret 5 [tReadCloser]]] [tReadCloser]
    [[.ret 5 [tReadCloser]]]
/-- The same body as a method, whose receiver is not used:
`func (w *wrapper) passThrough(body io.ReadCloser) io.ReadCloser`. -/
def passThroughMethod : Function :=
  .mk "passThrough" "c" none (some (.mk (.pointer (.named (some "c") "wrapper")) []))
    [.mk tReadCloser [.ret 5 [tReadCloser]]] [tReadCloser]
    [[.ret 5 [tReadCloser]]]

end Fixture

namespace Fixture

end Fixture

namespace Fixture

/-- The function `log.Println`: outside the units analysed, without blocks. -/
def logPrintln : Function := .mk "Println" "log" none none [] [] []
/-- The field address `&r.Status` and the load of it, passed to `log.Println`. -/
def statusText (pos : Nat) : Instruction :=
  .fieldAddr pos (.pointer (.other "string"))
    [.unOp pos .MUL (.other "string")
      [.call (.mk pos (.mk (some logPrintln) none [.other "string"] tFunc true) tUnit [])]]
/-- The closure `func() { log.Println(r.Status) }` over the captured response
`r`: it reads one field of the response and neither reads nor closes the body. -/
def anonLogStatus : Function :=
  .mk "f$1" "c" none none [] []
    [[.unOp 20 .MUL tResponse [statusText 20], statusText 20,
      .unOp 20 .MUL (.other "string")
        [.call (.mk 20 (.mk (some logPrintln) none [.other "string"] tFunc true) tUnit [])],
      .call (.mk 20 (.mk (some logPrintln) none [.other "string"] tFunc true) tUnit []),
      .ret 21 []]]

/-- The request of `r, _ = http.DefaultClient.Get(url)`, where `r` is a variable
of the package: the address stored into is a global, whose `Referrers()` is nil. -/
def acquireGlobal : Call := acquireOnly 3 [.store 4 none]

end Fixture

namespace Fixture

/-- The call `defer func() { ... }()` of a closure. -/
def deferClosure (pos : Nat) : Instruction := .defer pos (.mk none none [] tFunc true)

/-- The request `r2, _ := http.DefaultClient.Get(url2)` inside a closure, where
`r2` is captured by the closure `inner`, which is deferred. -/
def nestedRequest (inner : Function) : Call :=
  acquireOnly 30 [storeCaptured 30 inner [deferClosure 32]]

/-- The closure
`func() { r2, _ := http.DefaultClient.Get(url2); defer inner(); log.Println(r.Status) }`
over the captured response `r`, where `inner` is a closure over `r2`. -/
def outerClosure (inner : Function) : Function :=
  .mk "f$1" "c" none none [] []
    [[.value 30 (.pointer tResponse) [], .call (nestedRequest inner),
      storeCaptured 30 inner [deferClosure 32], .makeClosure 31 inner [deferClosure 32],
      deferClosure 32, .unOp 33 .MUL tResponse [statusText 33], statusText 33, .ret 34 []]]

/-- The closure `func() { _ = *p }` over a captured variable, whose load is unused. -/
def anonUnusedLoad : Function :=
  .mk "f$1$1" "c" none none [] [] [[.unOp 40 .MUL tResponse [], .ret 41 []]]

end Fixture

namespace Fixture

/-- A file of the unit `c` that imports `fmt` and `example.com/client`, and not net/http. -/
def plainFile : AstFile := ⟨1, [⟨some "fmt"⟩, ⟨some "example.com/client"⟩]⟩
/-- A file of the unit `c` that imports `io` and net/http. -/
def httpFile : AstFile := ⟨2, [⟨some "io"⟩, ⟨some "net/http"⟩]⟩

/-- The function `client.Get` of another unit, which returns a response. -/
def helperGet : Function := .mk "Get" "example.com/client" none none [] [tResponse, tError] []

/-- The request `r, _ := client.Get(url)` where `r` is captured by the closure
`fn`, which is deferred. -/
def acquireHelped (fn : Function) : Call :=
  .mk 19 (.mk (some helperGet) none [] tFunc true) tGetResult
    [.value 19 tResponse [storeCaptured 19 fn [deferClosure 22]]]

/-- The function `fetch`, declared in `file`, around `acquireHelped`: the
closure `fn` is a function literal of its body, in the same file. -/
def fetchIn (file : AstFile) (fn : Function) : Function :=
  .mk "fetch" "c" (some ⟨some file⟩) none [] []
    [[.value 19 (.pointer tResponse) [], .call (acquireHelped fn),
      storeCaptured 19 fn [deferClosure 22], .makeClosure 20 fn [deferClosure 22],
      deferClosure 22, .ret 23 []]]

/-- A function with the body of `anonUnusedLoad` whose object is found in `file`. -/
def declaredIn (file : AstFile) : Function :=
  .mk "release" "c" (some ⟨some file⟩) none [] [] [[.unOp 40 .MUL tResponse [], .ret 41 []]]

end Fixture

namespace Fixture

/-- A method with one parameter, the response, that reads and closes the body;
the receiver is not used: `func (c *client) drain(resp *http.Response)`. -/
def drainMethod : Function :=
  .mk "drain" "c" none (some (.mk (.pointer (.named (some "c") "client")) []))
    [.mk tResponse [bodyField 15 [readOf 15], bodyField 16 [closeOf 16]]] []
    [[discardLoad 15, bodyField 15 [readOf 15], copyCall 15, bodyField 16 [closeOf 16],
      closeOf 16, .ret 17 []]]

end Fixture

/-! ## Lemmas on the library functions -/

theorem foldl_append_singleton {α β : Type} (g : α → β) (l : List α) (acc : List β) :
    l.foldl (fun xs a => xs ++ [g a]) acc = acc ++ l.map g := by
  induction l generalizing acc with
  | nil => simp
  | cons a rest ih => simp [List.foldl, ih]

theorem foldl_append_if {α : Type} (q : α → Bool) (l : List α) (acc : List α) :
    l.foldl (fun xs a => if q a then xs ++ [a] else xs) acc = acc ++ l.filter q := by
  induction l generalizing acc with
  | nil => simp
  | cons a rest ih =>
    by_cases h : q a = true
    · simp [List.foldl, ih, h]
    · simp [List.foldl, ih, h]

theorem intercalate_go_eq (sep : String) (rest : List String) (acc b : String) :
    String.intercalate.go acc sep (b :: rest) = acc ++ sep ++ stringsJoin (b :: rest) sep := by
  induction rest generalizing acc b with
  | nil => simp [String.intercalate.go, stringsJoin]
  | cons c rest ih =>
    rw [String.intercalate.go, ih, stringsJoin]
    simp [String.append_assoc]

theorem stringsJoin_eq_intercalate (l : List String) (sep : String) :
    stringsJoin l sep = sep.intercalate l := by
  cases l with
  | nil => rfl
  | cons a rest =>
    cases rest with
    | nil => rfl
    | cons b rest => simp [String.intercalate, stringsJoin, intercalate_go_eq]

theorem mapGet_mapSet_same {κ ν : Type} [DecidableEq κ] (m : List (κ × ν)) (k : κ) (v : ν) :
    mapGet (mapSet m k v) k = some v := by
  simp [mapSet, mapGet]

theorem mapGet_filter_ne {κ ν : Type} [DecidableEq κ] (m : List (κ × ν)) (k k' : κ)
    (h : k' ≠ k) : mapGet (m.filter (fun e => !decide (e.1 = k))) k' = mapGet m k' := by
  induction m with
  | nil => rfl
  | cons e rest ih =>
    obtain ⟨a, b⟩ := e
    by_cases ha : a = k
    · subst ha
      have hne : ¬ a = k' := fun h' => h h'.symm
      simp [List.filter, mapGet, ih, hne]
    · simp [List.filter, mapGet, ih, ha]

theorem mapGet_mapSet_other {κ ν : Type} [DecidableEq κ] (m : List (κ × ν)) (k k' : κ) (v : ν)
    (h : k' ≠ k) : mapGet (mapSet m k v) k' = mapGet m k' := by
  have hne : ¬ k = k' := fun h' => h h'.symm
  simp [mapSet, mapGet, hne, mapGet_filter_ne m k k' h]

/-! ## C9: the string form of a fact -/

/-- C9: the method `String` of a `ResponseDisposers` value is the text
`responseDisposers:` followed by the `Name` fields of `Fns`, in list order,
joined by a comma; it is the same when every `Pkg` field is erased, and the
empty list gives `responseDisposers:` alone. -/
theorem C9_string_format (r : ResponseDisposers) :
    r.String = "responseDisposers:" ++ ",".intercalate (r.Fns.map Fn.Name)
    ∧ r.String = (ResponseDisposers.mk (r.Fns.map (fun f => Fn.mk "" f.Name))).String
    ∧ (ResponseDisposers.mk []).String = "responseDisposers:" := by
  refine ⟨?_, ?_, by decide⟩
  · simp [ResponseDisposers.String, foldl_append_singleton, stringsJoin_eq_intercalate]
  · simp [ResponseDisposers.String, foldl_append_singleton, stringsJoin_eq_intercalate,
      Function.comp_def]

/-! ## C10: the fact store -/

theorem getDisposers_cached (c : readCloserFuncCollector) (pass : Pass) (pkg : String)
    (fact : ResponseDisposers) (h : cachedFact c pkg = some fact) :
    getDisposers c pass pkg = (fact.Fns, c) := by
  obtain ⟨facts⟩ := c
  cases facts with
  | none => simp [cachedFact] at h
  | some m =>
    simp only [cachedFact] at h
    simp [getDisposers, h]

theorem getDisposers_imported (c : readCloserFuncCollector) (pass : Pass) (pkg : String)
    (fact : ResponseDisposers) (h : cachedFact c pkg = none)
    (hp : pass.packageFacts pkg = some fact) :
    (getDisposers c pass pkg).1 = fact.Fns
    ∧ cachedFact (getDisposers c pass pkg).2 pkg = some fact := by
  obtain ⟨facts⟩ := c
  cases facts with
  | none => simp [getDisposers, mapGet, hp, cachedFact, mapGet_mapSet_same]
  | some m =>
    simp only [cachedFact] at h
    simp [getDisposers, h, hp, cachedFact, mapGet_mapSet_same]

theorem getDisposers_absent (c : readCloserFuncCollector) (pass : Pass) (pkg : String)
    (h : cachedFact c pkg = none) (hp : pass.packageFacts pkg = none) :
    (getDisposers c pass pkg).1 = []
    ∧ cachedFact (getDisposers c pass pkg).2 pkg = none := by
  obtain ⟨facts⟩ := c
  cases facts with
  | none => simp [getDisposers, mapGet, hp, cachedFact]
  | some m =>
    simp only [cachedFact] at h
    simp [getDisposers, h, hp, cachedFact]

theorem getDisposers_uncached (c : readCloserFuncCollector) (pass : Pass) (pkg : String)
    (h : cachedFact c pkg = none) :
    (getDisposers c pass pkg).1 =
      match pass.packageFacts pkg with
      | some f => f.Fns
      | none => [] := by
  cases hp : pass.packageFacts pkg with
  | none => simpa using (getDisposers_absent c pass pkg h hp).1
  | some f => simpa using (getDisposers_imported c pass pkg f h hp).1

/-- C10 (amended): a lookup that finds a fact for the path, in the map or by
import, leaves the fact in the map under that path, and every later lookup for
the path returns the same list whatever the pass can import and leaves the
collector as it is.  A lookup that finds no fact returns the empty list and
puts nothing in the map under that path: a later lookup for the path returns
what the pass of that lookup can import. -/
theorem C10_memoization (c : readCloserFuncCollector) (pass : Pass) (pkg : String) :
    (∀ fact, (cachedFact c pkg = some fact
          ∨ (cachedFact c pkg = none ∧ pass.packageFacts pkg = some fact)) →
        (getDisposers c pass pkg).1 = fact.Fns
        ∧ cachedFact (getDisposers c pass pkg).2 pkg = some fact
        ∧ ∀ later : Pass, getDisposers (getDisposers c pass pkg).2 later pkg
            = (fact.Fns, (getDisposers c pass pkg).2))
    ∧ (cachedFact c pkg = none → pass.packageFacts pkg = none →
        (getDisposers c pass pkg).1 = []
        ∧ cachedFact (getDisposers c pass pkg).2 pkg = none
        ∧ ∀ later : Pass, (getDisposers (getDisposers c pass pkg).2 later pkg).1 =
            match later.packageFacts pkg with
            | some f => f.Fns
            | none => []) := by
  constructor
  · intro fact h
    rcases h with h | ⟨h, hp⟩
    · have e := getDisposers_cached c pass pkg fact h
      refine ⟨by rw [e], by rw [e]; exact h, ?_⟩
      intro later
      rw [e]
      exact getDisposers_cached c later pkg fact h
    · have e := getDisposers_imported c pass pkg fact h hp
      exact ⟨e.1, e.2, fun later => getDisposers_cached _ later pkg fact e.2⟩
  · intro h hp
    have e := getDisposers_absent c pass pkg h hp
    exact ⟨e.1, e.2, fun later => getDisposers_uncached _ later pkg e.2⟩

/-- C10, an instance: the first lookup of `util` by a unit that can import its
fact puts the fact in the map, and a later lookup by a pass that can import
nothing still returns its list. -/
theorem C10_memoization_witness :
    (getDisposers ⟨none⟩ Fixture.bPass "util").1 = Fixture.utilFact.Fns
    ∧ cachedFact (getDisposers ⟨none⟩ Fixture.bPass "util").2 "util" = some Fixture.utilFact
    ∧ getDisposers (getDisposers ⟨none⟩ Fixture.bPass "util").2 Fixture.noFactsPass "util"
        = (Fixture.utilFact.Fns, (getDisposers ⟨none⟩ Fixture.bPass "util").2) :=
  have h := (C10_memoization ⟨none⟩ Fixture.bPass "util").1 Fixture.utilFact
    (Or.inr ⟨by decide, by decide⟩)
  ⟨h.1, h.2.1, h.2.2 Fixture.noFactsPass⟩

/-- C10 as stated fails: a first lookup that can import no fact returns the
empty list and leaves no entry under the path, and the next lookup for the
path goes by the pass again, here returning the list of a fact that is there. -/
theorem C10_counterexample :
    (getDisposers ⟨none⟩ Fixture.noFactsPass "util").1 = []
    ∧ cachedFact (getDisposers ⟨none⟩ Fixture.noFactsPass "util").2 "util" = none
    ∧ (getDisposers (getDisposers ⟨none⟩ Fixture.noFactsPass "util").2 Fixture.bPass "util").1
        = Fixture.utilFact.Fns := by
  decide

/-! ## C4, C5: the disposer collector -/

theorem scanBody_eq (refs : List Instruction) (r c : Bool) :
    scanBody refs (r, c) = (r || refs.any isReadCall, c || refs.any isCloseCall) := by
  induction refs generalizing r c with
  | nil => simp [scanBody]
  | cons ref rest ih =>
    have step : scanBody (ref :: rest) (r, c) =
        scanBody rest (if !r && isReadCall ref then true else r,
          if !c && isCloseCall ref then true else c) := by
      simp [scanBody, List.foldl]
    rw [step, ih]
    cases r <;> cases c <;> cases h1 : isReadCall ref <;> cases h2 : isCloseCall ref <;>
      simp [h1, h2]

theorem scanField_eq (refs : List Instruction) (r c : Bool) :
    scanField refs (r, c) = (r || refs.any isReadCall, c || refs.any isCloseCall) := by
  induction refs generalizing r c with
  | nil => simp [scanField]
  | cons ref rest ih =>
    have step : scanField (ref :: rest) (r, c) =
        scanField rest (if isReadCall ref then true else r,
          if isCloseCall ref then true else c) := by
      simp [scanField, List.foldl]
    rw [step, ih]
    cases r <;> cases c <;> cases h1 : isReadCall ref <;> cases h2 : isCloseCall ref <;>
      simp [h1, h2]

theorem isNamedType_iff (t : GoType) (path name : String) :
    isNamedType t path name = true ↔ t = .named (some path) name := by
  cases t with
  | named pkg n =>
    cases pkg with
    | none => simp [isNamedType]
    | some p =>
      simp only [isNamedType, Bool.and_eq_true, beq_iff_eq, GoType.named.injEq, Option.some.injEq]
      constructor
      · rintro ⟨h1, h2⟩
        exact ⟨h2, h1⟩
      · rintro ⟨h1, h2⟩
        exact ⟨h2, h1⟩
  | pointer e => simp [isNamedType]
  | other s => simp [isNamedType]

/-- One step of the loop of the `responseType` case on the flags. -/
theorem scanResponse_step (ref : Instruction) (r c : Bool) :
    (match ref with
      | .fieldAddr _ (.pointer elem) fieldRefs =>
        if isNamedType elem "io" "ReadCloser" then scanField fieldRefs (r, c) else (r, c)
      | _ => (r, c))
    = (r || (bodyProjection ref).any isReadCall, c || (bodyProjection ref).any isCloseCall) := by
  cases ref with
  | fieldAddr p t refs =>
    cases t with
    | pointer elem =>
      by_cases h : elem = .named (some "io") "ReadCloser"
      · subst h
        have h' := (isNamedType_iff (.named (some "io") "ReadCloser") "io" "ReadCloser").2 rfl
        simp [bodyProjection, h', scanField_eq]
      · have h' : isNamedType elem "io" "ReadCloser" = false := by
          cases hh : isNamedType elem "io" "ReadCloser" with
          | false => rfl
          | true => exact absurd ((isNamedType_iff elem "io" "ReadCloser").1 hh) h
        simp [bodyProjection, h, h']
    | named pkg n => simp [bodyProjection]
    | other s => simp [bodyProjection]
  | call c0 => simp [bodyProjection]
  | defer p cc => simp [bodyProjection]
  | store p a => simp [bodyProjection]
  | unOp p o t refs => simp [bodyProjection]
  | makeClosure p f refs => simp [bodyProjection]
  | changeInterface p t m refs => simp [bodyProjection]
  | ret p rs => simp [bodyProjection]
  | value p t refs => simp [bodyProjection]
  | effect p => simp [bodyProjection]

theorem scanResponse_eq (refs : List Instruction) (r c : Bool) :
    scanResponse refs (r, c) =
      (r || refs.any (fun ref => (bodyProjection ref).any isReadCall),
       c || refs.any (fun ref => (bodyProjection ref).any isCloseCall)) := by
  induction refs generalizing r c with
  | nil => simp [scanResponse]
  | cons ref rest ih =>
    have step : scanResponse (ref :: rest) (r, c) =
        scanResponse rest
          (match ref with
            | .fieldAddr _ (.pointer elem) fieldRefs =>
              if isNamedType elem "io" "ReadCloser" then scanField fieldRefs (r, c) else (r, c)
            | _ => (r, c)) := by
      simp [scanResponse, List.foldl]
    rw [step, scanResponse_step, ih]
    simp [Bool.or_assoc]

/-- The classification of `analyze` in closed form. -/
theorem isDisposerFunc_eq_closed (f : Function) :
    isDisposerFunc f = classifiedByCollector f := by
  unfold isDisposerFunc classifiedByCollector respOrRespBodyParam
  cases hp : f.params with
  | nil => simp
  | cons p rest =>
    cases rest with
    | cons p2 rest2 => simp
    | nil =>
      cases hq : f.Params.head? with
      | none => simp
      | some q =>
        by_cases ht : (typeString p.type == readCloserType || typeString p.type == responseType) = true
        · have ht' : (decide (typeString p.type = readCloserType) ||
              decide (typeString p.type = responseType)) = true := by
            simpa using ht
          simp only [ht, ht', if_true, Bool.true_and]
          cases hr : q.referrers with
          | nil => simp
          | cons r0 rs =>
            simp only [List.length_cons, matchFound, hr, List.isEmpty_cons, Bool.not_false,
              Bool.true_and]
            by_cases h1 : typeString q.type = readCloserType
            · simp [h1, scanBody_eq]
            · by_cases h2 : typeString q.type = responseType
              · have hne : ¬ responseType = readCloserType := by decide
                simp [h2, hne, scanResponse_eq]
              · simp [h1, h2]
        · have ht' : (decide (typeString p.type = readCloserType) ||
              decide (typeString p.type = responseType)) = false := by
            simpa using ht
          simp [ht, ht']

/-- For a function without receiver the classification of `analyze` is the
classification in the words of the specification. -/
theorem isDisposerFunc_eq_spec_plain (f : Function) (h : f.recv = none) :
    isDisposerFunc f = specDisposer f := by
  rw [isDisposerFunc_eq_closed]
  unfold classifiedByCollector specDisposer
  cases hp : f.params with
  | nil => rfl
  | cons p rest =>
    cases rest with
    | cons p2 rest2 => rfl
    | nil =>
      have hq : f.Params.head? = some p := by simp [Function.Params, h, hp]
      rw [hq]

theorem collectDisposerFns_eq (funcs : List Function) :
    collectDisposerFns funcs = funcs.filter isDisposerFunc := by
  simp [collectDisposerFns, foldl_append_if]

theorem analyze_eq (pass : Pass) :
    analyze pass =
      if (pass.srcFuncs.filter isDisposerFunc).length > 0 then
        some ⟨(pass.srcFuncs.filter isDisposerFunc).map (fun f => Fn.mk f.pkg f.name)⟩
      else none := by
  simp [analyze, collectDisposerFns_eq, foldl_append_singleton]

theorem filter_congr_mem {α : Type} (p q : α → Bool) (l : List α)
    (h : ∀ x ∈ l, p x = q x) : l.filter p = l.filter q := by
  induction l with
  | nil => rfl
  | cons x rest ih =>
    have hx := h x (List.mem_cons_self _ _)
    have ih' := ih (fun y hy => h y (List.mem_cons_of_mem _ hy))
    simp only [List.filter_cons, hx, ih']

/-- C5 at a unit with a method: for a unit whose functions have no receiver, a
fact that `analyze` exports lists, in the order of the unit's function list,
the functions that are disposers in the words of the specification (exactly
one parameter, of the handle or the container type, with a referrer, a read
match and a close match), each as its package path and name.  The method
`drain` is such a function, and the fact `analyze` exports for the unit of the
function `dispose` and the method `drain` lists `dispose` alone: the collector
inspects the first entry of `Params`, the receiver. -/
theorem C5_method_left_out :
    (∀ (pass : Pass) (fact : ResponseDisposers), (∀ f ∈ pass.srcFuncs, f.recv = none) →
        analyze pass = some fact →
        fact.Fns = (pass.srcFuncs.filter specDisposer).map (fun f => Fn.mk f.pkg f.name))
    ∧ Fixture.drainMethod.params.map
        (fun p => (typeString p.type, p.referrers.length, matchFound isReadCall p,
          matchFound isCloseCall p))
      = [(responseType, 2, true, true)]
    ∧ specDisposer Fixture.drainMethod = true
    ∧ analyze (Fixture.passOf "c" [Fixture.disposePlain, Fixture.drainMethod] (fun _ => none))
        = some ⟨[⟨"c", "dispose"⟩]⟩
    ∧ ([Fixture.disposePlain, Fixture.drainMethod].filter specDisposer).map
        (fun f => Fn.mk f.pkg f.name) = [⟨"c", "dispose"⟩, ⟨"c", "drain"⟩] := by
  refine ⟨?_, by decide, by decide, by decide, by decide⟩
  intro pass fact hrecv h
  rw [analyze_eq] at h
  split at h
  · simp only [Option.some.injEq] at h
    subst h
    simp only
    rw [filter_congr_mem isDisposerFunc specDisposer pass.srcFuncs
      (fun f hf => isDisposerFunc_eq_spec_plain f (hrecv f hf))]
  · cases h

/-- C5, on the unit `util` of the test data, whose functions have no receiver. -/
theorem C5_method_left_out_witness :
    analyze Fixture.utilPass = some Fixture.utilFact
    ∧ Fixture.utilFact.Fns
        = (Fixture.utilPass.srcFuncs.filter specDisposer).map (fun f => Fn.mk f.pkg f.name) :=
  ⟨by decide, C5_method_left_out.1 Fixture.utilPass Fixture.utilFact
    (by
      intro f hf
      simp only [Fixture.utilPass, Fixture.passOf, List.mem_cons, List.mem_singleton,
        List.not_mem_nil, or_false] at hf
      rcases hf with rfl | rfl | rfl | rfl | rfl | rfl <;> rfl)
    (by decide)⟩

/-- A plain function (no receiver) with exactly one parameter, of the container
type, some body projection of which has a read match and some body projection
of which has a close match, is in the fact `analyze` exports. -/
theorem analyze_includes_plain_function (pass : Pass) (f : Function) (p : Parameter)
    (hf : f ∈ pass.srcFuncs) (hrecv : f.recv = none) (hp : f.params = [p])
    (ht : typeString p.type = responseType)
    (hread : ∃ proj ∈ p.referrers, ∃ r ∈ bodyProjection proj, isReadCall r = true)
    (hclose : ∃ proj ∈ p.referrers, ∃ r ∈ bodyProjection proj, isCloseCall r = true) :
    ∃ fact, analyze pass = some fact ∧ Fn.mk f.pkg f.name ∈ fact.Fns := by
  have hne : ¬ responseType = readCloserType := by decide
  have hrefs : p.referrers.isEmpty = false := by
    obtain ⟨proj, hproj, _⟩ := hread
    cases hr : p.referrers with
    | nil => rw [hr] at hproj; cases hproj
    | cons a b => rfl
  have hspec : isDisposerFunc f = true := by
    rw [isDisposerFunc_eq_spec_plain f hrecv]
    unfold specDisposer
    rw [hp]
    simp only [ht, hne, decide_False, decide_True, Bool.false_or, hrefs, Bool.not_false,
      Bool.true_and, matchFound, if_false, if_true, Bool.and_eq_true, List.any_eq_true]
    exact ⟨hread, hclose⟩
  have hmem : f ∈ pass.srcFuncs.filter isDisposerFunc := List.mem_filter.2 ⟨hf, hspec⟩
  have hlen : (pass.srcFuncs.filter isDisposerFunc).length > 0 := List.length_pos_of_mem hmem
  refine ⟨⟨(pass.srcFuncs.filter isDisposerFunc).map (fun f => Fn.mk f.pkg f.name)⟩, ?_, ?_⟩
  · rw [analyze_eq, if_pos hlen]
  · exact List.mem_map.2 ⟨f, hmem, rfl⟩

/-- The matches found for a parameter do not depend on the order of its
referrers. -/
theorem matchFound_perm (m : Instruction → Bool) (t : GoType) (l1 l2 : List Instruction)
    (h : l1.Perm l2) : matchFound m (.mk t l1) = matchFound m (.mk t l2) := by
  have hany : ∀ g : Instruction → Bool, l1.any g = l2.any g := by
    intro g
    rw [Bool.eq_iff_iff]
    simp only [List.any_eq_true]
    constructor
    · rintro ⟨x, hx, hg⟩
      exact ⟨x, h.mem_iff.1 hx, hg⟩
    · rintro ⟨x, hx, hg⟩
      exact ⟨x, h.mem_iff.2 hx, hg⟩
  simp only [matchFound, Parameter.type, Parameter.referrers, hany]

/-- C4 at a method: `dispose` has exactly one parameter, of the container type,
for which a read match and a close match are found among its body projections,
yet `analyze` exports no fact for its unit: the collector inspects the first
entry of `Params`, the receiver.  The same body as a plain function is exported. -/
theorem C4_method_not_collected :
    Fixture.disposeMethod.params.map
        (fun p => (typeString p.type, matchFound isReadCall p, matchFound isCloseCall p))
      = [(responseType, true, true)]
    ∧ analyze (Fixture.passOf "c" [Fixture.disposeMethod] (fun _ => none)) = none
    ∧ analyze (Fixture.passOf "c" [Fixture.disposePlain] (fun _ => none))
        = some ⟨[⟨"c", "dispose"⟩]⟩ := by
  decide

/-! ## C6, C2: the loop of `run` -/

theorem checkInstr_diag (pass : Pass) (instr : Instruction) (st st1 : State)
    (ds : List Diagnostic) (h : checkInstr pass instr st = some (ds, st1)) :
    ∀ d ∈ ds, (getReqCall instr).isSome = true ∧ d = ⟨instr.pos, diagnosticMessage⟩ := by
  unfold checkInstr at h
  split at h
  · rename_i call hreq
    split at h
    · cases h
    · split at h
      · simp only [Option.some.injEq, Prod.mk.injEq] at h
        obtain ⟨rfl, _⟩ := h
        intro d hd
        simp only [List.mem_singleton] at hd
        exact ⟨by simp [hreq], hd⟩
      · simp only [Option.some.injEq, Prod.mk.injEq] at h
        obtain ⟨rfl, _⟩ := h
        intro d hd
        cases hd
  · simp only [Option.some.injEq, Prod.mk.injEq] at h
    obtain ⟨rfl, _⟩ := h
    intro d hd
    cases hd

theorem andThen_some (x : Option (List Diagnostic × State))
    (k : State → Option (List Diagnostic × State)) (ds : List Diagnostic) (s : State)
    (h : andThen x k = some (ds, s)) :
    ∃ ds1 s1 ds2, x = some (ds1, s1) ∧ k s1 = some (ds2, s) ∧ ds = ds1 ++ ds2 := by
  unfold andThen at h
  cases x with
  | none => cases h
  | some r1 =>
    obtain ⟨ds1, s1⟩ := r1
    simp only at h
    cases hk : k s1 with
    | none => rw [hk] at h; cases h
    | some r2 =>
      obtain ⟨ds2, s2⟩ := r2
      rw [hk] at h
      simp only [Option.some.injEq, Prod.mk.injEq] at h
      obtain ⟨rfl, rfl⟩ := h
      exact ⟨ds1, s1, ds2, rfl, hk, rfl⟩

theorem checkInstrs_cons (pass : Pass) (instr : Instruction) (rest : List Instruction)
    (st : State) :
    checkInstrs pass (instr :: rest) st
      = andThen (checkInstr pass instr st) (checkInstrs pass rest) := by
  rw [checkInstrs]

theorem checkBlocks_cons (pass : Pass) (block : List Instruction)
    (rest : List (List Instruction)) (st : State) :
    checkBlocks pass (block :: rest) st
      = andThen (checkInstrs pass block st) (checkBlocks pass rest) := by
  rw [checkBlocks]

theorem checkFuncs_cons (pass : Pass) (fu : Function) (rest : List Function) (st : State) :
    checkFuncs pass (fu :: rest) st
      = andThen (checkFunc pass fu st) (checkFuncs pass rest) := by
  rw [checkFuncs]

theorem checkInstrs_diag (pass : Pass) (instrs : List Instruction) (st st1 : State)
    (ds : List Diagnostic) (h : checkInstrs pass instrs st = some (ds, st1)) :
    ∀ d ∈ ds, ∃ i ∈ instrs, (getReqCall i).isSome = true ∧ d = ⟨i.pos, diagnosticMessage⟩ := by
  induction instrs generalizing st st1 ds with
  | nil =>
    simp only [checkInstrs, Option.some.injEq, Prod.mk.injEq] at h
    obtain ⟨rfl, _⟩ := h
    intro d hd
    cases hd
  | cons instr rest ih =>
    rw [checkInstrs_cons] at h
    obtain ⟨ds1, s1, ds2, h1, h2, rfl⟩ := andThen_some _ _ ds st1 h
    intro d hd
    rcases List.mem_append.1 hd with hd | hd
    · exact ⟨instr, List.mem_cons_self _ _, checkInstr_diag pass instr st s1 ds1 h1 d hd⟩
    · obtain ⟨i, hi, hres⟩ := ih s1 st1 ds2 h2 d hd
      exact ⟨i, List.mem_cons_of_mem _ hi, hres⟩

theorem checkBlocks_diag (pass : Pass) (blocks : List (List Instruction)) (st st1 : State)
    (ds : List Diagnostic) (h : checkBlocks pass blocks st = some (ds, st1)) :
    ∀ d ∈ ds, ∃ b ∈ blocks, ∃ i ∈ b,
      (getReqCall i).isSome = true ∧ d = ⟨i.pos, diagnosticMessage⟩ := by
  induction blocks generalizing st st1 ds with
  | nil =>
    simp only [checkBlocks, Option.some.injEq, Prod.mk.injEq] at h
    obtain ⟨rfl, _⟩ := h
    intro d hd
    cases hd
  | cons block rest ih =>
    rw [checkBlocks_cons] at h
    obtain ⟨ds1, s1, ds2, h1, h2, rfl⟩ := andThen_some _ _ ds st1 h
    intro d hd
    rcases List.mem_append.1 hd with hd | hd
    · exact ⟨block, List.mem_cons_self _ _, checkInstrs_diag pass block st s1 ds1 h1 d hd⟩
    · obtain ⟨b, hb, hres⟩ := ih s1 st1 ds2 h2 d hd
      exact ⟨b, List.mem_cons_of_mem _ hb, hres⟩

theorem checkFuncs_diag (pass : Pass) (funcs : List Function) (st st1 : State)
    (ds : List Diagnostic) (h : checkFuncs pass funcs st = some (ds, st1)) :
    ∀ d ∈ ds, ∃ g ∈ funcs, returnsResponse g = false ∧ ∃ b ∈ g.blocks, ∃ i ∈ b,
      (getReqCall i).isSome = true ∧ d = ⟨i.pos, diagnosticMessage⟩ := by
  induction funcs generalizing st st1 ds with
  | nil =>
    simp only [checkFuncs, Option.some.injEq, Prod.mk.injEq] at h
    obtain ⟨rfl, _⟩ := h
    intro d hd
    cases hd
  | cons fu rest ih =>
    rw [checkFuncs_cons] at h
    obtain ⟨ds1, s1, ds2, h1, h2, rfl⟩ := andThen_some _ _ ds st1 h
    intro d hd
    rcases List.mem_append.1 hd with hd | hd
    · unfold checkFunc at h1
      cases hret : returnsResponse fu with
      | true =>
        rw [hret] at h1
        simp only [if_true, Option.some.injEq, Prod.mk.injEq] at h1
        obtain ⟨rfl, _⟩ := h1
        cases hd
      | false =>
        rw [hret] at h1
        simp only [Bool.false_eq_true, if_false] at h1
        exact ⟨fu, List.mem_cons_self _ _, hret,
          checkBlocks_diag pass fu.blocks st s1 ds1 h1 d hd⟩
    · obtain ⟨g, hg, hres⟩ := ih s1 st1 ds2 h2 d hd
      exact ⟨g, List.mem_cons_of_mem _ hg, hres⟩

theorem run_diag (pass : Pass) (c : readCloserFuncCollector) (r : RunResult)
    (h : run pass c = some r) :
    ∀ d ∈ r.diagnostics, ∃ g ∈ pass.srcFuncs, returnsResponse g = false ∧
      ∃ b ∈ g.blocks, ∃ i ∈ b, (getReqCall i).isSome = true ∧ d = ⟨i.pos, diagnosticMessage⟩ := by
  unfold run at h
  cases hobj : pass.responseObj with
  | false =>
    simp only [hobj, Bool.not_false, if_true, Option.some.injEq] at h
    subst h
    intro d hd
    cases hd
  | true =>
    simp only [hobj, Bool.not_true, Bool.false_eq_true, if_false] at h
    split at h
    · cases h
    · rename_i ds st hcf
      simp only [Option.some.injEq] at h
      subst h
      intro d hd
      obtain ⟨g, hg, hres⟩ := checkFuncs_diag _ _ _ _ _ hcf d hd
      exact ⟨g, hg, hres⟩

/-- C6: for a function whose signature has a result of the container type, the
iteration of `run` over it reports nothing and leaves the state as it is,
whatever its body; and every diagnostic of a `run` is at an acquisition call of
a function of the unit no result of which has the container type. -/
theorem C6_producer_exempt (pass : Pass) (fu : Function)
    (h : ∃ t ∈ fu.results, typeString t = responseType) :
    (∀ st : State, checkFunc pass fu st = some ([], st))
    ∧ (∀ (c : readCloserFuncCollector) (r : RunResult), run pass c = some r →
        ∀ d ∈ r.diagnostics, ∃ g ∈ pass.srcFuncs,
          (∀ t ∈ g.results, typeString t ≠ responseType) ∧
          ∃ b ∈ g.blocks, ∃ i ∈ b, (getReqCall i).isSome = true
            ∧ d = ⟨i.pos, diagnosticMessage⟩) := by
  constructor
  · intro st
    have hret : returnsResponse fu = true := by
      obtain ⟨t, ht, hs⟩ := h
      simp only [returnsResponse, List.any_eq_true, beq_iff_eq]
      exact ⟨t, ht, hs⟩
    simp [checkFunc, hret]
  · intro c r hr d hd
    obtain ⟨g, hg, hret, rest⟩ := run_diag pass c r hr d hd
    refine ⟨g, hg, ?_, rest⟩
    intro t ht hs
    have : returnsResponse g = true := by
      simp only [returnsResponse, List.any_eq_true, beq_iff_eq]
      exact ⟨t, ht, hs⟩
    rw [hret] at this
    cases this

/-- C6, an instance: `a.doRequestWithoutClose` returns the response of the
request it makes, and the run over it reports nothing. -/
theorem C6_producer_exempt_witness :
    (∃ t ∈ Fixture.doRequestWithoutClose.results, typeString t = responseType)
    ∧ checkFunc Fixture.aPass Fixture.doRequestWithoutClose ⟨[], ⟨none⟩⟩
        = some ([], ⟨[], ⟨none⟩⟩) :=
  have hex : ∃ t ∈ Fixture.doRequestWithoutClose.results, typeString t = responseType :=
    ⟨Fixture.tResponse, by decide, by decide⟩
  ⟨hex, (C6_producer_exempt Fixture.aPass Fixture.doRequestWithoutClose hex).1 ⟨[], ⟨none⟩⟩⟩

/-! ## The fact store under lookups -/

theorem getDisposers_fst (c : readCloserFuncCollector) (pass : Pass) (pkg : String) :
    (getDisposers c pass pkg).1 = disposersOf pass c pkg := by
  unfold disposersOf knownFact
  cases h : cachedFact c pkg with
  | some f => simp [getDisposers_cached c pass pkg f h]
  | none =>
    cases hp : pass.packageFacts pkg with
    | none => simpa using (getDisposers_absent c pass pkg h hp).1
    | some f => simpa using (getDisposers_imported c pass pkg f h hp).1

theorem cachedFact_getDisposers_other (c : readCloserFuncCollector) (pass : Pass)
    (q p : String) (h : p ≠ q) :
    cachedFact (getDisposers c pass q).2 p = cachedFact c p := by
  obtain ⟨facts⟩ := c
  cases facts with
  | none =>
    cases hp : pass.packageFacts q with
    | none => simp [getDisposers, mapGet, hp, cachedFact]
    | some f =>
      have e : ¬ q = p := fun h' => h h'.symm
      simp [getDisposers, mapGet, mapSet, hp, cachedFact, e]
  | some m =>
    cases hc : mapGet m q with
    | some f => simp [getDisposers, hc, cachedFact]
    | none =>
      cases hp : pass.packageFacts q with
      | none => simp [getDisposers, hc, hp, cachedFact]
      | some f => simp [getDisposers, hc, hp, cachedFact, mapGet_mapSet_other m q p f h]

theorem knownFact_getDisposers (c : readCloserFuncCollector) (pass : Pass) (q p : String) :
    knownFact pass (getDisposers c pass q).2 p = knownFact pass c p := by
  by_cases h : p = q
  · subst h
    unfold knownFact
    cases hc : cachedFact c p with
    | some f => rw [getDisposers_cached c pass p f hc, hc]
    | none =>
      cases hp : pass.packageFacts p with
      | none => rw [(getDisposers_absent c pass p hc hp).2]
      | some f => rw [(getDisposers_imported c pass p f hc hp).2]
  · unfold knownFact
    rw [cachedFact_getDisposers_other c pass q p h]

theorem disposersOf_getDisposers (c : readCloserFuncCollector) (pass : Pass) (q p : String) :
    disposersOf pass (getDisposers c pass q).2 p = disposersOf pass c p := by
  unfold disposersOf
  rw [knownFact_getDisposers]

theorem Agrees.refl (pass : Pass) (c : readCloserFuncCollector) : Agrees pass c c :=
  fun _ => rfl

theorem Agrees.trans {pass : Pass} {c1 c2 c3 : readCloserFuncCollector}
    (h12 : Agrees pass c1 c2) (h23 : Agrees pass c2 c3) : Agrees pass c1 c3 :=
  fun p => (h23 p).trans (h12 p)

theorem matchesDisposer_iff (f : Function) (l : List Fn) :
    matchesDisposer f l = true ↔ Fn.mk f.pkg f.name ∈ l := by
  simp only [matchesDisposer, List.any_eq_true, Bool.and_eq_true, beq_iff_eq]
  constructor
  · rintro ⟨d, hd, hn, hp⟩
    obtain ⟨dp, dn⟩ := d
    simp only at hn hp
    subst hn hp
    exact hd
  · intro h
    exact ⟨_, h, rfl, rfl⟩

theorem callsRecordedDisposer_agrees {pass : Pass} {c1 c2 : readCloserFuncCollector}
    (h : Agrees pass c1 c2) (i : Instruction) :
    callsRecordedDisposer pass c2 i ↔ callsRecordedDisposer pass c1 i := by
  unfold callsRecordedDisposer
  constructor
  · rintro ⟨f, hf, hm⟩
    exact ⟨f, hf, by rw [← h f.pkg]; exact hm⟩
  · rintro ⟨f, hf, hm⟩
    exact ⟨f, hf, by rw [h f.pkg]; exact hm⟩

theorem passedOver_agrees {pass : Pass} {c1 c2 : readCloserFuncCollector}
    (h : Agrees pass c1 c2) (l : List Instruction) :
    passedOver pass c2 l ↔ passedOver pass c1 l := by
  unfold passedOver
  constructor
  · intro hp i hi
    exact ⟨(hp i hi).1, fun hc => (hp i hi).2 ((callsRecordedDisposer_agrees h i).2 hc)⟩
  · intro hp i hi
    exact ⟨(hp i hi).1, fun hc => (hp i hi).2 ((callsRecordedDisposer_agrees h i).1 hc)⟩

theorem reachesBareCallee_agrees {pass : Pass} {c1 c2 : readCloserFuncCollector}
    (h : Agrees pass c1 c2) (l : List Instruction) :
    reachesBareCallee pass c2 l ↔ reachesBareCallee pass c1 l := by
  unfold reachesBareCallee
  constructor
  · rintro ⟨pre, post, k, hl, hp, hk⟩
    exact ⟨pre, post, k, hl, (passedOver_agrees h pre).1 hp, hk⟩
  · rintro ⟨pre, post, k, hl, hp, hk⟩
    exact ⟨pre, post, k, hl, (passedOver_agrees h pre).2 hp, hk⟩

theorem loadsPassedOver_agrees {pass : Pass} {c1 c2 : readCloserFuncCollector}
    (h : Agrees pass c1 c2) (l : List Instruction) :
    loadsPassedOver pass c2 l ↔ loadsPassedOver pass c1 l := by
  unfold loadsPassedOver
  constructor
  · intro hp i hi v hv
    exact ⟨(hp i hi v hv).1, (passedOver_agrees h _).1 (hp i hi v hv).2⟩
  · intro hp i hi v hv
    exact ⟨(hp i hi v hv).1, (passedOver_agrees h _).2 (hp i hi v hv).2⟩

/-- The answer of `isDisposeCall` for a statically known callee with its package. -/
theorem isDisposeCall_known (pass : Pass) (c : readCloserFuncCollector) (f : Function) :
    Agrees pass c (getDisposers c pass f.pkg).2
    ∧ (matchesDisposer f (getDisposers c pass f.pkg).1 = true
        ↔ Fn.mk f.pkg f.name ∈ disposersOf pass c f.pkg) :=
  ⟨fun p => disposersOf_getDisposers _ _ _ _, by rw [getDisposers_fst, matchesDisposer_iff]⟩

/-- What `isDisposeCall` does: it panics at a call or deferred call of a
statically known function without package; otherwise it returns, the collector
it leaves answers every lookup as before, and its answer is true exactly for a
call or deferred call of a recorded disposer. -/
theorem isDisposeCall_spec (pass : Pass) (c : readCloserFuncCollector) (i : Instruction) :
    (calleeWithoutPackage i = true ∧ isDisposeCall c pass i = none)
    ∨ (calleeWithoutPackage i = false
      ∧ ∃ b c1, isDisposeCall c pass i = some (b, c1) ∧ Agrees pass c c1
        ∧ (b = true ↔ callsRecordedDisposer pass c i)) := by
  have hother : ∀ j : Instruction, (∀ cl, j ≠ .call cl) → (∀ p cc, j ≠ .defer p cc) →
      isDisposeCall c pass j = some (false, c) → calleeWithoutPackage j = false →
      (calleeWithoutPackage j = true ∧ isDisposeCall c pass j = none)
      ∨ (calleeWithoutPackage j = false
        ∧ ∃ b c1, isDisposeCall c pass j = some (b, c1) ∧ Agrees pass c c1
          ∧ (b = true ↔ callsRecordedDisposer pass c j)) := by
    intro j h1 h2 he hn
    refine Or.inr ⟨hn, false, c, he, Agrees.refl pass c, ?_⟩
    constructor
    · intro h
      cases h
    · rintro ⟨f, hf | hf, _⟩
      · obtain ⟨cl, hcl, _⟩ := hf
        exact absurd hcl (h1 cl)
      · obtain ⟨p, cc, hcc, _⟩ := hf
        exact absurd hcc (h2 p cc)
  cases i with
  | call cl =>
    cases cl with
    | mk p cc t refs =>
      cases cc with
      | mk v m a vt hp =>
        cases v with
        | none =>
          refine Or.inr ⟨rfl, false, c, rfl, Agrees.refl pass c, ?_⟩
          constructor
          · intro h
            cases h
          · rintro ⟨f, hf | hf, _⟩
            · obtain ⟨cl, hcl, hv, _⟩ := hf
              cases hcl
              cases hv
            · obtain ⟨p1, cc1, hcc, _⟩ := hf
              cases hcc
        | some f =>
          cases hp with
          | false => exact Or.inl ⟨rfl, rfl⟩
          | true =>
            refine Or.inr ⟨rfl, _, _, rfl, (isDisposeCall_known pass c f).1, ?_⟩
            rw [(isDisposeCall_known pass c f).2]
            constructor
            · intro h
              exact ⟨f, Or.inl ⟨_, rfl, rfl, rfl⟩, h⟩
            · rintro ⟨g, hg | hg, hmem⟩
              · obtain ⟨cl, hcl, hv, _⟩ := hg
                cases hcl
                cases hv
                exact hmem
              · obtain ⟨p1, cc1, hcc, _⟩ := hg
                cases hcc
  | defer p cc =>
    cases cc with
    | mk v m a vt hp =>
      cases v with
      | none =>
        refine Or.inr ⟨rfl, false, c, rfl, Agrees.refl pass c, ?_⟩
        constructor
        · intro h
          cases h
        · rintro ⟨f, hf | hf, _⟩
          · obtain ⟨cl, hcl, _⟩ := hf
            cases hcl
          · obtain ⟨p1, cc1, hcc, hv, _⟩ := hf
            cases hcc
            cases hv
      | some f =>
        cases hp with
        | false => exact Or.inl ⟨rfl, rfl⟩
        | true =>
          refine Or.inr ⟨rfl, _, _, rfl, (isDisposeCall_known pass c f).1, ?_⟩
          rw [(isDisposeCall_known pass c f).2]
          constructor
          · intro h
            exact ⟨f, Or.inr ⟨_, _, rfl, rfl, rfl⟩, h⟩
          · rintro ⟨g, hg | hg, hmem⟩
            · obtain ⟨cl, hcl, _⟩ := hg
              cases hcl
            · obtain ⟨p1, cc1, hcc, hv, _⟩ := hg
              cases hcc
              cases hv
              exact hmem
  | store p a =>
    exact hother _ (fun _ h => by cases h) (fun _ _ h => by cases h) rfl rfl
  | fieldAddr p t refs =>
    exact hother _ (fun _ h => by cases h) (fun _ _ h => by cases h) rfl rfl
  | unOp p o t refs =>
    exact hother _ (fun _ h => by cases h) (fun _ _ h => by cases h) rfl rfl
  | makeClosure p f refs =>
    exact hother _ (fun _ h => by cases h) (fun _ _ h => by cases h) rfl rfl
  | changeInterface p t m refs =>
    exact hother _ (fun _ h => by cases h) (fun _ _ h => by cases h) rfl rfl
  | ret p rs =>
    exact hother _ (fun _ h => by cases h) (fun _ _ h => by cases h) rfl rfl
  | value p t refs =>
    exact hother _ (fun _ h => by cases h) (fun _ _ h => by cases h) rfl rfl
  | effect p =>
    exact hother _ (fun _ h => by cases h) (fun _ _ h => by cases h) rfl rfl

theorem isDisposeCall_none_iff (pass : Pass) (c : readCloserFuncCollector) (i : Instruction) :
    isDisposeCall c pass i = none ↔ calleeWithoutPackage i = true := by
  rcases isDisposeCall_spec pass c i with ⟨h1, h2⟩ | ⟨h1, b, c1, h2, _⟩
  · simp [h1, h2]
  · simp [h1, h2]

theorem isDisposeCall_some_inv (pass : Pass) (c c1 : readCloserFuncCollector)
    (i : Instruction) (b : Bool) (h : isDisposeCall c pass i = some (b, c1)) :
    calleeWithoutPackage i = false ∧ Agrees pass c c1
      ∧ (b = true ↔ callsRecordedDisposer pass c i) := by
  rcases isDisposeCall_spec pass c i with ⟨_, h2⟩ | ⟨h1, b2, c2, h2, ha, hb⟩
  · rw [h2] at h
    cases h
  · rw [h2] at h
    simp only [Option.some.injEq, Prod.mk.injEq] at h
    obtain ⟨rfl, rfl⟩ := h
    exact ⟨h1, ha, hb⟩

/-- The answer of `isDisposeCall` is true exactly at a call or deferred call of a
recorded disposer. -/
theorem isDisposeCall_true_iff (pass : Pass) (c : readCloserFuncCollector) (i : Instruction) :
    (∃ c1, isDisposeCall c pass i = some (true, c1)) ↔ callsRecordedDisposer pass c i := by
  constructor
  · rintro ⟨c1, h⟩
    exact (isDisposeCall_some_inv pass c c1 i true h).2.2.1 rfl
  · intro h
    rcases isDisposeCall_spec pass c i with ⟨h1, _⟩ | ⟨_, b, c1, h2, _, hb⟩
    · obtain ⟨f, hf | hf, _⟩ := h
      · obtain ⟨cl, rfl, hv, hp⟩ := hf
        simp [calleeWithoutPackage, hv, hp] at h1
      · obtain ⟨p, cc, rfl, hv, hp⟩ := hf
        simp [calleeWithoutPackage, hv, hp] at h1
    · have := hb.2 h
      subst this
      exact ⟨c1, h2⟩

theorem isDisposeCall_passedOver (pass : Pass) (c : readCloserFuncCollector) (i : Instruction)
    (h1 : calleeWithoutPackage i = false) (h2 : ¬ callsRecordedDisposer pass c i) :
    ∃ c1, isDisposeCall c pass i = some (false, c1) ∧ Agrees pass c c1 := by
  rcases isDisposeCall_spec pass c i with ⟨h3, _⟩ | ⟨_, b, c1, h4, ha, hb⟩
  · rw [h1] at h3
    cases h3
  · cases b with
    | false => exact ⟨c1, h4, ha⟩
    | true => exact absurd (hb.1 rfl) h2

/-! ### The loop over the referrers of a loaded body handle -/

theorem ccallsLoop_cons_none (pass : Pass) (i : Instruction) (rest : List Instruction)
    (c : readCloserFuncCollector) (h : isDisposeCall c pass i = none) :
    ccallsLoop pass (i :: rest) c = none := by
  rw [ccallsLoop, h]

theorem ccallsLoop_cons_true (pass : Pass) (i : Instruction) (rest : List Instruction)
    (c c1 : readCloserFuncCollector) (h : isDisposeCall c pass i = some (true, c1)) :
    ccallsLoop pass (i :: rest) c = some (true, c1) := by
  rw [ccallsLoop, h]
  rfl

theorem ccallsLoop_cons_false (pass : Pass) (i : Instruction) (rest : List Instruction)
    (c c1 : readCloserFuncCollector) (h : isDisposeCall c pass i = some (false, c1)) :
    ccallsLoop pass (i :: rest) c = ccallsLoop pass rest c1 := by
  rw [ccallsLoop, h]
  rfl

theorem ccallsLoop_prefix (pass : Pass) (pre rest : List Instruction)
    (c : readCloserFuncCollector) (h : passedOver pass c pre) :
    ∃ c1, Agrees pass c c1 ∧ ccallsLoop pass (pre ++ rest) c = ccallsLoop pass rest c1 := by
  induction pre generalizing c with
  | nil => exact ⟨c, Agrees.refl pass c, rfl⟩
  | cons i pre ih =>
    obtain ⟨c1, h1, ha⟩ := isDisposeCall_passedOver pass c i
      (h i (List.mem_cons_self _ _)).1 (h i (List.mem_cons_self _ _)).2
    have hp : passedOver pass c1 pre :=
      (passedOver_agrees ha pre).2 (fun j hj => h j (List.mem_cons_of_mem _ hj))
    obtain ⟨c2, ha2, h2⟩ := ih c1 hp
    exact ⟨c2, ha.trans ha2, by rw [List.cons_append, ccallsLoop_cons_false pass i _ c c1 h1, h2]⟩

theorem ccallsLoop_passedOver (pass : Pass) (l : List Instruction)
    (c : readCloserFuncCollector) (h : passedOver pass c l) :
    ∃ c1, ccallsLoop pass l c = some (false, c1) ∧ Agrees pass c c1 := by
  obtain ⟨c1, ha, h1⟩ := ccallsLoop_prefix pass l [] c h
  rw [List.append_nil] at h1
  exact ⟨c1, by rw [h1, ccallsLoop], ha⟩

theorem ccallsLoop_reachesDisposer (pass : Pass) (l : List Instruction)
    (c : readCloserFuncCollector) (h : reachesDisposer pass c l) :
    ∃ c1, ccallsLoop pass l c = some (true, c1) ∧ Agrees pass c c1 := by
  obtain ⟨pre, post, k, rfl, hp, hk⟩ := h
  obtain ⟨c1, ha, h1⟩ := ccallsLoop_prefix pass pre (k :: post) c hp
  obtain ⟨c2, h2⟩ := (isDisposeCall_true_iff pass c1 k).2
    ((callsRecordedDisposer_agrees ha k).2 hk)
  exact ⟨c2, by rw [h1, ccallsLoop_cons_true pass k post c1 c2 h2],
    ha.trans (isDisposeCall_some_inv pass c1 c2 k true h2).2.1⟩

theorem ccallsLoop_reachesBareCallee (pass : Pass) (l : List Instruction)
    (c : readCloserFuncCollector) (h : reachesBareCallee pass c l) :
    ccallsLoop pass l c = none := by
  obtain ⟨pre, post, k, rfl, hp, hk⟩ := h
  obtain ⟨c1, _, h1⟩ := ccallsLoop_prefix pass pre (k :: post) c hp
  rw [h1, ccallsLoop_cons_none pass k post c1 ((isDisposeCall_none_iff pass c1 k).2 hk)]

/-- The referrers of a loaded body handle reach a call of a recorded disposer,
or reach a call of a function without package, or are all passed over. -/
theorem referrers_cases (pass : Pass) (c : readCloserFuncCollector) (l : List Instruction) :
    reachesDisposer pass c l ∨ reachesBareCallee pass c l ∨ passedOver pass c l := by
  induction l with
  | nil => exact Or.inr (Or.inr (fun i hi => by cases hi))
  | cons i rest ih =>
    by_cases hb : calleeWithoutPackage i = true
    · exact Or.inr (Or.inl ⟨[], rest, i, rfl, fun j hj => (by cases hj), hb⟩)
    · by_cases hd : callsRecordedDisposer pass c i
      · exact Or.inl ⟨[], rest, i, rfl, fun j hj => (by cases hj), hd⟩
      · have hi : passedOver pass c [i] := by
          intro j hj
          simp only [List.mem_singleton] at hj
          subst hj
          exact ⟨by simpa using hb, hd⟩
        have hcons : ∀ pre : List Instruction, passedOver pass c pre →
            passedOver pass c (i :: pre) := by
          intro pre hp j hj
          rcases List.mem_cons.1 hj with rfl | hj
          · exact hi _ (List.mem_singleton.2 rfl)
          · exact hp j hj
        rcases ih with ⟨pre, post, k, hl, hp, hk⟩ | ⟨pre, post, k, hl, hp, hk⟩ | hp
        · exact Or.inl ⟨i :: pre, post, k, by rw [hl]; rfl, hcons pre hp, hk⟩
        · exact Or.inr (Or.inl ⟨i :: pre, post, k, by rw [hl]; rfl, hcons pre hp, hk⟩)
        · exact Or.inr (Or.inr (hcons rest hp))

theorem ccallsLoop_true_inv (pass : Pass) (l : List Instruction)
    (c c1 : readCloserFuncCollector) (h : ccallsLoop pass l c = some (true, c1)) :
    reachesDisposer pass c l ∧ Agrees pass c c1 := by
  rcases referrers_cases pass c l with hd | hb | hp
  · obtain ⟨c2, h2, ha⟩ := ccallsLoop_reachesDisposer pass l c hd
    rw [h2] at h
    simp only [Option.some.injEq, Prod.mk.injEq, true_and] at h
    subst h
    exact ⟨hd, ha⟩
  · rw [ccallsLoop_reachesBareCallee pass l c hb] at h
    cases h
  · obtain ⟨c2, h2, _⟩ := ccallsLoop_passedOver pass l c hp
    rw [h2] at h
    simp at h

theorem ccallsLoop_false_inv (pass : Pass) (l : List Instruction)
    (c c1 : readCloserFuncCollector) (h : ccallsLoop pass l c = some (false, c1)) :
    passedOver pass c l ∧ Agrees pass c c1 := by
  rcases referrers_cases pass c l with hd | hb | hp
  · obtain ⟨c2, h2, _⟩ := ccallsLoop_reachesDisposer pass l c hd
    rw [h2] at h
    simp at h
  · rw [ccallsLoop_reachesBareCallee pass l c hb] at h
    cases h
  · obtain ⟨c2, h2, ha⟩ := ccallsLoop_passedOver pass l c hp
    rw [h2] at h
    simp only [Option.some.injEq, Prod.mk.injEq, true_and] at h
    subst h
    exact ⟨hp, ha⟩

theorem ccallsLoop_none_inv (pass : Pass) (l : List Instruction)
    (c : readCloserFuncCollector) (h : ccallsLoop pass l c = none) :
    reachesBareCallee pass c l := by
  rcases referrers_cases pass c l with hd | hb | hp
  · obtain ⟨c2, h2, _⟩ := ccallsLoop_reachesDisposer pass l c hd
    rw [h2] at h
    cases h
  · exact hb
  · obtain ⟨c2, h2, _⟩ := ccallsLoop_passedOver pass l c hp
    rw [h2] at h
    cases h

/-! ## The loops of `isNotDisposed` -/

theorem isNotDisposed_eq (pass : Pass) (call : Call) (st : State) :
    isNotDisposed pass call st =
      if call.referrers.length == 0 then some (true, st)
      else finish true
        (callReferrersLoop pass call.type
          (fun st1 => responseValCase call.referrers st1
            (responseReferrersLoop pass call.referrers st1))
          call.referrers st) := by
  cases call with
  | mk p cc t refs => rw [isNotDisposed]; rfl

/-- An iteration of the loop over `callReferrers` is the iteration for what
`getResponseVal` returns for the referrer. -/
theorem callReferrersLoop_cons (pass : Pass) (t : GoType) (all : List Instruction)
    (i : Instruction) (rest : List Instruction) (st : State) :
    callReferrersLoop pass t
        (fun st1 => responseValCase all st1 (responseReferrersLoop pass all st1)) (i :: rest) st
      = orContinue (responseValStep pass st (getResponseVal ⟨t, all⟩ i))
          (callReferrersLoop pass t
            (fun st1 => responseValCase all st1 (responseReferrersLoop pass all st1)) rest) := by
  cases i with
  | call c =>
    cases c with
    | mk p cc t2 refs =>
      rw [callReferrersLoop]
      by_cases h : typeString t2 = responseType
      · simp [getResponseVal, Instruction.asValue, Call.toValue, Call.type, Call.referrers,
          responseValStep, h]
      · simp [getResponseVal, Instruction.asValue, Call.toValue, Call.type, Call.referrers,
          responseValStep, h]
  | fieldAddr p t2 refs =>
    rw [callReferrersLoop]
    by_cases h : typeString t = responseType
    · simp [getResponseVal, responseValStep, h]
    · simp [getResponseVal, responseValStep, h]
  | unOp p o t2 refs =>
    rw [callReferrersLoop]
    by_cases h : typeString t2 = responseType
    · simp [getResponseVal, Instruction.asValue, responseValStep, h]
    · simp [getResponseVal, Instruction.asValue, responseValStep, h]
  | changeInterface p t2 m refs =>
    rw [callReferrersLoop]
    by_cases h : typeString t2 = responseType
    · simp [getResponseVal, Instruction.asValue, responseValStep, h]
    · simp [getResponseVal, Instruction.asValue, responseValStep, h]
  | value p t2 refs =>
    rw [callReferrersLoop]
    by_cases h : typeString t2 = responseType
    · simp [getResponseVal, Instruction.asValue, responseValStep, h]
    · simp [getResponseVal, Instruction.asValue, responseValStep, h]
  | makeClosure p f refs =>
    have h : ¬ typeString (GoType.other "func") = responseType := by decide
    simp [callReferrersLoop, getResponseVal, Instruction.asValue, responseValStep, h]
  | defer p cc => simp [callReferrersLoop, getResponseVal, Instruction.asValue, responseValStep]
  | store p a => simp [callReferrersLoop, getResponseVal, Instruction.asValue, responseValStep]
  | ret p rs => simp [callReferrersLoop, getResponseVal, Instruction.asValue, responseValStep]
  | effect p => simp [callReferrersLoop, getResponseVal, Instruction.asValue, responseValStep]

theorem callReferrersLoop_skip (pass : Pass) (t : GoType) (all : List Instruction)
    (pre rest : List Instruction) (st : State)
    (h : ∀ i ∈ pre, getResponseVal ⟨t, all⟩ i = none) :
    callReferrersLoop pass t
        (fun st1 => responseValCase all st1 (responseReferrersLoop pass all st1)) (pre ++ rest) st
      = callReferrersLoop pass t
        (fun st1 => responseValCase all st1 (responseReferrersLoop pass all st1)) rest st := by
  induction pre with
  | nil => rfl
  | cons i pre ih =>
    rw [List.cons_append, callReferrersLoop_cons, h i (List.mem_cons_self _ _)]
    simp only [responseValStep, orContinue]
    exact ih (fun j hj => h j (List.mem_cons_of_mem _ hj))

theorem responseReferrersLoop_skip (pass : Pass) (pre rest : List Instruction) (st : State)
    (h : ∀ i ∈ pre, ignored i = true) :
    responseReferrersLoop pass (pre ++ rest) st = responseReferrersLoop pass rest st := by
  induction pre with
  | nil => rfl
  | cons i pre ih =>
    have hi := h i (List.mem_cons_self _ _)
    have ih' := ih (fun j hj => h j (List.mem_cons_of_mem _ hj))
    rw [List.cons_append]
    cases i with
    | call c => simp [ignored] at hi
    | defer p cc => simp [ignored] at hi
    | store p a => simp [ignored] at hi
    | fieldAddr p t refs => simp [ignored] at hi
    | unOp p o t refs => simpa [responseReferrersLoop] using ih'
    | makeClosure p f refs => simpa [responseReferrersLoop] using ih'
    | changeInterface p t m refs => simpa [responseReferrersLoop] using ih'
    | ret p rs => simpa [responseReferrersLoop] using ih'
    | value p t refs => simpa [responseReferrersLoop] using ih'
    | effect p => simpa [responseReferrersLoop] using ih'

/-- The first response value among the referrers of the call, and the first use
of it that the loop does not pass over, decide `isNotDisposed` when the
iteration for that use returns. -/
theorem isNotDisposed_of_decision (pass : Pass) (call : Call) (st st1 : State) (val : Value)
    (cpre cpost rpre rpost : List Instruction) (v d : Instruction) (b : Bool)
    (hc : call.referrers = cpre ++ v :: cpost)
    (hpre : ∀ i ∈ cpre, getResponseVal call.toValue i = none)
    (hv : getResponseVal call.toValue v = some val)
    (hr : val.referrers = rpre ++ d :: rpost)
    (hig : ∀ i ∈ rpre, ignored i = true)
    (hd : responseReferrersLoop pass (d :: rpost) st = some (some b, st1)) :
    isNotDisposed pass call st = some (b, st1) := by
  rw [isNotDisposed_eq]
  have hlen : (call.referrers.length == 0) = false := by
    rw [hc]
    simp
  rw [hlen]
  simp only [Bool.false_eq_true, if_false]
  have hx : call.toValue = ⟨call.type, call.referrers⟩ := rfl
  rw [hx] at hpre hv
  conv =>
    lhs
    arg 2
    arg 4
    rw [hc]
  rw [callReferrersLoop_skip pass call.type call.referrers cpre (v :: cpost) st hpre,
    callReferrersLoop_cons, hv]
  have hlen2 : (val.referrers.length == 0) = false := by
    rw [hr]
    simp
  simp only [responseValStep, responseValCase, hlen2, Bool.false_eq_true, if_false]
  rw [hr, responseReferrersLoop_skip pass rpre (d :: rpost) st hig, hd]
  rfl

/-- The first response value among the referrers of the call, and the first use
of it that the loop does not pass over: `isNotDisposed` panics when the
iteration for that use does. -/
theorem isNotDisposed_of_panic (pass : Pass) (call : Call) (st : State) (val : Value)
    (cpre cpost rpre rpost : List Instruction) (v d : Instruction)
    (hc : call.referrers = cpre ++ v :: cpost)
    (hpre : ∀ i ∈ cpre, getResponseVal call.toValue i = none)
    (hv : getResponseVal call.toValue v = some val)
    (hr : val.referrers = rpre ++ d :: rpost)
    (hig : ∀ i ∈ rpre, ignored i = true)
    (hd : responseReferrersLoop pass (d :: rpost) st = none) :
    isNotDisposed pass call st = none := by
  rw [isNotDisposed_eq]
  have hlen : (call.referrers.length == 0) = false := by
    rw [hc]
    simp
  rw [hlen]
  simp only [Bool.false_eq_true, if_false]
  have hx : call.toValue = ⟨call.type, call.referrers⟩ := rfl
  rw [hx] at hpre hv
  conv =>
    lhs
    arg 2
    arg 4
    rw [hc]
  rw [callReferrersLoop_skip pass call.type call.referrers cpre (v :: cpost) st hpre,
    callReferrersLoop_cons, hv]
  have hlen2 : (val.referrers.length == 0) = false := by
    rw [hr]
    simp
  simp only [responseValStep, responseValCase, hlen2, Bool.false_eq_true, if_false]
  rw [hr, responseReferrersLoop_skip pass rpre (d :: rpost) st hig, hd]
  rfl

theorem decided_skipFile (r : Option (Bool × readCloserFuncCollector)) (bf : Bool → Bool)
    (st s : State) (o : Option Bool) (h : decided r bf st = some (o, s)) :
    s.skipFile = st.skipFile := by
  cases r with
  | none => simp [decided] at h
  | some y =>
    obtain ⟨x, c⟩ := y
    simp only [decided, Option.some.injEq, Prod.mk.injEq] at h
    rw [← h.2]
    rfl

theorem decided_ne_continue (r : Option (Bool × readCloserFuncCollector)) (bf : Bool → Bool)
    (st st1 : State) : decided r bf st ≠ some (none, st1) := by
  cases r with
  | none => simp [decided]
  | some x => simp [decided]

theorem decided_some_inv (r : Option (Bool × readCloserFuncCollector)) (bf : Bool → Bool)
    (st st1 : State) (b : Bool) (h : decided r bf st = some (some b, st1)) :
    ∃ x c, r = some (x, c) ∧ b = bf x ∧ st1 = st.withCollector c := by
  cases r with
  | none => simp [decided] at h
  | some y =>
    obtain ⟨x, c⟩ := y
    simp only [decided, Option.some.injEq, Prod.mk.injEq] at h
    exact ⟨x, c, rfl, h.1.symm, h.2.symm⟩

theorem checkInstrs_mem (pass : Pass) (instrs : List Instruction) (st st1 : State)
    (ds : List Diagnostic) (instr : Instruction) (d : Diagnostic)
    (h : checkInstrs pass instrs st = some (ds, st1)) (hi : instr ∈ instrs)
    (hrep : ∀ s : State, ∃ s1, checkInstr pass instr s = some ([d], s1)) : d ∈ ds := by
  induction instrs generalizing st st1 ds with
  | nil => cases hi
  | cons i rest ih =>
    rw [checkInstrs_cons] at h
    obtain ⟨ds1, s1, ds2, h1, h2, rfl⟩ := andThen_some _ _ ds st1 h
    rcases List.mem_cons.1 hi with rfl | hi
    · obtain ⟨s2, hs⟩ := hrep st
      rw [hs] at h1
      simp only [Option.some.injEq, Prod.mk.injEq] at h1
      obtain ⟨rfl, _⟩ := h1
      simp
    · exact List.mem_append_right _ (ih s1 st1 ds2 h2 hi)

theorem checkBlocks_mem (pass : Pass) (blocks : List (List Instruction)) (st st1 : State)
    (ds : List Diagnostic) (block : List Instruction) (instr : Instruction) (d : Diagnostic)
    (h : checkBlocks pass blocks st = some (ds, st1)) (hb : block ∈ blocks) (hi : instr ∈ block)
    (hrep : ∀ s : State, ∃ s1, checkInstr pass instr s = some ([d], s1)) : d ∈ ds := by
  induction blocks generalizing st st1 ds with
  | nil => cases hb
  | cons b rest ih =>
    rw [checkBlocks_cons] at h
    obtain ⟨ds1, s1, ds2, h1, h2, rfl⟩ := andThen_some _ _ ds st1 h
    rcases List.mem_cons.1 hb with rfl | hb
    · exact List.mem_append_left _ (checkInstrs_mem pass block st s1 ds1 instr d h1 hi hrep)
    · exact List.mem_append_right _ (ih s1 st1 ds2 h2 hb)

theorem checkFuncs_mem (pass : Pass) (funcs : List Function) (st st1 : State)
    (ds : List Diagnostic) (fu : Function) (block : List Instruction) (instr : Instruction)
    (d : Diagnostic)
    (h : checkFuncs pass funcs st = some (ds, st1)) (hf : fu ∈ funcs)
    (hret : returnsResponse fu = false) (hb : block ∈ fu.blocks) (hi : instr ∈ block)
    (hrep : ∀ s : State, ∃ s1, checkInstr pass instr s = some ([d], s1)) : d ∈ ds := by
  induction funcs generalizing st st1 ds with
  | nil => cases hf
  | cons g rest ih =>
    rw [checkFuncs_cons] at h
    obtain ⟨ds1, s1, ds2, h1, h2, rfl⟩ := andThen_some _ _ ds st1 h
    rcases List.mem_cons.1 hf with rfl | hf
    · unfold checkFunc at h1
      rw [hret] at h1
      simp only [Bool.false_eq_true, if_false] at h1
      exact List.mem_append_left _
        (checkBlocks_mem pass fu.blocks st s1 ds1 block instr d h1 hb hi hrep)
    · exact List.mem_append_right _ (ih s1 st1 ds2 h2 hf)

theorem run_mem (pass : Pass) (c : readCloserFuncCollector) (r : RunResult) (fu : Function)
    (block : List Instruction) (instr : Instruction) (d : Diagnostic)
    (h : run pass c = some r) (hobj : pass.responseObj = true) (hf : fu ∈ pass.srcFuncs)
    (hret : returnsResponse fu = false) (hb : block ∈ fu.blocks) (hi : instr ∈ block)
    (hrep : ∀ (p : Pass) (s : State), ∃ s1, checkInstr p instr s = some ([d], s1)) :
    d ∈ r.diagnostics := by
  unfold run at h
  simp only [hobj, Bool.not_true, Bool.false_eq_true, if_false] at h
  split at h
  · cases h
  · rename_i ds st hcf
    simp only [Option.some.injEq] at h
    subst h
    exact checkFuncs_mem _ _ _ _ _ fu block instr d hcf hf hret hb hi (hrep _)

theorem returnsResponse_false_iff (fu : Function) :
    returnsResponse fu = false ↔ ∀ t ∈ fu.results, typeString t ≠ responseType := by
  simp [returnsResponse]

/-- C2 (amended): for a call instruction that `getReqCall` accepts and that has
no referrers, `isNotDisposed` returns true, in every pass and state, and the
body of the loop of `run` reports the diagnostic at it.  A `run` that completes
has that diagnostic when it checks the call: net/http.Response resolves in the
unit, and the call is in a function of the unit no result of which has the
container type. -/
theorem C2_unused_acquisition (instr : Instruction) (call : Call)
    (hreq : getReqCall instr = some call) (href : call.referrers = []) :
    (∀ (p : Pass) (st : State), isNotDisposed p call st = some (true, st))
    ∧ (∀ (p : Pass) (st : State),
        checkInstr p instr st = some ([⟨instr.pos, diagnosticMessage⟩], st))
    ∧ (∀ (pass : Pass) (c : readCloserFuncCollector) (fu : Function)
        (block : List Instruction) (r : RunResult),
        pass.responseObj = true → fu ∈ pass.srcFuncs →
        (∀ t ∈ fu.results, typeString t ≠ responseType) →
        block ∈ fu.blocks → instr ∈ block → run pass c = some r →
        ⟨instr.pos, diagnosticMessage⟩ ∈ r.diagnostics) := by
  have h1 : ∀ (p : Pass) (st : State), isNotDisposed p call st = some (true, st) := by
    intro p st
    rw [isNotDisposed_eq, href]
    rfl
  have h2 : ∀ (p : Pass) (st : State),
      checkInstr p instr st = some ([⟨instr.pos, diagnosticMessage⟩], st) := by
    intro p st
    simp [checkInstr, hreq, h1]
  refine ⟨h1, h2, ?_⟩
  intro pass c fu block r hobj hf hres hb hi hrun
  exact run_mem pass c r fu block instr _ hrun hobj hf
    ((returnsResponse_false_iff fu).2 hres) hb hi (fun p s => ⟨s, h2 p s⟩)

/-- C2, an instance: the statement `http.Get(url)` of the function `warmup`, a
call without referrers, is reported by the run over its unit. -/
theorem C2_unused_acquisition_witness :
    run (Fixture.passOf "c" [Fixture.warmupOnly] Fixture.utilFacts) ⟨none⟩
      = some ⟨none, [⟨3, diagnosticMessage⟩], ⟨none⟩⟩
    ∧ (⟨3, diagnosticMessage⟩ : Diagnostic)
        ∈ (RunResult.mk none [⟨3, diagnosticMessage⟩] ⟨none⟩).diagnostics :=
  have hrun : run (Fixture.passOf "c" [Fixture.warmupOnly] Fixture.utilFacts) ⟨none⟩
      = some ⟨none, [⟨3, diagnosticMessage⟩], ⟨none⟩⟩ := by decide
  ⟨hrun,
    (C2_unused_acquisition (.call Fixture.warmupCall) Fixture.warmupCall rfl rfl).2.2
      (Fixture.passOf "c" [Fixture.warmupOnly] Fixture.utilFacts) ⟨none⟩ Fixture.warmupOnly
      [.call Fixture.warmupCall, .ret 4 []] _ rfl
      (by simp [Fixture.passOf])
      (by intro t ht; cases ht)
      (by simp [Fixture.warmupOnly, Fixture.funcOf, Function.blocks])
      (by simp) hrun⟩

/-- C2 as stated fails: the first request of `fetch` is accepted by `getReqCall`
and has no referrers, and the run over its unit reports nothing, because
`fetch` returns a response. -/
theorem C2_counterexample :
    (getReqCall (.call Fixture.warmupCall)).isSome = true
    ∧ Fixture.warmupCall.referrers.length = 0
    ∧ (Fixture.fetchWithWarmup.blocks.map
        (fun b => b.map (fun i => (getReqCall i).map (fun c => c.referrers.length))))
        = [[some 0, some 2, none]]
    ∧ run (Fixture.passOf "c" [Fixture.fetchWithWarmup] (fun _ => none)) ⟨none⟩
        = some ⟨none, [], ⟨none⟩⟩ := by
  decide

/-- The run over the unit `a` of the test data, from an empty collector: the
requests of lines 27, 35 and 44 are reported, as the test data expects.  At
line 44, `_, _ = doRequestWithoutClose()`, both results are extracted and the
extracted response has no referrers. -/
theorem run_testdata_a :
    run Fixture.aPass ⟨none⟩ = some Fixture.aRunResult
    ∧ Fixture.droppedCall.referrers.map
        (fun i => (getResponseVal Fixture.droppedCall.toValue i).map
          (fun v => v.referrers.length)) = [some 0, none]
    ∧ (isNotDisposed Fixture.aPass Fixture.droppedCall Fixture.st0).map Prod.fst
        = some true := by
  decide

/-! ## The cases of the loop over the referrers of the response -/

theorem fieldAddrCase_cons_skip (pass : Pass) (i : Instruction) (rest : List Instruction)
    (c : readCloserFuncCollector) (h : getBodyOp i = none) :
    fieldAddrCase pass (i :: rest) c = fieldAddrCase pass rest c := by
  rw [fieldAddrCase, h]

theorem fieldAddrCase_cons_unused (pass : Pass) (i : Instruction) (rest : List Instruction)
    (c : readCloserFuncCollector) (b : Value) (h : getBodyOp i = some b)
    (he : b.referrers = []) : fieldAddrCase pass (i :: rest) c = some (true, c) := by
  rw [fieldAddrCase, h]
  simp [he]

theorem fieldAddrCase_cons_load (pass : Pass) (i : Instruction) (rest : List Instruction)
    (c : readCloserFuncCollector) (b : Value) (h : getBodyOp i = some b)
    (hne : b.referrers ≠ []) :
    fieldAddrCase pass (i :: rest) c
      = match ccallsLoop pass b.referrers c with
        | none => none
        | some r => if r.1 then some (false, r.2) else fieldAddrCase pass rest r.2 := by
  rw [fieldAddrCase, h]
  have hl : (b.referrers.length == 0) = false := by
    cases hr : b.referrers with
    | nil => exact absurd hr hne
    | cons x xs => rfl
  simp only [hl, Bool.false_eq_true, if_false]

theorem fieldAddrCase_prefix (pass : Pass) (pre rest : List Instruction)
    (c : readCloserFuncCollector) (h : loadsPassedOver pass c pre) :
    ∃ c1, Agrees pass c c1 ∧ fieldAddrCase pass (pre ++ rest) c = fieldAddrCase pass rest c1 := by
  induction pre generalizing c with
  | nil => exact ⟨c, Agrees.refl pass c, rfl⟩
  | cons i pre ih =>
    have htail : loadsPassedOver pass c pre := fun j hj => h j (List.mem_cons_of_mem _ hj)
    cases hb : getBodyOp i with
    | none =>
      obtain ⟨c2, ha2, h2⟩ := ih c htail
      exact ⟨c2, ha2, by rw [List.cons_append, fieldAddrCase_cons_skip pass i _ c hb, h2]⟩
    | some b =>
      obtain ⟨hne, hp⟩ := h i (List.mem_cons_self _ _) b hb
      obtain ⟨c1, h1, ha⟩ := ccallsLoop_passedOver pass b.referrers c hp
      obtain ⟨c2, ha2, h2⟩ := ih c1 ((loadsPassedOver_agrees ha pre).2 htail)
      refine ⟨c2, ha.trans ha2, ?_⟩
      rw [List.cons_append, fieldAddrCase_cons_load pass i _ c b hb hne, h1]
      exact h2

/-- The `FieldAddr` case returns true when every load of a body handle has
referrers that are all passed over. -/
theorem fieldAddrCase_passedOver (pass : Pass) (l : List Instruction)
    (c : readCloserFuncCollector) (h : loadsPassedOver pass c l) :
    ∃ c1, fieldAddrCase pass l c = some (true, c1) ∧ Agrees pass c c1 := by
  obtain ⟨c1, ha, h1⟩ := fieldAddrCase_prefix pass l [] c h
  rw [List.append_nil] at h1
  exact ⟨c1, by rw [h1, fieldAddrCase], ha⟩

/-- The `FieldAddr` case returns true when the loads decide nothing or the first
that decides is without referrers. -/
theorem fieldAddrCase_undisposed (pass : Pass) (l : List Instruction)
    (c : readCloserFuncCollector) (h : loadsLeaveUndisposed pass c l) :
    ∃ c1, fieldAddrCase pass l c = some (true, c1) ∧ Agrees pass c c1 := by
  rcases h with h | ⟨bpre, bpost, bop, b, rfl, hpre, hb, he⟩
  · exact fieldAddrCase_passedOver pass l c h
  · obtain ⟨c1, ha, h1⟩ := fieldAddrCase_prefix pass bpre (bop :: bpost) c hpre
    exact ⟨c1, by rw [h1, fieldAddrCase_cons_unused pass bop bpost c1 b hb he], ha⟩

/-- The `FieldAddr` case panics when a load of a body handle reaches a call of a
function without package, the earlier loads being passed over. -/
theorem fieldAddrCase_bare (pass : Pass) (l : List Instruction)
    (c : readCloserFuncCollector) (h : loadReachesBareCallee pass c l) :
    fieldAddrCase pass l c = none := by
  obtain ⟨bpre, bpost, bop, b, rfl, hpre, hb, hk⟩ := h
  obtain ⟨c1, ha, h1⟩ := fieldAddrCase_prefix pass bpre (bop :: bpost) c hpre
  have h2 := ccallsLoop_reachesBareCallee pass b.referrers c1
    ((reachesBareCallee_agrees ha _).2 hk)
  have hne : b.referrers ≠ [] := by
    obtain ⟨pre, post, k, hl, _⟩ := hk
    rw [hl]
    simp
  rw [h1, fieldAddrCase_cons_load pass bop bpost c1 b hb hne, h2]

/-- The loads of a body handle from a field address: one reaches a call of a
recorded disposer, or one reaches a call of a function without package, or
they leave the response undisposed. -/
theorem loads_cases (pass : Pass) (c : readCloserFuncCollector) (l : List Instruction) :
    loadReachesDisposer pass c l ∨ loadReachesBareCallee pass c l
      ∨ loadsLeaveUndisposed pass c l := by
  induction l with
  | nil => exact Or.inr (Or.inr (Or.inl (fun i hi => by cases hi)))
  | cons i rest ih =>
    have hnil : loadsPassedOver pass c [] := fun j hj => by cases hj
    cases hb : getBodyOp i with
    | none =>
      have hcons : ∀ pre : List Instruction, loadsPassedOver pass c pre →
          loadsPassedOver pass c (i :: pre) := by
        intro pre hp j hj v hv
        rcases List.mem_cons.1 hj with rfl | hj
        · rw [hb] at hv
          cases hv
        · exact hp j hj v hv
      rcases ih with ⟨bpre, bpost, bop, b, hl, hp, hbo, hk⟩
        | ⟨bpre, bpost, bop, b, hl, hp, hbo, hk⟩
        | hp | ⟨bpre, bpost, bop, b, hl, hp, hbo, hk⟩
      · exact Or.inl ⟨i :: bpre, bpost, bop, b, by rw [hl]; rfl, hcons bpre hp, hbo, hk⟩
      · exact Or.inr (Or.inl
          ⟨i :: bpre, bpost, bop, b, by rw [hl]; rfl, hcons bpre hp, hbo, hk⟩)
      · exact Or.inr (Or.inr (Or.inl (hcons rest hp)))
      · exact Or.inr (Or.inr (Or.inr
          ⟨i :: bpre, bpost, bop, b, by rw [hl]; rfl, hcons bpre hp, hbo, hk⟩))
    | some v =>
      by_cases he : v.referrers = []
      · exact Or.inr (Or.inr (Or.inr ⟨[], rest, i, v, rfl, hnil, hb, he⟩))
      · rcases referrers_cases pass c v.referrers with hd | hbare | hover
        · exact Or.inl ⟨[], rest, i, v, rfl, hnil, hb, hd⟩
        · exact Or.inr (Or.inl ⟨[], rest, i, v, rfl, hnil, hb, hbare⟩)
        · have hcons : ∀ pre : List Instruction, loadsPassedOver pass c pre →
              loadsPassedOver pass c (i :: pre) := by
            intro pre hp j hj w hw
            rcases List.mem_cons.1 hj with rfl | hj
            · rw [hb] at hw
              cases hw
              exact ⟨he, hover⟩
            · exact hp j hj w hw
          rcases ih with ⟨bpre, bpost, bop, b, hl, hp, hbo, hk⟩
            | ⟨bpre, bpost, bop, b, hl, hp, hbo, hk⟩
            | hp | ⟨bpre, bpost, bop, b, hl, hp, hbo, hk⟩
          · exact Or.inl ⟨i :: bpre, bpost, bop, b, by rw [hl]; rfl, hcons bpre hp, hbo, hk⟩
          · exact Or.inr (Or.inl
              ⟨i :: bpre, bpost, bop, b, by rw [hl]; rfl, hcons bpre hp, hbo, hk⟩)
          · exact Or.inr (Or.inr (Or.inl (hcons rest hp)))
          · exact Or.inr (Or.inr (Or.inr
              ⟨i :: bpre, bpost, bop, b, by rw [hl]; rfl, hcons bpre hp, hbo, hk⟩))

theorem fieldAddrCase_false_inv (pass : Pass) (l : List Instruction)
    (c c1 : readCloserFuncCollector) (h : fieldAddrCase pass l c = some (false, c1)) :
    loadReachesDisposer pass c l := by
  rcases loads_cases pass c l with hd | hb | hu
  · exact hd
  · rw [fieldAddrCase_bare pass l c hb] at h
    cases h
  · obtain ⟨c2, h2, _⟩ := fieldAddrCase_undisposed pass l c hu
    rw [h2] at h
    simp at h

theorem responseReferrersLoop_call (pass : Pass) (c : Call) (rest : List Instruction)
    (st : State) :
    responseReferrersLoop pass (.call c :: rest) st
      = decided (isDisposeCall st.funcCollector pass (.call c)) (fun x => !x) st := by
  rw [responseReferrersLoop]

theorem responseReferrersLoop_defer (pass : Pass) (p : Nat) (cc : CallCommon)
    (rest : List Instruction) (st : State) :
    responseReferrersLoop pass (.defer p cc :: rest) st
      = decided (isDisposeCall st.funcCollector pass (.defer p cc)) (fun x => !x) st := by
  rw [responseReferrersLoop]

theorem responseReferrersLoop_fieldAddr (pass : Pass) (p : Nat) (t : GoType)
    (bRefs rest : List Instruction) (st : State) :
    responseReferrersLoop pass (.fieldAddr p t bRefs :: rest) st
      = decided (fieldAddrCase pass bRefs st.funcCollector) (fun x => x) st := by
  rw [responseReferrersLoop]

theorem calledInFunc_eq (pass : Pass) (f : Function) (called : Bool) (st : State) :
    calledInFunc pass f called st = finish false (blocksLoop pass called f.blocks st) := by
  cases f with
  | mk n p o r ps rs bs => rw [calledInFunc]; rfl

theorem addrReferrersLoop_skip (pass : Pass) (pre rest : List Instruction) (st : State)
    (h : ∀ i ∈ pre, isMakeClosure i = false) :
    addrReferrersLoop pass (pre ++ rest) st = addrReferrersLoop pass rest st := by
  induction pre with
  | nil => rfl
  | cons i pre ih =>
    have hi := h i (List.mem_cons_self _ _)
    have ih' := ih (fun j hj => h j (List.mem_cons_of_mem _ hj))
    rw [List.cons_append]
    cases i with
    | makeClosure p f refs => simp [isMakeClosure] at hi
    | call c => simpa [addrReferrersLoop] using ih'
    | defer p cc => simpa [addrReferrersLoop] using ih'
    | store p a => simpa [addrReferrersLoop] using ih'
    | fieldAddr p t refs => simpa [addrReferrersLoop] using ih'
    | unOp p o t refs => simpa [addrReferrersLoop] using ih'
    | changeInterface p t m refs => simpa [addrReferrersLoop] using ih'
    | ret p rs => simpa [addrReferrersLoop] using ih'
    | value p t refs => simpa [addrReferrersLoop] using ih'
    | effect p => simpa [addrReferrersLoop] using ih'

/-- The closure `func() { util.DisposeResponse(r) }` of the test data and the
closure `func() { defer r.Body.Close(); _, _ = io.Copy(io.Discard, r.Body) }`,
made over the response and neither called nor deferred: the scan of
`calledInFunc` reaches its end, `isNotDisposed` returns false and the run
reports nothing. -/
theorem createdClosure_scan_end :
    isClosureCalled [] = false
    ∧ (isNotDisposed Fixture.bPass (Fixture.acquireCaptured Fixture.anonDispose [])
        Fixture.st0).map Prod.fst = some false
    ∧ (run (Fixture.passOf "c" [Fixture.capturingFunc Fixture.anonDispose [],
        Fixture.anonDispose] Fixture.utilFacts) ⟨none⟩).map RunResult.diagnostics = some []
    ∧ (isNotDisposed Fixture.bPass (Fixture.acquireCaptured Fixture.anonDeferClose [])
        Fixture.st0).map Prod.fst = some false
    ∧ (run (Fixture.passOf "c" [Fixture.capturingFunc Fixture.anonDeferClose [],
        Fixture.anonDeferClose] Fixture.utilFacts) ⟨none⟩).map RunResult.diagnostics
        = some [] := by
  decide

/-! ## C11: a fact that cannot be imported -/

/-- C12: one `analyze` exports one fact, with a non-empty list, when some
function of the unit is classified as a disposer, and no fact when none is; a
fact it exports never has an empty list. -/
theorem C12_export_iff_nonempty (pass : Pass) :
    ((∃ f ∈ pass.srcFuncs, isDisposerFunc f = true) →
        (analyze pass).toList.length = 1 ∧ ∃ fact, analyze pass = some fact ∧ fact.Fns ≠ [])
    ∧ ((∀ f ∈ pass.srcFuncs, isDisposerFunc f = false) → (analyze pass).toList.length = 0)
    ∧ (∀ fact, analyze pass = some fact → fact.Fns ≠ []) := by
  have hsome : ∀ fact, analyze pass = some fact → fact.Fns ≠ [] := by
    intro fact h
    rw [analyze_eq] at h
    split at h
    · rename_i hlen
      simp only [Option.some.injEq] at h
      subst h
      intro hnil
      simp only [List.map_eq_nil_iff] at hnil
      rw [hnil] at hlen
      simp at hlen
    · cases h
  refine ⟨?_, ?_, hsome⟩
  · rintro ⟨f, hf, hd⟩
    have hmem : f ∈ pass.srcFuncs.filter isDisposerFunc := List.mem_filter.2 ⟨hf, hd⟩
    have hlen : (pass.srcFuncs.filter isDisposerFunc).length > 0 :=
      List.length_pos_of_mem hmem
    have ha : analyze pass
        = some ⟨(pass.srcFuncs.filter isDisposerFunc).map (fun f => Fn.mk f.pkg f.name)⟩ := by
      rw [analyze_eq, if_pos hlen]
    refine ⟨by rw [ha]; rfl, _, ha, hsome _ ha⟩
  · intro h
    have hnil : pass.srcFuncs.filter isDisposerFunc = [] := by
      rw [List.filter_eq_nil_iff]
      intro f hf
      rw [h f hf]
      simp
    rw [analyze_eq, hnil]
    rfl

/-- C12, an instance: the unit `util` has disposers and exports its fact, the
unit `b` has none and exports nothing. -/
theorem C12_export_iff_nonempty_witness :
    ((analyze Fixture.utilPass).toList.length = 1
      ∧ ∃ fact, analyze Fixture.utilPass = some fact ∧ fact.Fns ≠ [])
    ∧ (analyze Fixture.bPass).toList.length = 0 :=
  ⟨(C12_export_iff_nonempty Fixture.utilPass).1
      ⟨Fixture.DisposeBody, by simp [Fixture.utilPass, Fixture.passOf], by decide⟩,
    (C12_export_iff_nonempty Fixture.bPass).2.1 (by decide)⟩

/-! ## C13: a unit in which net/http.Response does not resolve -/

/-- C13: when net/http.Response does not resolve from the imports of the unit,
`run` returns without a panic and without a diagnostic, whatever the functions
of the unit contain; the fact of `analyze` is exported all the same and the
collector is left as it was. -/
theorem C13_configuration_absence (pass : Pass) (c : readCloserFuncCollector)
    (h : pass.responseObj = false) :
    run pass c = some ⟨analyze pass, [], c⟩ := by
  simp [run, h]

/-- C13, an instance: the functions of the unit `a`, three requests of which are
reported when net/http.Response resolves, in a unit where it does not. -/
theorem C13_configuration_absence_witness :
    run Fixture.aPassUnresolved ⟨none⟩
      = some ⟨some ⟨[⟨"a", "disposeBody"⟩]⟩, [], ⟨none⟩⟩ :=
  (C13_configuration_absence Fixture.aPassUnresolved ⟨none⟩ rfl).trans (by decide)

/-! ## C16: the acquisition matcher -/

theorem startsWith_iff (s p : List Char) :
    startsWith s p = true ↔ ∃ post, s = p ++ post := by
  induction s generalizing p with
  | nil =>
    cases p with
    | nil => simp [startsWith]
    | cons d ds => simp [startsWith]
  | cons c cs ih =>
    cases p with
    | nil => simp [startsWith]
    | cons d ds =>
      simp only [startsWith, Bool.and_eq_true, beq_iff_eq, ih, List.cons_append, List.cons.injEq]
      constructor
      · rintro ⟨h, post, hp⟩
        exact ⟨post, h, hp⟩
      · rintro ⟨post, h, hp⟩
        exact ⟨h, post, hp⟩

theorem containsChars_iff (s sub : List Char) :
    containsChars s sub = true ↔ ∃ pre post, s = pre ++ sub ++ post := by
  induction s with
  | nil =>
    simp only [containsChars, startsWith_iff]
    constructor
    · rintro ⟨post, h⟩
      exact ⟨[], post, by simpa using h⟩
    · rintro ⟨pre, post, h⟩
      have h1 : pre ++ sub ++ post = [] := h.symm
      simp only [List.append_eq_nil] at h1
      exact ⟨[], by simp [h1.1.2]⟩
  | cons c cs ih =>
    simp only [containsChars, Bool.or_eq_true, startsWith_iff, ih]
    constructor
    · rintro (⟨post, h⟩ | ⟨pre, post, h⟩)
      · exact ⟨[], post, by simpa using h⟩
      · exact ⟨c :: pre, post, by simp [h]⟩
    · rintro ⟨pre, post, h⟩
      cases pre with
      | nil => exact Or.inl ⟨post, by simpa using h⟩
      | cons d pre1 =>
        simp only [List.cons_append, List.cons.injEq] at h
        exact Or.inr ⟨pre1, post, h.2⟩

theorem stringsContains_iff (s sub : String) :
    stringsContains s sub = true ↔ ∃ pre post : List Char, s.data = pre ++ sub.data ++ post :=
  containsChars_iff s.data sub.data

/-- C16, as amended: `getReqCall` returns a call exactly when the instruction is
that call and the text of its static result type has the text
`*net/http.Response` somewhere in it; so it accepts the type
`*net/http.Response`, and every tuple with a component written so, and it
returns nothing for an instruction that is no call, a deferred call included. -/
theorem C16_acquisition_matcher :
    (∀ (instr : Instruction) (call : Call), getReqCall instr = some call ↔
        (instr = .call call
          ∧ ∃ pre post : List Char,
              (typeString call.type).data = pre ++ responseType.data ++ post))
    ∧ (∀ (p : Nat) (cc : CallCommon) (refs : List Instruction),
        getReqCall (.call (.mk p cc (.pointer (.named (some nethttpPath) "Response")) refs))
          = some (.mk p cc (.pointer (.named (some nethttpPath) "Response")) refs))
    ∧ (∀ (p : Nat) (cc : CallCommon) (refs : List Instruction) (before after : String),
        getReqCall (.call (.mk p cc (.other (before ++ responseType ++ after)) refs))
          = some (.mk p cc (.other (before ++ responseType ++ after)) refs))
    ∧ (∀ instr : Instruction, (∀ c, instr ≠ .call c) → getReqCall instr = none) := by
  have key : ∀ (instr : Instruction) (call : Call), getReqCall instr = some call ↔
        (instr = .call call
          ∧ ∃ pre post : List Char,
              (typeString call.type).data = pre ++ responseType.data ++ post) := by
    intro instr call
    rw [← stringsContains_iff]
    cases instr with
    | call c =>
      simp only [getReqCall, Instruction.call.injEq]
      constructor
      · intro h
        split at h
        · rename_i hc
          simp only [Option.some.injEq] at h
          subst h
          exact ⟨rfl, hc⟩
        · cases h
      · rintro ⟨h1, h2⟩
        subst h1
        rw [if_pos h2]
    | _ => simp [getReqCall]
  refine ⟨key, ?_, ?_, ?_⟩
  · intro p cc refs
    exact (key _ _).2 ⟨rfl, [], [], rfl⟩
  · intro p cc refs before after
    exact (key _ _).2 ⟨rfl, before.data, after.data, by simp [typeString, Call.type]⟩
  · intro instr h
    cases instr with
    | call c => exact absurd rfl (h c)
    | _ => simp [getReqCall]

/-- C16, as amended, on instances: the request of `closeFunctionCall` is an
acquisition, the same request deferred is none. -/
theorem C16_acquisition_matcher_witness :
    getReqCall (.call (Fixture.acquire 27 [])) = some (Fixture.acquire 27 [])
    ∧ getReqCall Fixture.deferredGet = none :=
  ⟨(C16_acquisition_matcher.1 _ (Fixture.acquire 27 [])).2
      ⟨rfl, "(resp ".data, ", err error)".data, rfl⟩,
    C16_acquisition_matcher.2.2.2 Fixture.deferredGet (by intro c h; cases h)⟩

/-- C16 as stated fails: a call whose result type is
`*net/http.ResponseController`, a type that is neither `*net/http.Response` nor
a tuple, and whose name starts with the name of the container type, is taken for
an acquisition, and is reported when its result is not disposed of. -/
theorem C16_counterexample :
    getReqCall (.call Fixture.newControllerCall) = some Fixture.newControllerCall
    ∧ Fixture.newControllerCall.type
        = .pointer (.named (some "net/http") "ResponseController")
    ∧ typeString Fixture.newControllerCall.type ≠ responseType
    ∧ (isNotDisposed Fixture.aPass Fixture.newControllerCall Fixture.st0).map Prod.fst
        = some true :=
  ⟨rfl, rfl, by decide, by decide⟩

/-! ## C19: the read and close matchers on calls -/

theorem invokes_iff (cc : CallCommon) (methodName : String) :
    invokes cc methodName = true ↔ ∃ m, cc.method = some m ∧ m.name = methodName := by
  unfold invokes
  cases cc.method with
  | none => simp
  | some m => simp

/-- C19, as amended: on a call and on a deferred call, `isReadCall` holds exactly
when a method named Read is invoked and `isCloseCall` exactly when a method
named Close is invoked, whatever the static type of the receiver and whatever
the other fields of the call; the two are `isMethodCall` at (Read, io.Reader)
and at (Close, io.Closer), and no call and no deferred call satisfies both. -/
theorem C19_call_matchers :
    (∀ (p : Nat) (v : Option Function) (m : Option Method) (a : List GoType) (recvType : GoType)
        (hp : Bool) (t : GoType) (refs : List Instruction),
        (isReadCall (.call (.mk p (.mk v m a recvType hp) t refs)) = true
            ↔ ∃ mm, m = some mm ∧ mm.name = "Read")
        ∧ (isCloseCall (.call (.mk p (.mk v m a recvType hp) t refs)) = true
            ↔ ∃ mm, m = some mm ∧ mm.name = "Close")
        ∧ ¬ (isReadCall (.call (.mk p (.mk v m a recvType hp) t refs)) = true
              ∧ isCloseCall (.call (.mk p (.mk v m a recvType hp) t refs)) = true))
    ∧ (∀ (p : Nat) (v : Option Function) (m : Option Method) (a : List GoType)
        (recvType : GoType) (hp : Bool),
        (isReadCall (.defer p (.mk v m a recvType hp)) = true
            ↔ ∃ mm, m = some mm ∧ mm.name = "Read")
        ∧ (isCloseCall (.defer p (.mk v m a recvType hp)) = true
            ↔ ∃ mm, m = some mm ∧ mm.name = "Close")
        ∧ ¬ (isReadCall (.defer p (.mk v m a recvType hp)) = true
              ∧ isCloseCall (.defer p (.mk v m a recvType hp)) = true))
    ∧ (∀ i, isReadCall i = isMethodCall i readMethod "io.Reader")
    ∧ (∀ i, isCloseCall i = isMethodCall i closeMethod "io.Closer") := by
  have hne : ∀ (m : Option Method),
      ¬ ((∃ mm, m = some mm ∧ mm.name = "Read") ∧ (∃ mm, m = some mm ∧ mm.name = "Close")) := by
    rintro m ⟨⟨m1, h1, hr⟩, ⟨m2, h2, hc⟩⟩
    rw [h1] at h2
    cases h2
    rw [hr] at hc
    exact absurd hc (by decide)
  have hr : ∀ cc : CallCommon, invokes cc readMethod = true
      ↔ ∃ mm, cc.method = some mm ∧ mm.name = "Read" := fun cc => invokes_iff cc readMethod
  have hc : ∀ cc : CallCommon, invokes cc closeMethod = true
      ↔ ∃ mm, cc.method = some mm ∧ mm.name = "Close" := fun cc => invokes_iff cc closeMethod
  refine ⟨?_, ?_, fun _ => rfl, fun _ => rfl⟩
  · intro p v m a recvType hp t refs
    have e1 : isReadCall (.call (.mk p (.mk v m a recvType hp) t refs))
        = invokes (.mk v m a recvType hp) readMethod := by
      simp [isReadCall, isMethodCall, Call.common]
    have e2 : isCloseCall (.call (.mk p (.mk v m a recvType hp) t refs))
        = invokes (.mk v m a recvType hp) closeMethod := by
      simp [isCloseCall, isMethodCall, Call.common]
    rw [e1, e2, hr, hc]
    exact ⟨Iff.rfl, Iff.rfl, hne m⟩
  · intro p v m a recvType hp
    have e1 : isReadCall (.defer p (.mk v m a recvType hp))
        = invokes (.mk v m a recvType hp) readMethod := by
      simp [isReadCall, isMethodCall]
    have e2 : isCloseCall (.defer p (.mk v m a recvType hp))
        = invokes (.mk v m a recvType hp) closeMethod := by
      simp [isCloseCall, isMethodCall]
    rw [e1, e2, hr, hc]
    exact ⟨Iff.rfl, Iff.rfl, hne m⟩

/-- C19 as stated fails: a call of the method Read and a deferred call of the
method Close of the interface `c.Store`, whose receiver has not the type of the
handle, satisfy `isReadCall` and `isCloseCall`. -/
theorem C19_counterexample :
    isReadCall Fixture.storeRead = true
    ∧ ¬ invokesOnHandle (.mk none (some ⟨7, "Read"⟩) [.other "string"] Fixture.tStore true) "Read"
    ∧ isCloseCall Fixture.storeClose = true
    ∧ ¬ invokesOnHandle (.mk none (some ⟨8, "Close"⟩) [.other "string"] Fixture.tStore true)
        "Close" := by
  refine ⟨by decide, ?_, by decide, ?_⟩
  · rintro ⟨_, h⟩
    exact absurd h (by decide)
  · rintro ⟨_, h⟩
    exact absurd h (by decide)

/-! ## C20: a function that returns the handle -/

/-- A plain function (no receiver) with exactly one parameter, of the type of
the handle, one referrer of which is a return instruction with a result of the
type `io.ReadCloser`, is in the fact `analyze` exports. -/
theorem analyze_includes_returning_function (pass : Pass) (f : Function) (p : Parameter)
    (hf : f ∈ pass.srcFuncs) (hrecv : f.recv = none) (hp : f.params = [p])
    (ht : typeString p.type = readCloserType)
    (hret : ∃ pos results, .ret pos results ∈ p.referrers
      ∧ ∃ t ∈ results, typeString t = readCloserType) :
    ∃ fact, analyze pass = some fact ∧ Fn.mk f.pkg f.name ∈ fact.Fns := by
  obtain ⟨pos, results, hmem, t, htm, htt⟩ := hret
  have hrefs : p.referrers.isEmpty = false := by
    cases hr : p.referrers with
    | nil => rw [hr] at hmem; cases hmem
    | cons a b => rfl
  have hboth : ∀ name iface, isMethodCall (.ret pos results) name iface = true := by
    intro name iface
    simp only [isMethodCall, List.any_eq_true, Bool.or_eq_true, beq_iff_eq]
    exact ⟨t, htm, Or.inl htt⟩
  have hspec : isDisposerFunc f = true := by
    rw [isDisposerFunc_eq_spec_plain f hrecv]
    unfold specDisposer
    rw [hp]
    simp only [ht, decide_True, Bool.true_or, hrefs, Bool.not_false,
      Bool.true_and, matchFound, if_true, Bool.and_eq_true, List.any_eq_true]
    exact ⟨⟨_, hmem, hboth _ _⟩, ⟨_, hmem, hboth _ _⟩⟩
  have hmem2 : f ∈ pass.srcFuncs.filter isDisposerFunc := List.mem_filter.2 ⟨hf, hspec⟩
  have hlen : (pass.srcFuncs.filter isDisposerFunc).length > 0 :=
    List.length_pos_of_mem hmem2
  refine ⟨⟨(pass.srcFuncs.filter isDisposerFunc).map (fun f => Fn.mk f.pkg f.name)⟩, ?_, ?_⟩
  · rw [analyze_eq, if_pos hlen]
  · exact List.mem_map.2 ⟨f, hmem2, rfl⟩

/-- C20 at a method: a return instruction with a result of the type
`io.ReadCloser` satisfies `isReadCall` and `isCloseCall`, and the plain function
`passThrough` is exported; the method `passThrough` has exactly one parameter,
of the type of the handle, whose only referrer is the return of it, yet
`analyze` exports no fact for its unit: the collector inspects the first entry
of `Params`, the receiver. -/
theorem C20_method_not_collected :
    (∀ (pos : Nat) (results : List GoType),
        (∃ t ∈ results, typeString t = readCloserType) →
        isReadCall (.ret pos results) = true ∧ isCloseCall (.ret pos results) = true)
    ∧ analyze (Fixture.passOf "c" [Fixture.passThrough] (fun _ => none))
        = some ⟨[⟨"c", "passThrough"⟩]⟩
    ∧ Fixture.passThroughMethod.params.map (fun p => (typeString p.type, p.referrers.length))
        = [(readCloserType, 1)]
    ∧ Fixture.passThroughMethod.params.map
        (fun p => p.referrers.all (fun i => isReadCall i && isCloseCall i)) = [true]
    ∧ analyze (Fixture.passOf "c" [Fixture.passThroughMethod] (fun _ => none)) = none := by
  refine ⟨?_, by decide, by decide, by decide, by decide⟩
  rintro pos results ⟨t, htm, htt⟩
  simp only [isReadCall, isCloseCall, isMethodCall, List.any_eq_true, Bool.or_eq_true,
    beq_iff_eq]
  exact ⟨⟨t, htm, Or.inl htt⟩, ⟨t, htm, Or.inl htt⟩⟩

/-- C20 at a method, on an instance of the return instruction of `passThrough`. -/
theorem C20_method_not_collected_witness :
    isReadCall (.ret 5 [Fixture.tReadCloser]) = true
    ∧ isCloseCall (.ret 5 [Fixture.tReadCloser]) = true :=
  C20_method_not_collected.1 5 [Fixture.tReadCloser] ⟨Fixture.tReadCloser, by simp, by decide⟩

/-! ## C15: the response consumed through a field address -/

theorem addrReferrersLoop_none (pass : Pass) (l : List Instruction) (st st1 : State)
    (h : addrReferrersLoop pass l st = some (none, st1)) : st1 = st := by
  induction l with
  | nil =>
    simp only [addrReferrersLoop, Option.some.injEq, Prod.mk.injEq, true_and] at h
    exact h.symm
  | cons i rest ih =>
    cases i with
    | makeClosure q f mcRefs =>
      rw [addrReferrersLoop] at h
      split at h
      · cases h
      · cases hc : calledInFunc pass f (isClosureCalled mcRefs)
            { st with skipFile := (noImportedNetHTTP pass st.skipFile f).2 } with
        | none => rw [hc] at h; cases h
        | some r => rw [hc] at h; cases h
    | _ =>
      apply ih
      simpa [addrReferrersLoop] using h

theorem addrReferrersLoop_false (pass : Pass) (l : List Instruction) (st st1 : State)
    (h : addrReferrersLoop pass l st = some (some false, st1)) :
    ∃ (q : Nat) (apre apost : List Instruction) (f : Function) (mcRefs : List Instruction),
      l = apre ++ .makeClosure q f mcRefs :: apost
      ∧ (∀ i ∈ apre, isMakeClosure i = false)
      ∧ ((noImportedNetHTTP pass st.skipFile f).1 = true
          ∨ calledInFunc pass f (isClosureCalled mcRefs)
              { st with skipFile := (noImportedNetHTTP pass st.skipFile f).2 }
              = some (false, st1)) := by
  induction l with
  | nil => simp [addrReferrersLoop] at h
  | cons i rest ih =>
    have step : isMakeClosure i = false → addrReferrersLoop pass rest st = some (some false, st1) →
        ∃ (q : Nat) (apre apost : List Instruction) (f : Function) (mcRefs : List Instruction),
          i :: rest = apre ++ .makeClosure q f mcRefs :: apost
          ∧ (∀ j ∈ apre, isMakeClosure j = false)
          ∧ ((noImportedNetHTTP pass st.skipFile f).1 = true
              ∨ calledInFunc pass f (isClosureCalled mcRefs)
                  { st with skipFile := (noImportedNetHTTP pass st.skipFile f).2 }
                  = some (false, st1)) := by
      intro hi h2
      obtain ⟨q, apre, apost, f, mcRefs, hl, hpre, hm⟩ := ih h2
      refine ⟨q, i :: apre, apost, f, mcRefs, by rw [hl]; rfl, ?_, hm⟩
      intro j hj
      rcases List.mem_cons.1 hj with rfl | hj
      · exact hi
      · exact hpre j hj
    cases i with
    | makeClosure q f mcRefs =>
      refine ⟨q, [], rest, f, mcRefs, rfl, (by intro j hj; cases hj), ?_⟩
      rw [addrReferrersLoop] at h
      split at h
      · rename_i hn
        exact Or.inl hn
      · right
        cases hc : calledInFunc pass f (isClosureCalled mcRefs)
            { st with skipFile := (noImportedNetHTTP pass st.skipFile f).2 } with
        | none => rw [hc] at h; cases h
        | some r =>
          rw [hc] at h
          obtain ⟨b, s⟩ := r
          simp only [returned, Option.some.injEq, Prod.mk.injEq] at h
          rw [h.1, h.2]
    | _ =>
      apply step rfl
      simpa [addrReferrersLoop] using h

theorem responseReferrersLoop_none (pass : Pass) (l : List Instruction) (st st1 : State)
    (h : responseReferrersLoop pass l st = some (none, st1)) : st1 = st := by
  induction l with
  | nil =>
    simp only [responseReferrersLoop, Option.some.injEq, Prod.mk.injEq, true_and] at h
    exact h.symm
  | cons i rest ih =>
    cases i with
    | store p a =>
      cases a with
      | none => simp [responseReferrersLoop] at h
      | some addrRefs =>
        rw [responseReferrersLoop] at h
        split at h
        · cases h
        · cases ha : addrReferrersLoop pass addrRefs st with
          | none => rw [ha] at h; cases h
          | some r =>
            obtain ⟨o, s⟩ := r
            cases o with
            | some b => rw [ha] at h; cases h
            | none =>
              rw [ha] at h
              have hs := addrReferrersLoop_none pass addrRefs st s ha
              subst hs
              exact ih h
    | call c =>
      rw [responseReferrersLoop_call] at h
      exact absurd h (decided_ne_continue _ _ _ _)
    | defer p cc =>
      rw [responseReferrersLoop_defer] at h
      exact absurd h (decided_ne_continue _ _ _ _)
    | fieldAddr p t refs =>
      rw [responseReferrersLoop_fieldAddr] at h
      exact absurd h (decided_ne_continue _ _ _ _)
    | _ =>
      apply ih
      simpa [responseReferrersLoop] using h

theorem responseReferrersLoop_false (pass : Pass) (l : List Instruction) (st st1 : State)
    (h : responseReferrersLoop pass l st = some (some false, st1)) :
    ∃ d ∈ l, positiveMatch pass st d := by
  induction l with
  | nil => simp [responseReferrersLoop] at h
  | cons i rest ih =>
    have step : responseReferrersLoop pass rest st = some (some false, st1) →
        ∃ d ∈ i :: rest, positiveMatch pass st d := by
      intro h2
      obtain ⟨d, hd, hm⟩ := ih h2
      exact ⟨d, List.mem_cons_of_mem _ hd, hm⟩
    cases i with
    | store p a =>
      cases a with
      | none => simp [responseReferrersLoop] at h
      | some addrRefs =>
        rw [responseReferrersLoop] at h
        split at h
        · cases h
        · cases ha : addrReferrersLoop pass addrRefs st with
          | none => rw [ha] at h; cases h
          | some r =>
            obtain ⟨o, s⟩ := r
            cases o with
            | some b =>
              rw [ha] at h
              simp only [orContinue, Option.some.injEq, Prod.mk.injEq] at h
              obtain ⟨hb, hs⟩ := h
              subst hb
              subst hs
              obtain ⟨q, apre, apost, f, mcRefs, hl, hpre, hm⟩ :=
                addrReferrersLoop_false pass addrRefs st s ha
              refine ⟨_, List.mem_cons_self _ _, Or.inr ⟨p, q, apre, apost, f, mcRefs, ?_, hpre, ?_⟩⟩
              · rw [hl]
              · rcases hm with hm | hm
                · exact Or.inl hm
                · exact Or.inr ⟨s, hm⟩
            | none =>
              rw [ha] at h
              have hs := addrReferrersLoop_none pass addrRefs st s ha
              subst hs
              exact step h
    | call c =>
      rw [responseReferrersLoop_call] at h
      obtain ⟨x, c1, hx, hb, _⟩ := decided_some_inv _ _ _ _ _ h
      have hx1 : x = true := by
        cases x with
        | true => rfl
        | false => cases hb
      subst hx1
      exact ⟨_, List.mem_cons_self _ _,
        Or.inl (Or.inl ((isDisposeCall_true_iff pass st.funcCollector _).1 ⟨c1, hx⟩))⟩
    | defer p cc =>
      rw [responseReferrersLoop_defer] at h
      obtain ⟨x, c1, hx, hb, _⟩ := decided_some_inv _ _ _ _ _ h
      have hx1 : x = true := by
        cases x with
        | true => rfl
        | false => cases hb
      subst hx1
      exact ⟨_, List.mem_cons_self _ _,
        Or.inl (Or.inl ((isDisposeCall_true_iff pass st.funcCollector _).1 ⟨c1, hx⟩))⟩
    | fieldAddr p t bRefs =>
      rw [responseReferrersLoop_fieldAddr] at h
      obtain ⟨x, c1, hx, hb, _⟩ := decided_some_inv _ _ _ _ _ h
      subst hb
      obtain ⟨bpre, bpost, bop, b, hl, hpre, hb, hk⟩ :=
        fieldAddrCase_false_inv pass bRefs st.funcCollector c1 hx
      exact ⟨_, List.mem_cons_self _ _,
        Or.inl (Or.inr ⟨p, t, bpre, bpost, bop, b, by rw [hl], hpre, hb, hk⟩)⟩
    | _ =>
      apply step
      simpa [responseReferrersLoop] using h

theorem responseValStep_none (pass : Pass) (st st1 : State) (o : Option Value)
    (h : responseValStep pass st o = some (none, st1)) : st1 = st := by
  cases o with
  | none =>
    simp only [responseValStep, Option.some.injEq, Prod.mk.injEq, true_and] at h
    exact h.symm
  | some val =>
    simp only [responseValStep, responseValCase] at h
    split at h
    · cases h
    · exact responseReferrersLoop_none pass val.referrers st st1 h

theorem callReferrersLoop_false (pass : Pass) (t : GoType) (all l : List Instruction)
    (st st1 : State)
    (h : callReferrersLoop pass t
        (fun s => responseValCase all s (responseReferrersLoop pass all s)) l st
      = some (some false, st1)) :
    ∃ v ∈ l, ∃ val, getResponseVal ⟨t, all⟩ v = some val
      ∧ ∃ d ∈ val.referrers, positiveMatch pass st d := by
  induction l with
  | nil => simp [callReferrersLoop] at h
  | cons i rest ih =>
    rw [callReferrersLoop_cons] at h
    cases hs : responseValStep pass st (getResponseVal ⟨t, all⟩ i) with
    | none => rw [hs] at h; cases h
    | some r =>
      obtain ⟨o, s⟩ := r
      rw [hs] at h
      cases o with
      | some b =>
        simp only [orContinue, Option.some.injEq, Prod.mk.injEq] at h
        obtain ⟨hb, hst⟩ := h
        subst hb
        subst hst
        cases hg : getResponseVal ⟨t, all⟩ i with
        | none => rw [hg] at hs; simp [responseValStep] at hs
        | some val =>
          rw [hg] at hs
          simp only [responseValStep, responseValCase] at hs
          split at hs
          · cases hs
          · exact ⟨i, List.mem_cons_self _ _, val, hg,
              responseReferrersLoop_false pass val.referrers st s hs⟩
      | none =>
        have hst := responseValStep_none pass st s _ hs
        subst hst
        obtain ⟨v, hv, val, hval, hd⟩ := ih h
        exact ⟨v, List.mem_cons_of_mem _ hv, val, hval, hd⟩

/-- The answer false of `isNotDisposed` comes with a positive match at a use of
a response value among the referrers of the call. -/
theorem isNotDisposed_false_inv (pass : Pass) (call : Call) (st st1 : State)
    (h : isNotDisposed pass call st = some (false, st1)) :
    ∃ v ∈ call.referrers, ∃ val, getResponseVal call.toValue v = some val
      ∧ ∃ d ∈ val.referrers, positiveMatch pass st d := by
  rw [isNotDisposed_eq] at h
  split at h
  · cases h
  · cases hl : callReferrersLoop pass call.type
        (fun s => responseValCase call.referrers s (responseReferrersLoop pass call.referrers s))
        call.referrers st with
    | none => rw [hl] at h; cases h
    | some r =>
      obtain ⟨o, s⟩ := r
      rw [hl] at h
      cases o with
      | none => cases h
      | some b =>
        simp only [finish, Option.some.injEq, Prod.mk.injEq] at h
        obtain ⟨hb, hs⟩ := h
        subst hb
        subst hs
        exact callReferrersLoop_false pass call.type call.referrers call.referrers st s hl

/-! ### The answer false of `calledInFunc` -/

theorem closeCallLoop_some (called : Bool) (cs : List Instruction) (b : Bool)
    (h : closeCallLoop called cs = some b) :
    b = !called ∧ ∃ c ∈ cs, isCloseInvoke c = true := by
  induction cs with
  | nil => simp [closeCallLoop] at h
  | cons x rest ih =>
    have step : closeCallLoop called rest = some b →
        b = !called ∧ ∃ c ∈ x :: rest, isCloseInvoke c = true := by
      intro h2
      obtain ⟨hb, c, hc, hi⟩ := ih h2
      exact ⟨hb, c, List.mem_cons_of_mem _ hc, hi⟩
    cases x with
    | call c =>
      rw [closeCallLoop] at h
      split at h
      · rename_i hi
        simp only [Option.some.injEq] at h
        exact ⟨h.symm, _, List.mem_cons_self _ _, by simpa [isCloseInvoke] using hi⟩
      · exact step h
    | _ =>
      apply step
      simpa [closeCallLoop] using h

theorem vrefsLoop_false (called : Bool) (l : List Instruction)
    (h : vrefsLoop called l = some false) :
    called = true ∧ ∃ u ∈ l, ∃ (p : Nat) (op : Token) (t : GoType) (vrefs : List Instruction),
      u = .unOp p op t vrefs ∧ ∃ c ∈ vrefs, isCloseInvoke c = true := by
  induction l with
  | nil => simp [vrefsLoop] at h
  | cons x rest ih =>
    have step : vrefsLoop called rest = some false →
        called = true ∧ ∃ u ∈ x :: rest, ∃ (p : Nat) (op : Token) (t : GoType)
          (vrefs : List Instruction),
          u = .unOp p op t vrefs ∧ ∃ c ∈ vrefs, isCloseInvoke c = true := by
      intro h2
      obtain ⟨hb, u, hu, hr⟩ := ih h2
      exact ⟨hb, u, List.mem_cons_of_mem _ hu, hr⟩
    cases x with
    | unOp p op t vrefs =>
      rw [vrefsLoop] at h
      split at h
      · cases h
      · cases hc : closeCallLoop called vrefs with
        | none =>
          rw [hc] at h
          exact step h
        | some b =>
          rw [hc] at h
          simp only [Option.some.injEq] at h
          subst h
          obtain ⟨hb, hcl⟩ := closeCallLoop_some called vrefs false hc
          refine ⟨?_, _, List.mem_cons_self _ _, p, op, t, vrefs, rfl, hcl⟩
          cases called with
          | true => rfl
          | false => cases hb
    | _ =>
      apply step
      simpa [vrefsLoop] using h

theorem refsLoop_false (called : Bool) (l : List Instruction)
    (h : refsLoop called l = some false) : called = true ∧ closeReached l := by
  induction l with
  | nil => simp [refsLoop] at h
  | cons x rest ih =>
    have step : refsLoop called rest = some false → called = true ∧ closeReached (x :: rest) := by
      intro h2
      obtain ⟨hb, r, hr, hrest⟩ := ih h2
      exact ⟨hb, r, List.mem_cons_of_mem _ hr, hrest⟩
    rw [refsLoop] at h
    split at h
    · rename_i v hv
      split at h
      · rename_i elem ht
        split at h
        · rename_i hn
          cases hl : vrefsLoop called v.referrers with
          | none =>
            rw [hl] at h
            exact step h
          | some b =>
            rw [hl] at h
            simp only [Option.some.injEq] at h
            subst h
            obtain ⟨hb, hu⟩ := vrefsLoop_false called v.referrers hl
            exact ⟨hb, x, List.mem_cons_self _ _, v, hv, ⟨elem, ht, hn⟩, hu⟩
        · exact step h
      · exact step h
    · exact step h

theorem calledInFuncUnOp_false (called : Bool) (refs : List Instruction)
    (h : calledInFuncUnOp refs called = some false) : called = true ∧ closeReached refs := by
  unfold calledInFuncUnOp at h
  split at h
  · cases h
  · exact refsLoop_false called refs h

theorem getReqCall_call (c c1 : Call) (h : getReqCall (.call c) = some c1) : c1 = c := by
  simp only [getReqCall] at h
  split at h
  · simp only [Option.some.injEq] at h
    exact h.symm
  · cases h

theorem instrsLoop_none (pass : Pass) (called : Bool) (l : List Instruction) (st st1 : State)
    (h : instrsLoop pass called l st = some (none, st1)) :
    st1 = st ∧ ∀ i ∈ l, undecided called i = true := by
  induction l with
  | nil =>
    simp only [instrsLoop, Option.some.injEq, Prod.mk.injEq, true_and] at h
    exact ⟨h.symm, by intro i hi; cases hi⟩
  | cons x rest ih =>
    have step : undecided called x = true → instrsLoop pass called rest st = some (none, st1) →
        st1 = st ∧ ∀ i ∈ x :: rest, undecided called i = true := by
      intro hx h2
      obtain ⟨hs, hall⟩ := ih h2
      refine ⟨hs, ?_⟩
      intro i hi
      rcases List.mem_cons.1 hi with rfl | hi
      · exact hx
      · exact hall i hi
    cases x with
    | unOp p op t refs =>
      rw [instrsLoop] at h
      cases hu : calledInFuncUnOp refs called with
      | some b => rw [hu] at h; cases h
      | none =>
        rw [hu] at h
        exact step (by simp [undecided, hu]) h
    | call c =>
      rw [instrsLoop] at h
      cases hg : getReqCall (.call c) with
      | some c1 =>
        rw [hg] at h
        cases hn : isNotDisposed pass c st with
        | none => rw [hn] at h; cases h
        | some r => rw [hn] at h; cases h
      | none =>
        rw [hg] at h
        exact step (by simp [undecided, hg]) h
    | _ =>
      apply step (by simp [undecided, getReqCall])
      simpa [instrsLoop] using h

theorem instrsLoop_false (pass : Pass) (called : Bool) (l : List Instruction) (st st1 : State)
    (h : instrsLoop pass called l st = some (some false, st1)) :
    called = true ∧ ∃ i ∈ l, closureBodyClears pass st st1 i := by
  induction l with
  | nil => simp [instrsLoop] at h
  | cons x rest ih =>
    have step : instrsLoop pass called rest st = some (some false, st1) →
        called = true ∧ ∃ i ∈ x :: rest, closureBodyClears pass st st1 i := by
      intro h2
      obtain ⟨hc, i, hi, hcl⟩ := ih h2
      exact ⟨hc, i, List.mem_cons_of_mem _ hi, hcl⟩
    cases x with
    | unOp p op t refs =>
      rw [instrsLoop] at h
      cases hu : calledInFuncUnOp refs called with
      | some b =>
        rw [hu] at h
        simp only [Option.some.injEq, Prod.mk.injEq] at h
        obtain ⟨hb, _⟩ := h
        subst hb
        obtain ⟨hc, hr⟩ := calledInFuncUnOp_false called refs hu
        exact ⟨hc, _, List.mem_cons_self _ _, Or.inl ⟨p, op, t, refs, rfl, hr⟩⟩
      | none =>
        rw [hu] at h
        exact step h
    | call c =>
      rw [instrsLoop] at h
      cases hg : getReqCall (.call c) with
      | some c1 =>
        rw [hg] at h
        have hc1 := getReqCall_call c c1 hg
        subst hc1
        cases hn : isNotDisposed pass c1 st with
        | none => rw [hn] at h; cases h
        | some r =>
          obtain ⟨b, s⟩ := r
          rw [hn] at h
          simp only [returned, Option.some.injEq, Prod.mk.injEq, Bool.or_eq_false_iff,
            Bool.not_eq_false'] at h
          obtain ⟨⟨hb, hc⟩, hs⟩ := h
          subst hb
          subst hs
          exact ⟨hc, _, List.mem_cons_self _ _, Or.inr ⟨c1, rfl, hg, hn⟩⟩
      | none =>
        rw [hg] at h
        exact step h
    | _ =>
      apply step
      simpa [instrsLoop] using h

theorem blocksLoop_none (pass : Pass) (called : Bool) (bs : List (List Instruction))
    (st st1 : State) (h : blocksLoop pass called bs st = some (none, st1)) :
    st1 = st ∧ ∀ b ∈ bs, ∀ i ∈ b, undecided called i = true := by
  induction bs with
  | nil =>
    simp only [blocksLoop, Option.some.injEq, Prod.mk.injEq, true_and] at h
    exact ⟨h.symm, by intro b hb; cases hb⟩
  | cons b rest ih =>
    rw [blocksLoop] at h
    cases hi : instrsLoop pass called b st with
    | none => rw [hi] at h; cases h
    | some r =>
      obtain ⟨o, s⟩ := r
      rw [hi] at h
      cases o with
      | some x => cases h
      | none =>
        obtain ⟨hs, hb⟩ := instrsLoop_none pass called b st s hi
        subst hs
        obtain ⟨hs1, hrest⟩ := ih h
        refine ⟨hs1, ?_⟩
        intro b1 hb1
        rcases List.mem_cons.1 hb1 with rfl | hb1
        · exact hb
        · exact hrest b1 hb1

theorem blocksLoop_false (pass : Pass) (called : Bool) (bs : List (List Instruction))
    (st st1 : State) (h : blocksLoop pass called bs st = some (some false, st1)) :
    called = true ∧ ∃ b ∈ bs, ∃ i ∈ b, closureBodyClears pass st st1 i := by
  induction bs with
  | nil => simp [blocksLoop] at h
  | cons b rest ih =>
    rw [blocksLoop] at h
    cases hi : instrsLoop pass called b st with
    | none => rw [hi] at h; cases h
    | some r =>
      obtain ⟨o, s⟩ := r
      rw [hi] at h
      cases o with
      | some x =>
        simp only [orContinue, Option.some.injEq, Prod.mk.injEq] at h
        obtain ⟨hx, hs⟩ := h
        subst hx
        subst hs
        obtain ⟨hc, i, hib, hcl⟩ := instrsLoop_false pass called b st s hi
        exact ⟨hc, b, List.mem_cons_self _ _, i, hib, hcl⟩
      | none =>
        obtain ⟨hs, _⟩ := instrsLoop_none pass called b st s hi
        subst hs
        obtain ⟨hc, b1, hb1, hrest⟩ := ih h
        exact ⟨hc, b1, List.mem_cons_of_mem _ hb1, hrest⟩

/-- The answer false of `calledInFunc` is the end of a scan on which no
instruction decides, or comes for a closure that is called or deferred from a
load that reaches a call of `Close` or from an acquisition call that is disposed of. -/
theorem calledInFunc_false_inv (pass : Pass) (f : Function) (called : Bool) (st st1 : State)
    (h : calledInFunc pass f called st = some (false, st1)) :
    (∀ b ∈ f.blocks, ∀ i ∈ b, undecided called i = true)
    ∨ (called = true ∧ ∃ b ∈ f.blocks, ∃ i ∈ b, closureBodyClears pass st st1 i) := by
  rw [calledInFunc_eq] at h
  cases hl : blocksLoop pass called f.blocks st with
  | none => rw [hl] at h; cases h
  | some r =>
    obtain ⟨o, s⟩ := r
    rw [hl] at h
    cases o with
    | none => exact Or.inl (blocksLoop_none pass called f.blocks st s hl).2
    | some b =>
      simp only [finish, Option.some.injEq, Prod.mk.injEq] at h
      obtain ⟨hb, hs⟩ := h
      subst hb
      subst hs
      exact Or.inr (blocksLoop_false pass called f.blocks st s hl)

/-- C14, as amended: `isNotDisposed` returns false only with a positive match at
a use of a response value among the referrers of the call: a call or deferred
call of a recorded disposer that takes the response or a loaded body handle of
it, or a store whose first closure is in a file for which `noImportedNetHTTP`
answers true or for which `calledInFunc` returns false; without such a match an
answer it returns is true.  `calledInFunc` returns false at the end of a scan
on which no instruction decides, the closure called or not, and for a closure
that is called or deferred at a load that reaches a call of `Close` or at an
acquisition call that is disposed of. -/
theorem C14_conservative_default (pass : Pass) :
    (∀ (call : Call) (st st1 : State), isNotDisposed pass call st = some (false, st1) →
        ∃ v ∈ call.referrers, ∃ val, getResponseVal call.toValue v = some val
          ∧ ∃ d ∈ val.referrers, positiveMatch pass st d)
    ∧ (∀ (call : Call) (st st1 : State) (b : Bool), isNotDisposed pass call st = some (b, st1) →
        (∀ v ∈ call.referrers, ∀ val, getResponseVal call.toValue v = some val →
          ∀ d ∈ val.referrers, ¬ positiveMatch pass st d) → b = true)
    ∧ (∀ (f : Function) (called : Bool) (st st1 : State),
        calledInFunc pass f called st = some (false, st1) →
        (∀ b ∈ f.blocks, ∀ i ∈ b, undecided called i = true)
        ∨ (called = true ∧ ∃ b ∈ f.blocks, ∃ i ∈ b, closureBodyClears pass st st1 i)) := by
  refine ⟨isNotDisposed_false_inv pass, ?_, calledInFunc_false_inv pass⟩
  intro call st st1 b h hno
  cases b with
  | true => rfl
  | false =>
    obtain ⟨v, hv, val, hval, d, hd, hm⟩ := isNotDisposed_false_inv pass call st st1 h
    exact absurd hm (hno v hv val hval d hd)

/-- C14, as amended, on the request of `a.disposeFunctionCall`, whose answer
false comes with the call of `util.DisposeResponse`, and on the closure
`func() { util.DisposeResponse(r) }` of the unit `b`, on which no instruction decides. -/
theorem C14_conservative_default_witness :
    (∃ v ∈ (Fixture.acquire 19 [Fixture.callTo 23 Fixture.DisposeResponse]).referrers,
      ∃ val, getResponseVal
          (Fixture.acquire 19 [Fixture.callTo 23 Fixture.DisposeResponse]).toValue v = some val
        ∧ ∃ d ∈ val.referrers, positiveMatch Fixture.aPass Fixture.st0 d)
    ∧ ((∀ b ∈ Fixture.anonDispose.blocks, ∀ i ∈ b, undecided true i = true)
      ∨ (true = true ∧ ∃ b ∈ Fixture.anonDispose.blocks, ∃ i ∈ b,
          closureBodyClears Fixture.bPass Fixture.st0 Fixture.st0 i)) :=
  ⟨(C14_conservative_default Fixture.aPass).1
      (Fixture.acquire 19 [Fixture.callTo 23 Fixture.DisposeResponse]) Fixture.st0 _ rfl,
    (C14_conservative_default Fixture.bPass).2.2 Fixture.anonDispose true Fixture.st0
      Fixture.st0 rfl⟩

/-- C14 as stated fails: the closure `func() { log.Println(r.Status) }`, deferred
or only made, has no read, no close and no call of a disposer in its body and is
not short-circuited, yet `isNotDisposed` returns false for the request whose
response it captures; and for a response stored into a variable of the package
`isNotDisposed` returns nothing, the Go code dereferencing a nil pointer. -/
theorem C14_counterexample :
    (noImportedNetHTTP Fixture.bPass [] Fixture.anonLogStatus).1 = false
    ∧ Fixture.anonLogStatus.blocks.all (fun b => b.all (fun i =>
        !isReadCall i && !isCloseCall i
          && decide ((isDisposeCall ⟨none⟩ Fixture.bPass i).map Prod.fst = some false))) = true
    ∧ (isNotDisposed Fixture.bPass
        (Fixture.acquireCaptured Fixture.anonLogStatus [.defer 22 (.mk none none [] Fixture.tFunc true)])
        Fixture.st0).map Prod.fst = some false
    ∧ (isNotDisposed Fixture.bPass (Fixture.acquireCaptured Fixture.anonLogStatus [])
        Fixture.st0).map Prod.fst = some false
    ∧ isNotDisposed Fixture.bPass Fixture.acquireGlobal Fixture.st0 = none := by
  decide

/-! ## C18: the descent into closure bodies -/

theorem instrsLoop_loadScan (pass : Pass) (called : Bool) (l : List Instruction) (st : State)
    (h : ∀ i ∈ l, getReqCall i = none) :
    instrsLoop pass called l st = some (loadScan called l, st) := by
  induction l with
  | nil => rfl
  | cons x rest ih =>
    have ih' := ih (fun j hj => h j (List.mem_cons_of_mem _ hj))
    have hx := h x (List.mem_cons_self _ _)
    cases x with
    | unOp p op t refs =>
      rw [instrsLoop, loadScan]
      cases calledInFuncUnOp refs called with
      | some b => rfl
      | none => exact ih'
    | call c =>
      rw [instrsLoop, hx]
      simpa [loadScan] using ih'
    | _ => simpa [instrsLoop, loadScan] using ih'

theorem blocksLoop_loadScan (pass : Pass) (called : Bool) (bs : List (List Instruction))
    (st : State) (h : ∀ b ∈ bs, ∀ i ∈ b, getReqCall i = none) :
    blocksLoop pass called bs st = some (loadScanBlocks called bs, st) := by
  induction bs with
  | nil => rfl
  | cons b rest ih =>
    rw [blocksLoop, instrsLoop_loadScan pass called b st (h b (List.mem_cons_self _ _)),
      loadScanBlocks]
    cases loadScan called b with
    | some x => rfl
    | none => exact ih (fun b1 hb1 => h b1 (List.mem_cons_of_mem _ hb1))

/-- For a closure whose body has no acquisition call, `calledInFunc` returns the
answer of the scan of the loads of the body (false when no load decides) and
leaves the state as it was, whatever the pass and the state are: it does not
call `isNotDisposed`. -/
theorem calledInFunc_loadScan (pass : Pass) (f : Function) (called : Bool) (st : State)
    (h : ∀ b ∈ f.blocks, ∀ i ∈ b, getReqCall i = none) :
    calledInFunc pass f called st = some ((loadScanBlocks called f.blocks).getD false, st) := by
  rw [calledInFunc_eq, blocksLoop_loadScan pass called f.blocks st h]
  cases loadScanBlocks called f.blocks with
  | none => rfl
  | some b => rfl

/-! ## C17: the closure short-circuit and the map `skipFile` -/

theorem noNetHTTPAmong_iff (pass : Pass) (imports : List ImportSpec) :
    noNetHTTPAmong pass imports = true
      ↔ ∀ impt ∈ imports, ∀ path, impt.unquoted = some path →
          pass.removeVendor path ≠ nethttpPath := by
  induction imports with
  | nil => simp [noNetHTTPAmong]
  | cons impt rest ih =>
    unfold noNetHTTPAmong
    cases hu : impt.unquoted with
    | none =>
      simp only []
      rw [ih]
      constructor
      · intro h i hi path hp
        rcases List.mem_cons.1 hi with rfl | hi
        · rw [hu] at hp
          cases hp
        · exact h i hi path hp
      · intro h i hi
        exact h i (List.mem_cons_of_mem _ hi)
    | some path =>
      by_cases hp : pass.removeVendor path = nethttpPath
      · simp only [hp, beq_self_eq_true, if_true, Bool.false_eq_true, false_iff]
        intro h
        exact h impt (List.mem_cons_self _ _) path hu hp
      · have hb : (pass.removeVendor path == nethttpPath) = false := by simpa using hp
        simp only [hb, Bool.false_eq_true, if_false]
        rw [ih]
        constructor
        · intro h i hi path1 h1
          rcases List.mem_cons.1 hi with rfl | hi
          · rw [hu] at h1
            simp only [Option.some.injEq] at h1
            subst h1
            exact hp
          · exact h i hi path1 h1
        · intro h i hi
          exact h i (List.mem_cons_of_mem _ hi)

theorem coherent_nil (pass : Pass) : coherent pass [] := by
  intro file b h
  simp [mapGet] at h

theorem coherent_mapSet (pass : Pass) (sf : List (AstFile × Bool)) (file : AstFile)
    (h : coherent pass sf) :
    coherent pass (mapSet sf file (noNetHTTPAmong pass file.Imports)) := by
  intro file1 b hb
  by_cases he : file1 = file
  · subst he
    rw [mapGet_mapSet_same] at hb
    simp only [Option.some.injEq] at hb
    exact hb.symm
  · rw [mapGet_mapSet_other sf file file1 _ he] at hb
    exact h file1 b hb

/-- The function `noImportedNetHTTP` keeps the map coherent. -/
theorem noImportedNetHTTP_coherent (pass : Pass) (sf : List (AstFile × Bool)) (f : Function)
    (h : coherent pass sf) : coherent pass (noImportedNetHTTP pass sf f).2 := by
  unfold noImportedNetHTTP
  split
  · exact h
  · split
    · exact h
    · split
      · exact h
      · exact coherent_mapSet pass sf _ h

/-- With a coherent map, the answer of `noImportedNetHTTP` for a function whose
file is found is the answer of the loop over the imports of the file. -/
theorem noImportedNetHTTP_fresh (pass : Pass) (sf : List (AstFile × Bool)) (f : Function)
    (obj : Object) (file : AstFile) (h : coherent pass sf)
    (ho : f.object = some obj) (hf : obj.file = some file) :
    (noImportedNetHTTP pass sf f).1 = noNetHTTPAmong pass file.Imports := by
  unfold noImportedNetHTTP
  rw [ho]
  simp only [hf]
  cases hm : mapGet sf file with
  | some skip => exact h file skip hm
  | none => rfl

theorem noImportedNetHTTP_no_object (pass : Pass) (sf : List (AstFile × Bool)) (f : Function)
    (h : f.object = none ∨ ∃ obj, f.object = some obj ∧ obj.file = none) :
    noImportedNetHTTP pass sf f = (false, sf) := by
  unfold noImportedNetHTTP
  rcases h with h | ⟨obj, ho, hf⟩
  · rw [h]
  · rw [ho]
    simp only [hf]

/-! ### The map stays coherent -/

theorem addrReferrersLoop_coherent (pass : Pass) (l : List Instruction)
    (hf : ∀ (q : Nat) (f : Function) (mcRefs : List Instruction),
      Instruction.makeClosure q f mcRefs ∈ l → calledInFuncKeeps pass f)
    (st : State) (o : Option Bool) (s : State) (hst : coherent pass st.skipFile)
    (h : addrReferrersLoop pass l st = some (o, s)) : coherent pass s.skipFile := by
  induction l with
  | nil =>
    simp only [addrReferrersLoop, Option.some.injEq, Prod.mk.injEq] at h
    rw [← h.2]
    exact hst
  | cons i rest ih =>
    have ih' := ih (fun q f mcRefs hm => hf q f mcRefs (List.mem_cons_of_mem _ hm))
    cases i with
    | makeClosure q f mcRefs =>
      have hst1 : coherent pass
          ({ st with skipFile := (noImportedNetHTTP pass st.skipFile f).2 } : State).skipFile :=
        noImportedNetHTTP_coherent pass st.skipFile f hst
      rw [addrReferrersLoop] at h
      split at h
      · simp only [Option.some.injEq, Prod.mk.injEq] at h
        rw [← h.2]
        exact hst1
      · cases hc : calledInFunc pass f (isClosureCalled mcRefs)
            { st with skipFile := (noImportedNetHTTP pass st.skipFile f).2 } with
        | none => rw [hc] at h; cases h
        | some r =>
          obtain ⟨b, s1⟩ := r
          rw [hc] at h
          simp only [returned, Option.some.injEq, Prod.mk.injEq] at h
          rw [← h.2]
          exact hf q f mcRefs (List.mem_cons_self _ _) _ _ b s1 hst1 hc
    | _ =>
      apply ih'
      simpa [addrReferrersLoop] using h

theorem responseReferrersLoop_coherent (pass : Pass) (l : List Instruction)
    (hf : ∀ (p : Nat) (addrRefs : List Instruction), Instruction.store p (some addrRefs) ∈ l →
      ∀ (q : Nat) (f : Function) (mcRefs : List Instruction),
        Instruction.makeClosure q f mcRefs ∈ addrRefs → calledInFuncKeeps pass f)
    (st : State) (o : Option Bool) (s : State) (hst : coherent pass st.skipFile)
    (h : responseReferrersLoop pass l st = some (o, s)) : coherent pass s.skipFile := by
  induction l with
  | nil =>
    simp only [responseReferrersLoop, Option.some.injEq, Prod.mk.injEq] at h
    rw [← h.2]
    exact hst
  | cons i rest ih =>
    have ih' := ih (fun p addrRefs hm => hf p addrRefs (List.mem_cons_of_mem _ hm))
    cases i with
    | store p a =>
      cases a with
      | none => simp [responseReferrersLoop] at h
      | some addrRefs =>
        rw [responseReferrersLoop] at h
        split at h
        · simp only [Option.some.injEq, Prod.mk.injEq] at h
          rw [← h.2]
          exact hst
        · cases ha : addrReferrersLoop pass addrRefs st with
          | none => rw [ha] at h; cases h
          | some r =>
            obtain ⟨o1, s1⟩ := r
            have hs1 : coherent pass s1.skipFile :=
              addrReferrersLoop_coherent pass addrRefs
                (hf p addrRefs (List.mem_cons_self _ _)) st o1 s1 hst ha
            rw [ha] at h
            cases o1 with
            | some b =>
              simp only [orContinue, Option.some.injEq, Prod.mk.injEq] at h
              rw [← h.2]
              exact hs1
            | none =>
              have hs := addrReferrersLoop_none pass addrRefs st s1 ha
              subst hs
              exact ih' h
    | call c =>
      rw [responseReferrersLoop_call] at h
      rw [decided_skipFile _ _ _ _ _ h]
      exact hst
    | defer p cc =>
      rw [responseReferrersLoop_defer] at h
      rw [decided_skipFile _ _ _ _ _ h]
      exact hst
    | fieldAddr p t bRefs =>
      rw [responseReferrersLoop_fieldAddr] at h
      rw [decided_skipFile _ _ _ _ _ h]
      exact hst
    | _ =>
      apply ih'
      simpa [responseReferrersLoop] using h

theorem callReferrersLoop_coherent (pass : Pass) (t : GoType) (all l : List Instruction)
    (hf : ∀ v ∈ l, ∀ val, getResponseVal ⟨t, all⟩ v = some val →
      ∀ (p : Nat) (addrRefs : List Instruction),
        Instruction.store p (some addrRefs) ∈ val.referrers →
        ∀ (q : Nat) (f : Function) (mcRefs : List Instruction),
          Instruction.makeClosure q f mcRefs ∈ addrRefs → calledInFuncKeeps pass f)
    (st : State) (o : Option Bool) (s : State) (hst : coherent pass st.skipFile)
    (h : callReferrersLoop pass t
        (fun s1 => responseValCase all s1 (responseReferrersLoop pass all s1)) l st
      = some (o, s)) : coherent pass s.skipFile := by
  induction l generalizing st with
  | nil =>
    simp only [callReferrersLoop, Option.some.injEq, Prod.mk.injEq] at h
    rw [← h.2]
    exact hst
  | cons i rest ih =>
    have ih' := ih (fun v hv => hf v (List.mem_cons_of_mem _ hv))
    rw [callReferrersLoop_cons] at h
    cases hs : responseValStep pass st (getResponseVal ⟨t, all⟩ i) with
    | none => rw [hs] at h; cases h
    | some r =>
      obtain ⟨o1, s1⟩ := r
      rw [hs] at h
      have hs1 : coherent pass s1.skipFile := by
        cases hg : getResponseVal ⟨t, all⟩ i with
        | none =>
          rw [hg] at hs
          simp only [responseValStep, Option.some.injEq, Prod.mk.injEq] at hs
          rw [← hs.2]
          exact hst
        | some val =>
          rw [hg] at hs
          simp only [responseValStep, responseValCase] at hs
          split at hs
          · simp only [Option.some.injEq, Prod.mk.injEq] at hs
            rw [← hs.2]
            exact hst
          · exact responseReferrersLoop_coherent pass val.referrers
              (hf i (List.mem_cons_self _ _) val hg) st o1 s1 hst hs
      cases o1 with
      | some b =>
        simp only [orContinue, Option.some.injEq, Prod.mk.injEq] at h
        rw [← h.2]
        exact hs1
      | none => exact ih' s1 hs1 h

theorem isNotDisposed_coherent_of (pass : Pass) (call : Call)
    (hf : ∀ v ∈ call.referrers, ∀ val, getResponseVal call.toValue v = some val →
      ∀ (p : Nat) (addrRefs : List Instruction),
        Instruction.store p (some addrRefs) ∈ val.referrers →
        ∀ (q : Nat) (f : Function) (mcRefs : List Instruction),
          Instruction.makeClosure q f mcRefs ∈ addrRefs → calledInFuncKeeps pass f) :
    isNotDisposedKeeps pass call := by
  intro st b s hst h
  rw [isNotDisposed_eq] at h
  split at h
  · simp only [Option.some.injEq, Prod.mk.injEq] at h
    rw [← h.2]
    exact hst
  · cases hl : callReferrersLoop pass call.type
        (fun s1 => responseValCase call.referrers s1
          (responseReferrersLoop pass call.referrers s1))
        call.referrers st with
    | none => rw [hl] at h; cases h
    | some r =>
      obtain ⟨o, s1⟩ := r
      rw [hl] at h
      have hs1 := callReferrersLoop_coherent pass call.type call.referrers call.referrers hf
        st o s1 hst hl
      cases o with
      | none =>
        simp only [finish, Option.some.injEq, Prod.mk.injEq] at h
        rw [← h.2]
        exact hs1
      | some b1 =>
        simp only [finish, Option.some.injEq, Prod.mk.injEq] at h
        rw [← h.2]
        exact hs1

theorem instrsLoop_coherent (pass : Pass) (called : Bool) (l : List Instruction)
    (hc : ∀ c : Call, Instruction.call c ∈ l → isNotDisposedKeeps pass c)
    (st : State) (o : Option Bool) (s : State) (hst : coherent pass st.skipFile)
    (h : instrsLoop pass called l st = some (o, s)) : coherent pass s.skipFile := by
  induction l with
  | nil =>
    simp only [instrsLoop, Option.some.injEq, Prod.mk.injEq] at h
    rw [← h.2]
    exact hst
  | cons x rest ih =>
    have ih' := ih (fun c hm => hc c (List.mem_cons_of_mem _ hm))
    cases x with
    | unOp p op t refs =>
      rw [instrsLoop] at h
      cases hu : calledInFuncUnOp refs called with
      | some b =>
        rw [hu] at h
        simp only [Option.some.injEq, Prod.mk.injEq] at h
        rw [← h.2]
        exact hst
      | none =>
        rw [hu] at h
        exact ih' h
    | call c =>
      rw [instrsLoop] at h
      cases hg : getReqCall (.call c) with
      | some c1 =>
        rw [hg] at h
        cases hn : isNotDisposed pass c st with
        | none => rw [hn] at h; cases h
        | some r =>
          obtain ⟨b, s1⟩ := r
          rw [hn] at h
          simp only [returned, Option.some.injEq, Prod.mk.injEq] at h
          rw [← h.2]
          exact hc c (List.mem_cons_self _ _) st b s1 hst hn
      | none =>
        rw [hg] at h
        exact ih' h
    | _ =>
      apply ih'
      simpa [instrsLoop] using h

theorem blocksLoop_coherent (pass : Pass) (called : Bool) (bs : List (List Instruction))
    (hc : ∀ b ∈ bs, ∀ c : Call, Instruction.call c ∈ b → isNotDisposedKeeps pass c)
    (st : State) (o : Option Bool) (s : State) (hst : coherent pass st.skipFile)
    (h : blocksLoop pass called bs st = some (o, s)) : coherent pass s.skipFile := by
  induction bs generalizing st with
  | nil =>
    simp only [blocksLoop, Option.some.injEq, Prod.mk.injEq] at h
    rw [← h.2]
    exact hst
  | cons b rest ih =>
    have ih' := ih (fun b1 hb1 => hc b1 (List.mem_cons_of_mem _ hb1))
    rw [blocksLoop] at h
    cases hi : instrsLoop pass called b st with
    | none => rw [hi] at h; cases h
    | some r =>
      obtain ⟨o1, s1⟩ := r
      rw [hi] at h
      have hs1 := instrsLoop_coherent pass called b (hc b (List.mem_cons_self _ _))
        st o1 s1 hst hi
      cases o1 with
      | some x =>
        simp only [orContinue, Option.some.injEq, Prod.mk.injEq] at h
        rw [← h.2]
        exact hs1
      | none => exact ih' s1 hs1 h

theorem calledInFunc_coherent_of (pass : Pass) (f : Function)
    (hc : ∀ b ∈ f.blocks, ∀ c : Call, Instruction.call c ∈ b → isNotDisposedKeeps pass c) :
    calledInFuncKeeps pass f := by
  intro called st b s hst h
  rw [calledInFunc_eq] at h
  cases hl : blocksLoop pass called f.blocks st with
  | none => rw [hl] at h; cases h
  | some r =>
    obtain ⟨o, s1⟩ := r
    rw [hl] at h
    have hs1 := blocksLoop_coherent pass called f.blocks hc st o s1 hst hl
    cases o with
    | none =>
      simp only [finish, Option.some.injEq, Prod.mk.injEq] at h
      rw [← h.2]
      exact hs1
    | some b1 =>
      simp only [finish, Option.some.injEq, Prod.mk.injEq] at h
      rw [← h.2]
      exact hs1

theorem asValue_sizeOf (i : Instruction) (val : Value) (h : i.asValue = some val) :
    sizeOf val.referrers < sizeOf i := by
  cases i with
  | call c =>
    cases c with
    | mk p cc t refs =>
      simp only [Instruction.asValue, Call.toValue, Call.referrers, Option.some.injEq] at h
      subst h
      simp only [Instruction.call.sizeOf_spec, Call.mk.sizeOf_spec]
      omega
  | fieldAddr p t refs =>
    simp only [Instruction.asValue, Option.some.injEq] at h
    subst h
    simp only [Instruction.fieldAddr.sizeOf_spec]
    omega
  | unOp p op t refs =>
    simp only [Instruction.asValue, Option.some.injEq] at h
    subst h
    simp only [Instruction.unOp.sizeOf_spec]
    omega
  | makeClosure p f refs =>
    simp only [Instruction.asValue, Option.some.injEq] at h
    subst h
    simp only [Instruction.makeClosure.sizeOf_spec]
    omega
  | changeInterface p t m refs =>
    simp only [Instruction.asValue, Option.some.injEq] at h
    subst h
    simp only [Instruction.changeInterface.sizeOf_spec]
    omega
  | value p t refs =>
    simp only [Instruction.asValue, Option.some.injEq] at h
    subst h
    simp only [Instruction.value.sizeOf_spec]
    omega
  | defer p cc => simp [Instruction.asValue] at h
  | store p a => simp [Instruction.asValue] at h
  | ret p rs => simp [Instruction.asValue] at h
  | effect p => simp [Instruction.asValue] at h

theorem getResponseVal_sizeOf (x : Value) (v : Instruction) (val : Value)
    (h : getResponseVal x v = some val) :
    val.referrers = x.referrers ∨ sizeOf val.referrers < sizeOf v := by
  unfold getResponseVal at h
  split at h
  · split at h
    · simp only [Option.some.injEq] at h
      subst h
      exact Or.inl rfl
    · cases h
  · split at h
    · rename_i w hw
      split at h
      · simp only [Option.some.injEq] at h
        subst h
        exact Or.inr (asValue_sizeOf v w hw)
      · cases h
    · cases h

theorem closure_sizeOf_lt_call (call : Call) (v : Instruction) (val : Value) (p q : Nat)
    (addrRefs mcRefs : List Instruction) (f : Function)
    (hv : v ∈ call.referrers) (hval : getResponseVal call.toValue v = some val)
    (hs : Instruction.store p (some addrRefs) ∈ val.referrers)
    (hm : Instruction.makeClosure q f mcRefs ∈ addrRefs) : sizeOf f < sizeOf call := by
  have h1 := List.sizeOf_lt_of_mem hm
  have h2 := List.sizeOf_lt_of_mem hs
  have h3 := List.sizeOf_lt_of_mem hv
  have h4 : sizeOf call.referrers < sizeOf call := by
    cases call with
    | mk p1 cc t refs =>
      simp only [Call.referrers, Call.mk.sizeOf_spec]
      omega
  simp only [Instruction.store.sizeOf_spec, Instruction.makeClosure.sizeOf_spec,
    Option.some.sizeOf_spec] at h1 h2
  rcases getResponseVal_sizeOf call.toValue v val hval with h5 | h5
  · have h6 : val.referrers = call.referrers := h5
    rw [h6] at h2
    omega
  · omega

theorem call_sizeOf_lt_function (f : Function) (b : List Instruction) (c : Call)
    (hb : b ∈ f.blocks) (hc : Instruction.call c ∈ b) : sizeOf c < sizeOf f := by
  have h1 := List.sizeOf_lt_of_mem hc
  have h2 := List.sizeOf_lt_of_mem hb
  cases f with
  | mk n pk o r ps rs bs =>
    simp only [Function.blocks] at h2
    simp only [Function.mk.sizeOf_spec]
    simp only [Instruction.call.sizeOf_spec] at h1
    omega

theorem keeps_coherent (pass : Pass) (n : Nat) :
    (∀ c : Call, sizeOf c < n → isNotDisposedKeeps pass c)
    ∧ (∀ f : Function, sizeOf f < n → calledInFuncKeeps pass f) := by
  induction n with
  | zero =>
    exact ⟨fun c h => absurd h (Nat.not_lt_zero _), fun f h => absurd h (Nat.not_lt_zero _)⟩
  | succ n ih =>
    constructor
    · intro c hc
      apply isNotDisposed_coherent_of
      intro v hv val hval p addrRefs hs q f mcRefs hm
      have := closure_sizeOf_lt_call c v val p q addrRefs mcRefs f hv hval hs hm
      exact ih.2 f (by omega)
    · intro f hf
      apply calledInFunc_coherent_of
      intro b hb c hc
      have := call_sizeOf_lt_function f b c hb hc
      exact ih.1 c (by omega)

/-- From a state with a coherent map, `isNotDisposed` leaves a state with a
coherent map. -/
theorem isNotDisposed_coherent (pass : Pass) (call : Call) : isNotDisposedKeeps pass call :=
  (keeps_coherent pass (sizeOf call + 1)).1 call (Nat.lt_succ_self _)

theorem checkInstr_coherent (pass : Pass) (instr : Instruction) (st st1 : State)
    (ds : List Diagnostic) (hst : coherent pass st.skipFile)
    (h : checkInstr pass instr st = some (ds, st1)) : coherent pass st1.skipFile := by
  unfold checkInstr at h
  split at h
  · rename_i call hreq
    split at h
    · cases h
    · rename_i b s hn
      have hs := isNotDisposed_coherent pass call st b s hst hn
      split at h
      · simp only [Option.some.injEq, Prod.mk.injEq] at h
        rw [← h.2]
        exact hs
      · simp only [Option.some.injEq, Prod.mk.injEq] at h
        rw [← h.2]
        exact hs
  · simp only [Option.some.injEq, Prod.mk.injEq] at h
    rw [← h.2]
    exact hst

theorem checkInstrs_coherent (pass : Pass) (instrs : List Instruction) (st st1 : State)
    (ds : List Diagnostic) (hst : coherent pass st.skipFile)
    (h : checkInstrs pass instrs st = some (ds, st1)) : coherent pass st1.skipFile := by
  induction instrs generalizing st ds with
  | nil =>
    simp only [checkInstrs, Option.some.injEq, Prod.mk.injEq] at h
    rw [← h.2]
    exact hst
  | cons i rest ih =>
    rw [checkInstrs_cons] at h
    obtain ⟨ds1, s1, ds2, h1, h2, _⟩ := andThen_some _ _ ds st1 h
    exact ih s1 ds2 (checkInstr_coherent pass i st s1 ds1 hst h1) h2

theorem checkBlocks_coherent (pass : Pass) (blocks : List (List Instruction)) (st st1 : State)
    (ds : List Diagnostic) (hst : coherent pass st.skipFile)
    (h : checkBlocks pass blocks st = some (ds, st1)) : coherent pass st1.skipFile := by
  induction blocks generalizing st ds with
  | nil =>
    simp only [checkBlocks, Option.some.injEq, Prod.mk.injEq] at h
    rw [← h.2]
    exact hst
  | cons b rest ih =>
    rw [checkBlocks_cons] at h
    obtain ⟨ds1, s1, ds2, h1, h2, _⟩ := andThen_some _ _ ds st1 h
    exact ih s1 ds2 (checkInstrs_coherent pass b st s1 ds1 hst h1) h2

/-- The loop of `run` over the functions, started with the empty map as `run`
starts it, ends with a coherent map; so does every part of it. -/
theorem checkFuncs_coherent (pass : Pass) (funcs : List Function) (st st1 : State)
    (ds : List Diagnostic) (hst : coherent pass st.skipFile)
    (h : checkFuncs pass funcs st = some (ds, st1)) : coherent pass st1.skipFile := by
  induction funcs generalizing st ds with
  | nil =>
    simp only [checkFuncs, Option.some.injEq, Prod.mk.injEq] at h
    rw [← h.2]
    exact hst
  | cons fu rest ih =>
    rw [checkFuncs_cons] at h
    obtain ⟨ds1, s1, ds2, h1, h2, _⟩ := andThen_some _ _ ds st1 h
    have hs1 : coherent pass s1.skipFile := by
      unfold checkFunc at h1
      split at h1
      · simp only [Option.some.injEq, Prod.mk.injEq] at h1
        rw [← h1.2]
        exact hst
      · exact checkBlocks_coherent pass fu.blocks st s1 ds1 hst h1
    exact ih s1 ds2 hs1 h2

/-- The store of the response into a variable whose first closure is `f`: the
answer of `isNotDisposed` is false when `noImportedNetHTTP` answers true, and is
what `calledInFunc` returns for `f` otherwise. -/
theorem isNotDisposed_of_closure (pass : Pass) (call : Call) (st : State) (val : Value)
    (cpre cpost rpre rpost apre apost mcRefs : List Instruction) (v : Instruction)
    (p q : Nat) (f : Function)
    (hc : call.referrers = cpre ++ v :: cpost)
    (hpre : ∀ i ∈ cpre, getResponseVal call.toValue i = none)
    (hv : getResponseVal call.toValue v = some val)
    (hr : val.referrers
      = rpre ++ .store p (some (apre ++ .makeClosure q f mcRefs :: apost)) :: rpost)
    (hig : ∀ i ∈ rpre, ignored i = true)
    (hapre : ∀ i ∈ apre, isMakeClosure i = false) :
    isNotDisposed pass call st
      = if (noImportedNetHTTP pass st.skipFile f).1 then
          some (false, { st with skipFile := (noImportedNetHTTP pass st.skipFile f).2 })
        else calledInFunc pass f (isClosureCalled mcRefs)
          { st with skipFile := (noImportedNetHTTP pass st.skipFile f).2 } := by
  have hlen : ((apre ++ .makeClosure q f mcRefs :: apost).length == 0) = false := by simp
  have h0 : responseReferrersLoop pass
      (.store p (some (apre ++ .makeClosure q f mcRefs :: apost)) :: rpost) st
      = orContinue (addrReferrersLoop pass (.makeClosure q f mcRefs :: apost) st)
          (responseReferrersLoop pass rpost) := by
    rw [responseReferrersLoop]
    simp only [hlen, Bool.false_eq_true, if_false]
    rw [addrReferrersLoop_skip pass apre _ st hapre]
  rw [addrReferrersLoop] at h0
  cases hn : (noImportedNetHTTP pass st.skipFile f).1 with
  | true =>
    simp only [hn, if_true] at h0
    simp only [if_true]
    exact isNotDisposed_of_decision pass call st _ val cpre cpost rpre rpost v _ false
      hc hpre hv hr hig h0
  | false =>
    simp only [hn, Bool.false_eq_true, if_false] at h0
    simp only [Bool.false_eq_true, if_false]
    cases hcf : calledInFunc pass f (isClosureCalled mcRefs)
        { st with skipFile := (noImportedNetHTTP pass st.skipFile f).2 } with
    | none =>
      rw [hcf] at h0
      exact isNotDisposed_of_panic pass call st val cpre cpost rpre rpost v _
        hc hpre hv hr hig h0
    | some r =>
      obtain ⟨b, s⟩ := r
      rw [hcf] at h0
      exact isNotDisposed_of_decision pass call st s val cpre cpost rpre rpost v _ b
        hc hpre hv hr hig h0

/-- C17, as amended: the response is stored into a variable and the first
closure made over the variable is of the function `f`, the map `skipFile` being
coherent.  When `f` has an object whose file is found, `isNotDisposed` returns
false, whatever the body of `f` is, if the file has no import whose unquoted,
vendor-stripped path is net/http, and returns what `calledInFunc` returns for
`f` if the file has such an import; the answer of `noImportedNetHTTP` is the
one the imports of the file give, the map holding an entry for the file or not.
When `f` has no object, as the function of a function literal, or no file is
found for it, `isNotDisposed` returns what `calledInFunc` returns for `f`,
whatever any file imports.  The map stays coherent. -/
theorem C17_closure_short_circuit (pass : Pass) (call : Call) (st : State) (val : Value)
    (cpre cpost rpre rpost apre apost mcRefs : List Instruction) (v : Instruction)
    (p q : Nat) (f : Function)
    (hc : call.referrers = cpre ++ v :: cpost)
    (hpre : ∀ i ∈ cpre, getResponseVal call.toValue i = none)
    (hv : getResponseVal call.toValue v = some val)
    (hr : val.referrers
      = rpre ++ .store p (some (apre ++ .makeClosure q f mcRefs :: apost)) :: rpost)
    (hig : ∀ i ∈ rpre, ignored i = true)
    (hapre : ∀ i ∈ apre, isMakeClosure i = false)
    (hcoh : coherent pass st.skipFile) :
    (∀ (obj : Object) (file : AstFile), f.object = some obj → obj.file = some file →
        (lacksNetHTTP pass file → isNotDisposed pass call st
          = some (false, { st with skipFile := (noImportedNetHTTP pass st.skipFile f).2 }))
        ∧ (¬ lacksNetHTTP pass file → isNotDisposed pass call st
            = calledInFunc pass f (isClosureCalled mcRefs)
                { st with skipFile := (noImportedNetHTTP pass st.skipFile f).2 })
        ∧ (noImportedNetHTTP pass st.skipFile f).1 = noNetHTTPAmong pass file.Imports)
    ∧ ((f.object = none ∨ ∃ obj, f.object = some obj ∧ obj.file = none) →
        isNotDisposed pass call st = calledInFunc pass f (isClosureCalled mcRefs) st)
    ∧ coherent pass (noImportedNetHTTP pass st.skipFile f).2
    ∧ (∀ (b : Bool) (st1 : State), isNotDisposed pass call st = some (b, st1) →
        coherent pass st1.skipFile) := by
  have key := isNotDisposed_of_closure pass call st val cpre cpost rpre rpost apre apost mcRefs
    v p q f hc hpre hv hr hig hapre
  refine ⟨?_, ?_, noImportedNetHTTP_coherent pass st.skipFile f hcoh,
    fun b st1 h => isNotDisposed_coherent pass call st b st1 hcoh h⟩
  · intro obj file ho hfile
    have hfresh := noImportedNetHTTP_fresh pass st.skipFile f obj file hcoh ho hfile
    refine ⟨?_, ?_, hfresh⟩
    · intro hl
      have h1 : (noImportedNetHTTP pass st.skipFile f).1 = true := by
        rw [hfresh]
        exact (noNetHTTPAmong_iff pass file.Imports).2 hl
      rw [key, h1]
      rfl
    · intro hl
      have h1 : (noImportedNetHTTP pass st.skipFile f).1 = false := by
        rw [hfresh]
        cases hn : noNetHTTPAmong pass file.Imports with
        | false => rfl
        | true => exact absurd ((noNetHTTPAmong_iff pass file.Imports).1 hn) hl
      rw [key, h1]
      rfl
  · intro hno
    have h1 := noImportedNetHTTP_no_object pass st.skipFile f hno
    rw [key, h1]
    rfl

/-- C17, as amended, on a function with an object in a file without net/http
among its imports and in a file with it, made into a closure over the response
of `client.Get`, and on the function literal `func() { _ = *p }`, which has no
object. -/
theorem C17_closure_short_circuit_witness :
    (lacksNetHTTP Fixture.bPass Fixture.plainFile
      ∧ isNotDisposed Fixture.bPass
          (Fixture.acquireHelped (Fixture.declaredIn Fixture.plainFile)) Fixture.st0
        = some (false, { Fixture.st0 with
            skipFile := (noImportedNetHTTP Fixture.bPass Fixture.st0.skipFile
              (Fixture.declaredIn Fixture.plainFile)).2 }))
    ∧ (¬ lacksNetHTTP Fixture.bPass Fixture.httpFile
      ∧ isNotDisposed Fixture.bPass
          (Fixture.acquireHelped (Fixture.declaredIn Fixture.httpFile)) Fixture.st0
        = calledInFunc Fixture.bPass (Fixture.declaredIn Fixture.httpFile)
            (isClosureCalled [Fixture.deferClosure 22])
            { Fixture.st0 with
              skipFile := (noImportedNetHTTP Fixture.bPass Fixture.st0.skipFile
                (Fixture.declaredIn Fixture.httpFile)).2 })
    ∧ isNotDisposed Fixture.bPass (Fixture.acquireHelped Fixture.anonUnusedLoad) Fixture.st0
      = calledInFunc Fixture.bPass Fixture.anonUnusedLoad
          (isClosureCalled [Fixture.deferClosure 22]) Fixture.st0 :=
  have hl : lacksNetHTTP Fixture.bPass Fixture.plainFile :=
    (noNetHTTPAmong_iff Fixture.bPass Fixture.plainFile.Imports).1 (by decide)
  have hh : ¬ lacksNetHTTP Fixture.bPass Fixture.httpFile :=
    fun h => absurd ((noNetHTTPAmong_iff Fixture.bPass Fixture.httpFile.Imports).2 h)
      (by decide)
  have at_closure : ∀ fn : Function,
      (∀ (obj : Object) (file : AstFile), fn.object = some obj → obj.file = some file →
        (lacksNetHTTP Fixture.bPass file →
          isNotDisposed Fixture.bPass (Fixture.acquireHelped fn) Fixture.st0
            = some (false, { Fixture.st0 with
                skipFile := (noImportedNetHTTP Fixture.bPass Fixture.st0.skipFile fn).2 }))
        ∧ (¬ lacksNetHTTP Fixture.bPass file →
            isNotDisposed Fixture.bPass (Fixture.acquireHelped fn) Fixture.st0
              = calledInFunc Fixture.bPass fn (isClosureCalled [Fixture.deferClosure 22])
                  { Fixture.st0 with
                    skipFile := (noImportedNetHTTP Fixture.bPass Fixture.st0.skipFile fn).2 })
        ∧ (noImportedNetHTTP Fixture.bPass Fixture.st0.skipFile fn).1
            = noNetHTTPAmong Fixture.bPass file.Imports)
      ∧ ((fn.object = none ∨ ∃ obj, fn.object = some obj ∧ obj.file = none) →
          isNotDisposed Fixture.bPass (Fixture.acquireHelped fn) Fixture.st0
            = calledInFunc Fixture.bPass fn (isClosureCalled [Fixture.deferClosure 22])
                Fixture.st0)
      ∧ coherent Fixture.bPass (noImportedNetHTTP Fixture.bPass Fixture.st0.skipFile fn).2
      ∧ (∀ (b : Bool) (st1 : State),
          isNotDisposed Fixture.bPass (Fixture.acquireHelped fn) Fixture.st0 = some (b, st1) →
          coherent Fixture.bPass st1.skipFile) :=
    fun fn => C17_closure_short_circuit Fixture.bPass (Fixture.acquireHelped fn)
      Fixture.st0 ⟨Fixture.tResponse, [Fixture.storeCaptured 19 fn [Fixture.deferClosure 22]]⟩
      [] [] [] [] [.store 19 none] [] [Fixture.deferClosure 22]
      (.value 19 Fixture.tResponse [Fixture.storeCaptured 19 fn [Fixture.deferClosure 22]])
      19 20 fn rfl (by intro i hi; cases hi) rfl rfl
      (by intro i hi; cases hi)
      (by intro i hi; simp only [List.mem_singleton] at hi; subst hi; rfl)
      (coherent_nil Fixture.bPass)
  ⟨⟨hl, ((at_closure (Fixture.declaredIn Fixture.plainFile)).1
      ⟨some Fixture.plainFile⟩ Fixture.plainFile rfl rfl).1 hl⟩,
    ⟨hh, ((at_closure (Fixture.declaredIn Fixture.httpFile)).1
      ⟨some Fixture.httpFile⟩ Fixture.httpFile rfl rfl).2.1 hh⟩,
    (at_closure Fixture.anonUnusedLoad).2.1 (Or.inl rfl)⟩

/-- C17 as stated fails: the function `fetch` is declared in a file that has no
net/http among its imports and gets a response from `client.Get`; the response
is captured by a function literal of its body, in the same file, which is
deferred and leaves the response unused.  `noImportedNetHTTP` answers true for `fetch` and
false for the function literal, which has no object; `isNotDisposed` examines
the body of the literal and returns true.  For a function with the same body
that has an object in that file it returns false. -/
theorem C17_counterexample :
    (noImportedNetHTTP Fixture.bPass []
        (Fixture.fetchIn Fixture.plainFile Fixture.anonUnusedLoad)).1 = true
    ∧ noNetHTTPAmong Fixture.bPass Fixture.plainFile.Imports = true
    ∧ (noImportedNetHTTP Fixture.bPass [] Fixture.anonUnusedLoad).1 = false
    ∧ (isNotDisposed Fixture.bPass (Fixture.acquireHelped Fixture.anonUnusedLoad)
        Fixture.st0).map Prod.fst = some true
    ∧ (isNotDisposed Fixture.bPass
        (Fixture.acquireHelped (Fixture.declaredIn Fixture.plainFile))
        Fixture.st0).map Prod.fst = some false := by
  decide

/-- C19, as amended, on the call `body.Close()`: a close match and no read match. -/
theorem C19_call_matchers_witness :
    (isCloseCall (.call (.mk 6 (.mk none (some Fixture.mClose) [] Fixture.tReadCloser true)
        Fixture.tError [])) = true ↔ ∃ mm, some Fixture.mClose = some mm ∧ mm.name = "Close")
    ∧ ¬ (isReadCall (.call (.mk 6 (.mk none (some Fixture.mClose) [] Fixture.tReadCloser true)
          Fixture.tError [])) = true
        ∧ isCloseCall (.call (.mk 6 (.mk none (some Fixture.mClose) [] Fixture.tReadCloser true)
          Fixture.tError [])) = true) :=
  ⟨(C19_call_matchers.1 6 none (some Fixture.mClose) [] Fixture.tReadCloser true
      Fixture.tError []).2.1,
    (C19_call_matchers.1 6 none (some Fixture.mClose) [] Fixture.tReadCloser true
      Fixture.tError []).2.2⟩

/-! ### The depth of the descent -/

theorem nestingOfList_cons (i : Instruction) (rest : List Instruction) :
    nestingOfList (i :: rest) = max i.nesting (nestingOfList rest) := by
  rw [nestingOfList]

theorem nestingOfBlocks_cons (b : List Instruction) (rest : List (List Instruction)) :
    nestingOfBlocks (b :: rest) = max (nestingOfList b) (nestingOfBlocks rest) := by
  rw [nestingOfBlocks]

theorem addrReferrersLoopWithin_eq (pass : Pass) (d : Nat) (l : List Instruction)
    (hf : ∀ f : Function, sizeOf f < sizeOf l → calledInFuncBounded pass f)
    (hd : nestingOfList l ≤ d) (st : State) :
    addrReferrersLoopWithin d pass l st = addrReferrersLoop pass l st := by
  induction l with
  | nil => rw [addrReferrersLoopWithin, addrReferrersLoop]
  | cons i rest ih =>
    rw [nestingOfList_cons] at hd
    have ih' := ih (fun f h => hf f (by simp only [List.cons.sizeOf_spec]; omega))
      (le_trans (le_max_right _ _) hd)
    cases i with
    | makeClosure q f mcRefs =>
      have hn : f.nesting + 1 ≤ d := by
        have h1 : (Instruction.makeClosure q f mcRefs).nesting ≤ d :=
          le_trans (le_max_left _ _) hd
        rw [Instruction.nesting] at h1
        exact le_trans (le_max_left _ _) h1
      have hfb : calledInFuncBounded pass f :=
        hf f (by simp only [List.cons.sizeOf_spec, Instruction.makeClosure.sizeOf_spec]; omega)
      cases d with
      | zero => omega
      | succ d1 =>
        rw [addrReferrersLoopWithin, addrReferrersLoop, hfb d1 _ _ (by omega)]
    | _ => simpa [addrReferrersLoopWithin, addrReferrersLoop] using ih'

theorem responseReferrersLoopWithin_eq (pass : Pass) (d : Nat) (l : List Instruction)
    (hf : ∀ f : Function, sizeOf f < sizeOf l → calledInFuncBounded pass f)
    (hd : nestingOfList l ≤ d) (st : State) :
    responseReferrersLoopWithin d pass l st = responseReferrersLoop pass l st := by
  induction l generalizing st with
  | nil => rw [responseReferrersLoopWithin, responseReferrersLoop]
  | cons i rest ih =>
    rw [nestingOfList_cons] at hd
    have ih' := ih (fun f h => hf f (by simp only [List.cons.sizeOf_spec]; omega))
      (le_trans (le_max_right _ _) hd)
    cases i with
    | store p a =>
      cases a with
      | none => rw [responseReferrersLoopWithin, responseReferrersLoop]
      | some addrRefs =>
        have hn : nestingOfList addrRefs ≤ d := by
          have h1 : (Instruction.store p (some addrRefs)).nesting ≤ d :=
            le_trans (le_max_left _ _) hd
          rw [Instruction.nesting] at h1
          exact h1
        have ha := addrReferrersLoopWithin_eq pass d addrRefs
          (fun f h => hf f (by
            simp only [List.cons.sizeOf_spec, Instruction.store.sizeOf_spec,
              Option.some.sizeOf_spec]
            omega)) hn st
        have hk : responseReferrersLoopWithin d pass rest = responseReferrersLoop pass rest :=
          funext ih'
        rw [responseReferrersLoopWithin, responseReferrersLoop, ha, hk]
    | call c => rw [responseReferrersLoopWithin, responseReferrersLoop]
    | defer p cc => rw [responseReferrersLoopWithin, responseReferrersLoop]
    | fieldAddr p t bRefs => rw [responseReferrersLoopWithin, responseReferrersLoop]
    | _ => simpa [responseReferrersLoopWithin, responseReferrersLoop] using ih' st

theorem callReferrersLoopWithin_eq (pass : Pass) (d : Nat) (t : GoType)
    (onCall : State → LoopResult) (l : List Instruction)
    (hf : ∀ f : Function, sizeOf f < sizeOf l → calledInFuncBounded pass f)
    (hd : nestingOfList l ≤ d) (st : State) :
    callReferrersLoopWithin d pass t onCall l st = callReferrersLoop pass t onCall l st := by
  induction l generalizing st with
  | nil => rw [callReferrersLoopWithin, callReferrersLoop]
  | cons i rest ih =>
    rw [nestingOfList_cons] at hd
    have ih' := ih (fun f h => hf f (by simp only [List.cons.sizeOf_spec]; omega))
      (le_trans (le_max_right _ _) hd)
    have hk : callReferrersLoopWithin d pass t onCall rest
        = callReferrersLoop pass t onCall rest := funext ih'
    have hi : i.nesting ≤ d := le_trans (le_max_left _ _) hd
    cases i with
    | call c =>
      cases c with
      | mk p cc t2 refs =>
        have hn : nestingOfList refs ≤ d := by
          rw [Instruction.nesting, Call.nesting] at hi
          exact hi
        have hr := responseReferrersLoopWithin_eq pass d refs
          (fun f h => hf f (by
            simp only [List.cons.sizeOf_spec, Instruction.call.sizeOf_spec, Call.mk.sizeOf_spec]
            omega)) hn st
        rw [callReferrersLoopWithin, callReferrersLoop, hr, hk]
    | unOp p o t2 refs =>
      have hn : nestingOfList refs ≤ d := by
        rw [Instruction.nesting] at hi
        exact hi
      have hr := responseReferrersLoopWithin_eq pass d refs
        (fun f h => hf f (by
          simp only [List.cons.sizeOf_spec, Instruction.unOp.sizeOf_spec]
          omega)) hn st
      rw [callReferrersLoopWithin, callReferrersLoop, hr, hk]
    | changeInterface p t2 m refs =>
      have hn : nestingOfList refs ≤ d := by
        rw [Instruction.nesting] at hi
        exact hi
      have hr := responseReferrersLoopWithin_eq pass d refs
        (fun f h => hf f (by
          simp only [List.cons.sizeOf_spec, Instruction.changeInterface.sizeOf_spec]
          omega)) hn st
      rw [callReferrersLoopWithin, callReferrersLoop, hr, hk]
    | value p t2 refs =>
      have hn : nestingOfList refs ≤ d := by
        rw [Instruction.nesting] at hi
        exact hi
      have hr := responseReferrersLoopWithin_eq pass d refs
        (fun f h => hf f (by
          simp only [List.cons.sizeOf_spec, Instruction.value.sizeOf_spec]
          omega)) hn st
      rw [callReferrersLoopWithin, callReferrersLoop, hr, hk]
    | fieldAddr p t2 refs => rw [callReferrersLoopWithin, callReferrersLoop, hk]
    | _ => simp [callReferrersLoopWithin, callReferrersLoop, hk]

theorem isNotDisposedWithin_eq (pass : Pass) (call : Call)
    (hf : ∀ f : Function, sizeOf f < sizeOf call → calledInFuncBounded pass f) :
    isNotDisposedBounded pass call := by
  intro d st hd
  cases call with
  | mk p cc t refs =>
    rw [Call.nesting] at hd
    have hsz : ∀ f : Function, sizeOf f < sizeOf refs → calledInFuncBounded pass f :=
      fun f h => hf f (by simp only [Call.mk.sizeOf_spec]; omega)
    have hon : (fun st1 => responseValCase refs st1 (responseReferrersLoopWithin d pass refs st1))
        = (fun st1 => responseValCase refs st1 (responseReferrersLoop pass refs st1)) :=
      funext (fun st1 => by rw [responseReferrersLoopWithin_eq pass d refs hsz hd st1])
    rw [isNotDisposedWithin, isNotDisposed, hon,
      callReferrersLoopWithin_eq pass d t _ refs hsz hd st]

theorem instrsLoopWithin_eq (pass : Pass) (d : Nat) (called : Bool) (l : List Instruction)
    (hc : ∀ c : Call, sizeOf c < sizeOf l → isNotDisposedBounded pass c)
    (hd : nestingOfList l ≤ d) (st : State) :
    instrsLoopWithin d pass called l st = instrsLoop pass called l st := by
  induction l with
  | nil => rw [instrsLoopWithin, instrsLoop]
  | cons i rest ih =>
    rw [nestingOfList_cons] at hd
    have ih' := ih (fun c h => hc c (by simp only [List.cons.sizeOf_spec]; omega))
      (le_trans (le_max_right _ _) hd)
    have hi : i.nesting ≤ d := le_trans (le_max_left _ _) hd
    cases i with
    | unOp p o t refs => rw [instrsLoopWithin, instrsLoop, ih']
    | call c =>
      have hn : c.nesting ≤ d := by
        rw [Instruction.nesting] at hi
        exact hi
      have hb := hc c (by
        simp only [List.cons.sizeOf_spec, Instruction.call.sizeOf_spec]
        omega) d st hn
      rw [instrsLoopWithin, instrsLoop, hb, ih']
    | _ => simpa [instrsLoopWithin, instrsLoop] using ih'

theorem blocksLoopWithin_eq (pass : Pass) (d : Nat) (called : Bool)
    (bs : List (List Instruction))
    (hc : ∀ c : Call, sizeOf c < sizeOf bs → isNotDisposedBounded pass c)
    (hd : nestingOfBlocks bs ≤ d) (st : State) :
    blocksLoopWithin d pass called bs st = blocksLoop pass called bs st := by
  induction bs generalizing st with
  | nil => rw [blocksLoopWithin, blocksLoop]
  | cons b rest ih =>
    rw [nestingOfBlocks_cons] at hd
    have ih' := ih (fun c h => hc c (by simp only [List.cons.sizeOf_spec]; omega))
      (le_trans (le_max_right _ _) hd)
    have hk : blocksLoopWithin d pass called rest = blocksLoop pass called rest := funext ih'
    have hb := instrsLoopWithin_eq pass d called b
      (fun c h => hc c (by simp only [List.cons.sizeOf_spec]; omega))
      (le_trans (le_max_left _ _) hd) st
    rw [blocksLoopWithin, blocksLoop, hb, hk]

theorem calledInFuncWithin_eq (pass : Pass) (f : Function)
    (hc : ∀ c : Call, sizeOf c < sizeOf f → isNotDisposedBounded pass c) :
    calledInFuncBounded pass f := by
  intro d called st hd
  cases f with
  | mk n pk o r ps rs bs =>
    rw [Function.nesting] at hd
    rw [calledInFuncWithin, calledInFunc,
      blocksLoopWithin_eq pass d called bs
        (fun c h => hc c (by simp only [Function.mk.sizeOf_spec]; omega)) hd st]

theorem within_eq (pass : Pass) (n : Nat) :
    (∀ c : Call, sizeOf c < n → isNotDisposedBounded pass c)
    ∧ (∀ f : Function, sizeOf f < n → calledInFuncBounded pass f) := by
  induction n with
  | zero =>
    exact ⟨fun c h => absurd h (Nat.not_lt_zero _), fun f h => absurd h (Nat.not_lt_zero _)⟩
  | succ n ih =>
    constructor
    · intro c hc
      exact isNotDisposedWithin_eq pass c (fun f h => ih.2 f (by omega))
    · intro f hf
      exact calledInFuncWithin_eq pass f (fun c h => ih.1 c (by omega))

/-- C18, as amended: the evaluation of one acquisition enters, along a chain
`isNotDisposed -> calledInFunc -> isNotDisposed -> ...`, at most as many closure
bodies as closures are nested in the graph below the call: with a bound on the
descent of at least that nesting the evaluation is that of `isNotDisposed`;
so one level is enough when no closure is nested in a closure there.  And for a
closure whose body has no acquisition call, `calledInFunc` returns the answer
of the scan of the loads of the body and leaves the state as it was: it does
not call `isNotDisposed`. -/
theorem C18_closure_descent (pass : Pass) :
    (∀ (call : Call) (d : Nat) (st : State), call.nesting ≤ d →
        isNotDisposedWithin d pass call st = isNotDisposed pass call st)
    ∧ (∀ (call : Call) (st : State), call.nesting ≤ 1 →
        isNotDisposedWithin 1 pass call st = isNotDisposed pass call st)
    ∧ (∀ (f : Function) (called : Bool) (st : State),
        (∀ b ∈ f.blocks, ∀ i ∈ b, getReqCall i = none) →
        calledInFunc pass f called st
          = some ((loadScanBlocks called f.blocks).getD false, st)) := by
  have h1 : ∀ (call : Call) (d : Nat) (st : State), call.nesting ≤ d →
      isNotDisposedWithin d pass call st = isNotDisposed pass call st :=
    fun call d st h => (within_eq pass (sizeOf call + 1)).1 call (Nat.lt_succ_self _) d st h
  exact ⟨h1, fun call st h => h1 call 1 st h, calledInFunc_loadScan pass⟩

/-- C18, as amended, on the request whose response is captured by a deferred
closure that makes a request of its own, captured by a nested closure: two
levels; and on the closure
`func() { _, _ = io.Copy(io.Discard, r.Body); _ = r.Body.Close() }`, deferred. -/
theorem C18_closure_descent_witness :
    ((Fixture.acquireCaptured (Fixture.outerClosure Fixture.anonReadClose)
        [Fixture.deferClosure 22]).nesting ≤ 2
      ∧ isNotDisposedWithin 2 Fixture.bPass
          (Fixture.acquireCaptured (Fixture.outerClosure Fixture.anonReadClose)
            [Fixture.deferClosure 22]) Fixture.st0
        = isNotDisposed Fixture.bPass
          (Fixture.acquireCaptured (Fixture.outerClosure Fixture.anonReadClose)
            [Fixture.deferClosure 22]) Fixture.st0)
    ∧ calledInFunc Fixture.bPass Fixture.anonReadClose true Fixture.st0
      = some ((loadScanBlocks true Fixture.anonReadClose.blocks).getD false, Fixture.st0)
    ∧ (loadScanBlocks true Fixture.anonReadClose.blocks).getD false = false :=
  ⟨⟨by decide, (C18_closure_descent Fixture.bPass).1 _ 2 Fixture.st0 (by decide)⟩,
    (C18_closure_descent Fixture.bPass).2.2 Fixture.anonReadClose true Fixture.st0
      (fun b hb i hi => Option.isNone_iff_eq_none.1
        ((by decide : ∀ b ∈ Fixture.anonReadClose.blocks, ∀ i ∈ b,
            (getReqCall i).isNone = true) b hb i hi)),
    by decide⟩

/-- C18 as stated fails: the deferred closure over the response `r` makes a
request of its own, whose response `r2` is captured by a nested closure that is
deferred.  With the descent bounded to one level the evaluation of the outer
request does not end, the inner `isNotDisposed` entering `calledInFunc` again;
`isNotDisposed` returns false when the nested closure reads and closes the body
of `r2` and true when the nested closure is `func() { _ = *p }`, the two inputs
differing in the body of the nested closure alone. -/
theorem C18_counterexample :
    (isNotDisposedWithin 1 Fixture.bPass
        (Fixture.acquireCaptured (Fixture.outerClosure Fixture.anonReadClose)
          [Fixture.deferClosure 22]) Fixture.st0).map Prod.fst = none
    ∧ (isNotDisposedWithin 2 Fixture.bPass
        (Fixture.acquireCaptured (Fixture.outerClosure Fixture.anonReadClose)
          [Fixture.deferClosure 22]) Fixture.st0).map Prod.fst = some false
    ∧ (isNotDisposed Fixture.bPass
        (Fixture.acquireCaptured (Fixture.outerClosure Fixture.anonReadClose)
          [Fixture.deferClosure 22]) Fixture.st0).map Prod.fst = some false
    ∧ (isNotDisposed Fixture.bPass
        (Fixture.acquireCaptured (Fixture.outerClosure Fixture.anonUnusedLoad)
          [Fixture.deferClosure 22]) Fixture.st0).map Prod.fst = some true
    ∧ (calledInFunc Fixture.bPass (Fixture.outerClosure Fixture.anonReadClose) true
        Fixture.st0).map Prod.fst
      = (isNotDisposed Fixture.bPass (Fixture.nestedRequest Fixture.anonReadClose)
          Fixture.st0).map Prod.fst
    ∧ (isNotDisposed Fixture.bPass (Fixture.nestedRequest Fixture.anonReadClose)
        Fixture.st0).map Prod.fst
      = (calledInFunc Fixture.bPass Fixture.anonReadClose true Fixture.st0).map Prod.fst := by
  decide

end Reuseconn
